import Mathlib

/-! curtis-bot: event translator, session-handle extraction and session registry.

A shallow embedding of `src/translator.js`, `src/claude-runner.js` (`extractSessionId`),
`src/session-store.js` and the streaming handler of `src/server.js`, followed by the
properties proved about them.

Conventions of the embedding.

* A JavaScript string is the list of its UTF-16 code units, so `.length` is `List.length`.
* A JavaScript value is a `JVal`: the values `JSON.parse` can build, plus `undefined` for a
  member that is absent. A number is kept as its decimal rendering.
* A generator is the list of the frames it yields, in order, together with the state it
  leaves behind and a flag telling whether a `TypeError` escaped it.
* `formatSSE(eventType, data)` is kept symbolic: a `Frame` records the event name and the
  members of the payload, not the serialised text.
* Random identifiers (`uuidv4`), the clock (`Date.now()`) and the outcome of file writes are
  explicit arguments.
-/

namespace CurtisBot

/-! ## JavaScript values -/

/-- A JavaScript string: its UTF-16 code units. -/
abbrev JStr := List Nat

/-- The code units of a string literal whose characters all lie in the basic plane. -/
def js (s : String) : JStr := s.toList.map Char.toNat

/-- Values reachable from `JSON.parse`, and `undefined` for an absent member. `num` holds
the decimal rendering of the number (`Number.prototype.toString`), which fixes the number up
to the sign of zero. -/
inductive JVal where
  | undefined
  | null
  | bool (b : Bool)
  | num (shown : JStr)
  | str (s : JStr)
  | arr (items : List JVal)
  | obj (fields : List (JStr × JVal))

namespace JVal

/-- First binding of `k` in the members of an object, `undefined` when there is none. -/
def lookup (k : JStr) : List (JStr × JVal) → JVal
  | [] => undefined
  | (k', v) :: rest => if k' = k then v else lookup k rest

/-- Member read `v.k` (and `v?.k`) for the member names this program uses, none of which is
a built-in member of a string, number, boolean or array: only a plain object answers with
something else than `undefined`. On `null` and `undefined` the plain read `v.k` throws; the
embedding tests `isNullish` before every read that can meet one. -/
def get (v : JVal) (k : JStr) : JVal :=
  match v with
  | obj fields => lookup k fields
  | _ => undefined

/-- ToBoolean. JSON has no NaN, so a number is falsy exactly when it renders as `0`. -/
def truthy : JVal → Bool
  | undefined => false
  | null => false
  | bool b => b
  | num shown => shown != js "0"
  | str s => !s.isEmpty
  | arr _ => true
  | obj _ => true

/-- The test `v === null || v === undefined`. -/
def isNullish : JVal → Bool
  | undefined => true
  | null => true
  | _ => false

/-- The test `typeof v === "object"`. -/
def isObjectType : JVal → Bool
  | null => true
  | arr _ => true
  | obj _ => true
  | _ => false

/-- The test `typeof v === "string"`. -/
def isString : JVal → Bool
  | str _ => true
  | _ => false

/-- Strict equality `v === lit` against a string literal. -/
def eqStr (v : JVal) (lit : JStr) : Bool :=
  match v with
  | str s => s == lit
  | _ => false

/-- The operator `a || b`. -/
def or (a b : JVal) : JVal := if a.truthy then a else b

/-- Whether an object has an own member called `k`. -/
def hasKey (k : JStr) (fields : List (JStr × JVal)) : Bool := fields.any (fun p => p.1 == k)

mutual
/-- String coercion (ToString after ToPrimitive), `none` when it throws a `TypeError`: an
object built by `JSON.parse` coerces to `[object Object]` unless it has an own member
`toString`, which is never callable; an array coerces to `join(",")`. -/
def toStr : JVal → Option JStr
  | undefined => some (js "undefined")
  | null => some (js "null")
  | bool true => some (js "true")
  | bool false => some (js "false")
  | num shown => some shown
  | str s => some s
  | arr items => joinComma items
  | obj fields => if hasKey (js "toString") fields then none else some (js "[object Object]")
termination_by structural v => v
/-- The method `Array.prototype.join` with the separator `,`: null and undefined elements
render as the empty string. -/
def joinComma : List JVal → Option JStr
  | [] => some []
  | x :: rest =>
      let a := if x.isNullish then some [] else toStr x
      match rest with
      | [] => a
      | _ :: _ =>
        match a, joinComma rest with
        | some a, some b => some (a ++ js "," ++ b)
        | _, _ => none
termination_by structural l => l
end

/-- The call `xs.join("")`: null and undefined elements render as the empty string, every
other element is coerced to a string; `none` when a coercion throws. -/
def joinEmpty : List JVal → Option JStr
  | [] => some []
  | x :: rest =>
      match (if x.isNullish then some [] else toStr x), joinEmpty rest with
      | some a, some b => some (a ++ b)
      | _, _ => none

end JVal

open JVal

/-! ## translator.js -/

/-- The constant `MODEL_ID`. -/
def MODEL_ID : JStr := js "claude-code"

/-- A default parameter `model = MODEL_ID`: the default applies when the argument is
`undefined`. -/
def modelOrDefault : JVal → JVal
  | undefined => str MODEL_ID
  | m => m

/-- The `content_block` member of a `content_block_start` payload:
`{type: "text", text}` or `{type: "thinking", thinking}`. -/
inductive BlockStart where
  | text (text : JStr)
  | thinking (thinking : JStr)

/-- The `delta` member of a `content_block_delta` payload:
`{type: "text_delta", text}` or `{type: "thinking_delta", thinking}`. -/
inductive BlockDelta where
  | textDelta (text : JVal)
  | thinkingDelta (thinking : JVal)

/-- One call of `formatSSE(eventType, data)`, by the shape of `data`.

* `messageStart id model content inputTokens outputTokens`: event `message_start`, data
  `{type, message: {id, type: "message", role: "assistant", content, model,
  stop_reason: null, stop_sequence: null, usage: {input_tokens, output_tokens}}}`;
* `contentBlockStart index block`: event `content_block_start`, data
  `{type, index, content_block}`;
* `contentBlockDelta index delta`: event `content_block_delta`, data `{type, index, delta}`;
* `contentBlockStop index`: event `content_block_stop`, data `{type, index}`;
* `messageDelta stopReason outputTokens`: event `message_delta`, data
  `{type, delta: {stop_reason, stop_sequence: null}, usage: {output_tokens}}`;
* `messageStop`: event `message_stop`, data `{type}`;
* `passThrough eventType event`: the call `formatSSE(event.type, event)` of the default
  branch. -/
inductive Frame where
  | messageStart (id : JStr) (model : JVal) (content : List JVal)
      (inputTokens outputTokens : Nat)
  | contentBlockStart (index : Nat) (block : BlockStart)
  | contentBlockDelta (index : Nat) (delta : BlockDelta)
  | contentBlockStop (index : Nat)
  | messageDelta (stopReason : JStr) (outputTokens : Nat)
  | messageStop
  | passThrough (eventType : JStr) (event : JVal)

/-- The SSE event name of a frame (first argument of `formatSSE`). -/
def Frame.name : Frame → JStr
  | .messageStart .. => js "message_start"
  | .contentBlockStart .. => js "content_block_start"
  | .contentBlockDelta .. => js "content_block_delta"
  | .contentBlockStop .. => js "content_block_stop"
  | .messageDelta .. => js "message_delta"
  | .messageStop => js "message_stop"
  | .passThrough eventType _ => eventType

/-- The per-stream state object built by `createStreamState`. -/
structure StreamState where
  messageId : JStr
  model : JVal
  messageStarted : Bool
  blockIndex : Nat
  outputText : JStr
  sessionId : JVal
  costUsd : JVal
  durationMs : JVal

/-- The function `createStreamState(model = MODEL_ID)`; `messageId` stands for the random
`msg_...` identifier. -/
def createStreamState (messageId : JStr) (model : JVal) : StreamState :=
  { messageId := messageId
    model := modelOrDefault model
    messageStarted := false
    blockIndex := 0
    outputText := []
    sessionId := null
    costUsd := null
    durationMs := null }

/-- The function `estimateTokens(text)` on a string: `0` when the string is empty, else
`Math.ceil(text.length / 4)`. -/
def estimateTokens (text : JStr) : Nat :=
  if text.isEmpty then 0 else (text.length + 3) / 4

/-- The function `isAnthropicSSEType(type)`. -/
def isAnthropicSSEType (type : JVal) : Bool :=
  match type with
  | str t =>
      [js "message_start", js "content_block_start", js "content_block_delta",
        js "content_block_stop", js "message_delta", js "message_stop", js "ping"].contains t
  | _ => false

/-- What one run of a generator did: the frames yielded in order, the state left behind,
and whether a `TypeError` escaped (after the frames listed). -/
structure Step where
  frames : List Frame
  state : StreamState
  threw : Bool

/-- The `message_start` frame both branches of `translateToSSE` build. -/
def messageStartFrame (state : StreamState) : Frame :=
  .messageStart state.messageId state.model [] 0 0

/-- The loop `for (const block of content)` of the `assistant` branch. Reading `block.type`
throws on a `null` element; `state.outputText += block.text` throws, after the three frames
of the block were yielded, when the text cannot be coerced to a string. -/
def emitBlocks : List JVal → StreamState → Step
  | [], state => ⟨[], state, false⟩
  | block :: rest, state =>
      if block.isNullish then ⟨[], state, true⟩
      else if (block.get (js "type")).eqStr (js "text") && (block.get (js "text")).truthy then
        let idx := state.blockIndex
        let state1 := { state with blockIndex := idx + 1 }
        let triad : List Frame :=
          [.contentBlockStart idx (.text []),
            .contentBlockDelta idx (.textDelta (block.get (js "text"))),
            .contentBlockStop idx]
        match (block.get (js "text")).toStr with
        | none => ⟨triad, state1, true⟩
        | some t =>
            let r := emitBlocks rest { state1 with outputText := state1.outputText ++ t }
            ⟨triad ++ r.frames, r.state, r.threw⟩
      else if (block.get (js "type")).eqStr (js "thinking")
          && (block.get (js "thinking")).truthy then
        let idx := state.blockIndex
        let state1 := { state with blockIndex := idx + 1 }
        let r := emitBlocks rest state1
        ⟨[.contentBlockStart idx (.thinking []),
            .contentBlockDelta idx (.thinkingDelta (block.get (js "thinking"))),
            .contentBlockStop idx] ++ r.frames, r.state, r.threw⟩
      else emitBlocks rest state

/-- The `assistant` case of `translateToSSE`. -/
def translateAssistant (event : JVal) (state : StreamState) : Step :=
  match (event.get (js "message")).get (js "content") with
  | arr content =>
      if !state.messageStarted then
        let r := emitBlocks content { state with messageStarted := true }
        ⟨messageStartFrame state :: r.frames, r.state, r.threw⟩
      else emitBlocks content state
  | _ => ⟨[], state, false⟩

/-- The `result` case of `translateToSSE`. -/
def translateResult (event : JVal) (state : StreamState) : Step :=
  let opened : List Frame × StreamState :=
    if !state.messageStarted then
      let state1 := { state with messageStarted := true }
      let resultText : JStr :=
        match event.get (js "result") with
        | str s => s
        | _ => []
      if !resultText.isEmpty && state1.outputText.isEmpty then
        let idx := state1.blockIndex
        ([messageStartFrame state,
            .contentBlockStart idx (.text []),
            .contentBlockDelta idx (.textDelta (str resultText)),
            .contentBlockStop idx],
          { state1 with blockIndex := idx + 1, outputText := resultText })
      else ([messageStartFrame state], state1)
    else ([], state)
  let state2 : StreamState :=
    { opened.2 with
      sessionId :=
        ((event.get (js "_sessionId")).or (event.get (js "session_id"))).or opened.2.sessionId
      costUsd := event.get (js "cost_usd")
      durationMs := event.get (js "duration_ms") }
  ⟨opened.1 ++ [.messageDelta (js "end_turn") (estimateTokens state2.outputText),
      .messageStop], state2, false⟩

/-- The `system` and `user` cases of `translateToSSE`. -/
def translateInternal (event : JVal) (state : StreamState) : Step :=
  if (event.get (js "_sessionId")).truthy then
    ⟨[], { state with sessionId := event.get (js "_sessionId") }, false⟩
  else ⟨[], state, false⟩

/-- The `default` case of `translateToSSE`. -/
def translateDefault (event : JVal) (state : StreamState) : Step :=
  match event.get (js "type") with
  | str t =>
      if isAnthropicSSEType (str t) then
        ⟨[.passThrough t event],
          if !state.messageStarted && t == js "message_start"
          then { state with messageStarted := true } else state,
          false⟩
      else ⟨[], state, false⟩
  | _ => ⟨[], state, false⟩

/-- The generator `translateToSSE(event, state)`. -/
def translateToSSE (event : JVal) (state : StreamState) : Step :=
  if !event.truthy || !event.isObjectType then ⟨[], state, false⟩
  else if (event.get (js "type")).eqStr (js "assistant") then translateAssistant event state
  else if (event.get (js "type")).eqStr (js "result") then translateResult event state
  else if (event.get (js "type")).eqStr (js "system")
      || (event.get (js "type")).eqStr (js "user") then translateInternal event state
  else translateDefault event state

/-- An element of the `content` array of the aggregate response: `{type, text}`. -/
structure ContentBlock where
  type : JStr
  text : JVal

/-- The `response` object built by `buildCompleteResponse`; `inputTokens` and
`outputTokens` are the two members of `usage`. -/
structure Response where
  id : JStr
  type : JStr
  role : JStr
  content : List ContentBlock
  model : JVal
  stopReason : JStr
  stopSequence : JVal
  inputTokens : Nat
  outputTokens : Nat

/-- The value `{ response, sessionId }` returned by `buildCompleteResponse`. -/
structure Aggregate where
  response : Response
  sessionId : JVal

/-- The three variables the event loop of `buildCompleteResponse` updates. -/
structure Collected where
  contentBlocks : List ContentBlock
  sessionId : JVal
  resultText : JVal

/-- The loop `for (const block of event.message.content)` of `buildCompleteResponse` over
an array; `none` when reading `block.type` throws on a `null` element. -/
def collectBlocks : List JVal → List ContentBlock → Option (List ContentBlock)
  | [], acc => some acc
  | block :: rest, acc =>
      if block.isNullish then none
      else if (block.get (js "type")).eqStr (js "text") && (block.get (js "text")).truthy then
        collectBlocks rest (acc ++ [⟨js "text", block.get (js "text")⟩])
      else collectBlocks rest acc

/-- The statement `if (event._sessionId) sessionId = event._sessionId;` that opens the body
of the event loop of `buildCompleteResponse`. -/
def noteSessionId (event : JVal) (c : Collected) : Collected :=
  if (event.get (js "_sessionId")).truthy
  then { c with sessionId := event.get (js "_sessionId") } else c

/-- One pass of the body of `for (const event of events)`; `none` when it throws: on a
nullish event, on a truthy `content` that is not iterable, or on a `null` block. Iterating
a string `content` visits strings, none of which has a `type`, so nothing is pushed. -/
def collectEvent (event : JVal) (c : Collected) : Option Collected :=
  if event.isNullish then none
  else
    let c1 : Collected := noteSessionId event c
    if (event.get (js "type")).eqStr (js "assistant")
        && ((event.get (js "message")).get (js "content")).truthy then
      match (event.get (js "message")).get (js "content") with
      | arr content =>
          (collectBlocks content c1.contentBlocks).map
            (fun blocks => { c1 with contentBlocks := blocks })
      | str _ => some c1
      | _ => none
    else if (event.get (js "type")).eqStr (js "result") then
      some { c1 with
        sessionId :=
          ((event.get (js "_sessionId")).or (event.get (js "session_id"))).or c1.sessionId
        resultText :=
          if (event.get (js "result")).isString then event.get (js "result")
          else c1.resultText }
    else some c1

/-- The loop `for (const event of events)` of `buildCompleteResponse`. -/
def collectEvents : List JVal → Collected → Option Collected
  | [], c => some c
  | event :: rest, c =>
      match collectEvent event c with
      | none => none
      | some c1 => collectEvents rest c1

/-- The two fallbacks after the loop: the result text when no block was collected, then a
single empty text block. -/
def withFallbacks (c : Collected) : List ContentBlock :=
  let blocks1 :=
    if c.contentBlocks.length == 0 && c.resultText.truthy
    then c.contentBlocks ++ [⟨js "text", c.resultText⟩] else c.contentBlocks
  if blocks1.length == 0 then blocks1 ++ [⟨js "text", str []⟩] else blocks1

/-- The function `buildCompleteResponse(events, model = MODEL_ID)`; `messageId` stands for
the random `msg_...` identifier and `none` for a thrown `TypeError`. -/
def buildCompleteResponse (messageId : JStr) (events : List JVal) (model : JVal) :
    Option Aggregate :=
  match collectEvents events ⟨[], null, null⟩ with
  | none => none
  | some c =>
      match joinEmpty ((withFallbacks c).map (fun b => b.text)) with
      | none => none
      | some fullText =>
          some
            { response :=
                { id := messageId
                  type := js "message"
                  role := js "assistant"
                  content := withFallbacks c
                  model := modelOrDefault model
                  stopReason := js "end_turn"
                  stopSequence := null
                  inputTokens := 0
                  outputTokens := estimateTokens fullText }
              sessionId := c.sessionId }

/-! ## claude-runner.js -/

/-- The code units `String.prototype.trim` strips: WhiteSpace and LineTerminator. -/
def isWhiteSpace (c : Nat) : Bool :=
  c == 9 || c == 10 || c == 11 || c == 12 || c == 13 || c == 32 || c == 160 || c == 5760
    || (8192 ≤ c && c ≤ 8202) || c == 8232 || c == 8233 || c == 8239 || c == 8287
    || c == 12288 || c == 65279

/-- The method `String.prototype.trim`. -/
def trim (s : JStr) : JStr :=
  ((s.dropWhile isWhiteSpace).reverse.dropWhile isWhiteSpace).reverse

/-- The loop `for (const candidate of [...])` of `extractSessionId`. -/
def firstSessionId : List JVal → JVal
  | [] => null
  | candidate :: rest =>
      match candidate with
      | str s => if !(trim s).isEmpty then str (trim s) else firstSessionId rest
      | _ => firstSessionId rest

/-- The array of candidates `extractSessionId` probes, in its order. -/
def sessionCandidates (event : JVal) : List JVal :=
  [event.get (js "session_id"),
    event.get (js "sessionId"),
    (event.get (js "session")).get (js "id"),
    (event.get (js "result")).get (js "session_id")]

/-- The function `extractSessionId(event)`. -/
def extractSessionId (event : JVal) : JVal :=
  if !event.truthy || !event.isObjectType then null
  else firstSessionId (sessionCandidates event)

/-- The assignment `obj[k] = v` on the members of an object. -/
def setMember (k : JStr) (v : JVal) : List (JStr × JVal) → List (JStr × JVal)
  | [] => [(k, v)]
  | (k', v') :: rest => if k' = k then (k, v) :: rest else (k', v') :: setMember k v rest

/-- What the stdout handler of `runClaude` does to a parsed event before handing it on:
`const sid = extractSessionId(event); if (sid) event._sessionId = sid;`. -/
def annotate (event : JVal) : JVal :=
  if (extractSessionId event).truthy then
    match event with
    | obj fields => obj (setMember (js "_sessionId") (extractSessionId event) fields)
    | e => e
  else event

/-! ## session-store.js -/

/-- A value of the table: `{ sessionId, updatedAt }`. -/
structure Entry where
  sessionId : JVal
  updatedAt : Int

/-- The table object `store`, as its own members in order. Keys are conversation keys,
which `getConversationKey` always starts with `hdr:` or `hash:`. -/
abbrev Table := List (JStr × Entry)

/-- The names of the members a plain object such as `store` inherits from
`Object.prototype`. -/
def prototypeNames : List JStr :=
  [js "constructor", js "__defineGetter__", js "__defineSetter__", js "hasOwnProperty",
    js "__lookupGetter__", js "__lookupSetter__", js "isPrototypeOf",
    js "propertyIsEnumerable", js "toString", js "valueOf", js "__proto__",
    js "toLocaleString"]

/-- A key that names no member of `Object.prototype`. For such a key `store[k]` reads and
writes an own member of the table and nothing else, which is what `Table.find` and
`Table.assign` describe. For the other keys the object behaves differently: reading an
absent `constructor` yields the inherited function, and assigning to `__proto__` replaces
the prototype and adds no member. -/
def isPlainKey (k : JStr) : Bool := !prototypeNames.contains k

/-- The read `store[k]` for a plain key: the own member, `none` for `undefined`. -/
def Table.find (k : JStr) : Table → Option Entry
  | [] => none
  | (k', e) :: rest => if k' = k then some e else Table.find k rest

/-- The assignment `store[k] = e` for a plain key: an own member is replaced where it
stands, a new one is added last. -/
def Table.assign (k : JStr) (e : Entry) : Table → Table
  | [] => [(k, e)]
  | (k', e') :: rest => if k' = k then (k, e) :: rest else (k', e') :: Table.assign k e rest

/-- The statement `delete store[k]`. -/
def Table.delete (k : JStr) (t : Table) : Table := t.filter (fun p => p.1 != k)

/-- The module of `session-store.js`: the variable `store` and the contents of the file
`config.sessions.filePath`, `none` when the file is missing or does not parse. -/
structure Registry where
  store : Table
  file : Option Table

/-- The function `load()`. -/
def load (reg : Registry) : Registry :=
  { reg with store := reg.file.getD [] }

/-- The function `save()`; `writeOk` tells whether `mkdirSync` and `writeFileSync`
succeeded. A failed write is swallowed and modelled as leaving the file as it was. -/
def save (writeOk : Bool) (reg : Registry) : Registry :=
  if writeOk then { reg with file := some reg.store } else reg

/-- The function `prune()`, with `now` for `Date.now()`. -/
def prune (now maxAge : Int) (writeOk : Bool) (reg : Registry) : Registry :=
  let kept := reg.store.filter (fun p => !decide (now - p.2.updatedAt > maxAge))
  if reg.store.any (fun p => decide (now - p.2.updatedAt > maxAge))
  then save writeOk { reg with store := kept } else reg

/-- The function `getSession(conversationKey)`: the returned value (`null` when absent)
and the module afterwards. -/
def getSession (now maxAge : Int) (writeOk : Bool) (conversationKey : JStr)
    (reg : Registry) : JVal × Registry :=
  let reg1 := load reg
  match reg1.store.find conversationKey with
  | none => (null, reg1)
  | some entry =>
      if now - entry.updatedAt > maxAge then
        (null, save writeOk { reg1 with store := reg1.store.delete conversationKey })
      else (entry.sessionId, reg1)

/-- The function `setSession(conversationKey, sessionId)`. -/
def setSession (now : Int) (writeOk : Bool) (conversationKey : JStr) (sessionId : JVal)
    (reg : Registry) : Registry :=
  let reg1 := load reg
  save writeOk { reg1 with store := reg1.store.assign conversationKey ⟨sessionId, now⟩ }

/-- The function `removeSession(conversationKey)`. -/
def removeSession (writeOk : Bool) (conversationKey : JStr) (reg : Registry) : Registry :=
  let reg1 := load reg
  save writeOk { reg1 with store := reg1.store.delete conversationKey }

/-! ## server.js: the streaming handler -/

/-- How the generator `runClaude` finished after its events: it returned (`DONE`), or it
threw the `Error` it was handed. -/
inductive Exit where
  | done
  | failed

/-- The state of `handleStreaming` while it consumes events. -/
structure Loop where
  written : List Frame
  state : StreamState
  lastSessionId : JVal
  threw : Bool

/-- The loop `for await (const event of runClaude(...))` of `handleStreaming`: every frame
of `translateToSSE(event, state)` is written, then `lastSessionId` follows
`state.sessionId` when that is truthy. -/
def streamLoop : List JVal → StreamState → JVal → Loop
  | [], state, last => ⟨[], state, last, false⟩
  | event :: rest, state, last =>
      let r := translateToSSE event state
      if r.threw then ⟨r.frames, r.state, last, true⟩
      else
        let l := streamLoop rest r.state (if r.state.sessionId.truthy then r.state.sessionId else last)
        ⟨r.frames ++ l.written, l.state, l.lastSessionId, l.threw⟩

/-- The synthesized event `{ type: "result", result: "" }`. -/
def emptyResult : JVal := obj [(js "type", str (js "result")), (js "result", str [])]

/-- What a call of `handleStreaming` did: the frames written to the reply in order,
whether the headers were written, whether `reply.raw.end()` was called, whether the call
threw, and the session registry afterwards. -/
structure StreamRun where
  written : List Frame
  headersWritten : Bool
  ended : Bool
  threw : Bool
  registry : Registry

/-- The function `handleStreaming(reply, prompt, opts)`, given what `runClaude` delivers
(`events`, then `exit`), the identifier of the fresh state, `opts.model`,
`opts.conversationKey`, and the clock and write outcome `setSession` meets. -/
def handleStreaming (messageId : JStr) (model : JVal) (conversationKey : JStr)
    (events : List JVal) (exit : Exit) (now : Int) (writeOk : Bool) (reg : Registry) :
    StreamRun :=
  let l := streamLoop events (createStreamState messageId model) null
  match l.threw, exit with
  | true, _ => ⟨l.written, !l.written.isEmpty, false, true, reg⟩
  | false, .failed => ⟨l.written, !l.written.isEmpty, false, true, reg⟩
  | false, .done =>
      let tail : List Frame :=
        if !l.state.messageStarted then (translateToSSE emptyResult l.state).frames else []
      let headersWritten := !l.written.isEmpty || !l.state.messageStarted
      ⟨l.written ++ tail, headersWritten, headersWritten, false,
        if l.lastSessionId.truthy
        then setSession now writeOk conversationKey l.lastSessionId reg else reg⟩

/-- A content block the loops can process without throwing: not `null`, and when it is a
text block with truthy text, that text can be coerced to a string. -/
def blockReadable (block : JVal) : Bool :=
  !block.isNullish
    && (!((block.get (js "type")).eqStr (js "text") && (block.get (js "text")).truthy)
      || (block.get (js "text")).toStr.isSome)

/-- An event whose content `translateToSSE` can process without throwing: when it is an
assistant event with an array `content`, every block of the array is readable. -/
def contentReadable (event : JVal) : Bool :=
  !(event.get (js "type")).eqStr (js "assistant")
    || match (event.get (js "message")).get (js "content") with
      | arr content => content.all blockReadable
      | _ => true

/-- An event whose `type` is `assistant`, `system` or `user`. -/
def isTurnEvent (event : JVal) : Bool :=
  (event.get (js "type")).eqStr (js "assistant")
    || (event.get (js "type")).eqStr (js "system")
    || (event.get (js "type")).eqStr (js "user")

/-- An event whose `type` is `result`. -/
def isResultEvent (event : JVal) : Bool := (event.get (js "type")).eqStr (js "result")

/-- A run of block triads: `content_block_start`, `content_block_delta` and
`content_block_stop` of one index, block after block. -/
inductive Triads : List Frame → Prop where
  | nil : Triads []
  | cons (i : Nat) (b : BlockStart) (d : BlockDelta) {rest : List Frame} :
      Triads rest →
      Triads (.contentBlockStart i b :: .contentBlockDelta i d :: .contentBlockStop i :: rest)


/-! ## Event shapes

The events the header comment of `translator.js` lists, used to state scenarios. -/

/-- The content block `{ type: "text", text }`. -/
def textBlock (text : JStr) : JVal :=
  obj [(js "type", str (js "text")), (js "text", str text)]

/-- The event `{ type: "assistant", message: { content } }`. -/
def assistantEvent (content : List JVal) : JVal :=
  obj [(js "type", str (js "assistant")), (js "message", obj [(js "content", arr content)])]

/-- The event `{ type: "result", result, session_id }`. -/
def resultEvent (result sessionId : JVal) : JVal :=
  obj [(js "type", str (js "result")), (js "result", result), (js "session_id", sessionId)]

/-! ## Vocabulary for the aggregate response -/

/-- A block that `buildCompleteResponse` and `translateToSSE` treat as visible text:
`block.type === "text" && block.text`. -/
def isTextBlock (block : JVal) : Bool :=
  (block.get (js "type")).eqStr (js "text") && (block.get (js "text")).truthy

/-- The content blocks `{ type: "text", text: block.text }` of the text blocks of a content
array, in order. -/
def textBlocksOf (content : List JVal) : List ContentBlock :=
  (content.filter isTextBlock).map (fun block => ⟨js "text", block.get (js "text")⟩)

/-- An assistant event that carries a text block: its `content` is an array holding a
block of type `text` with truthy text. -/
def carriesTextBlock (event : JVal) : Bool :=
  (event.get (js "type")).eqStr (js "assistant")
    && match (event.get (js "message")).get (js "content") with
      | arr content => content.any isTextBlock
      | _ => false

/-- An event the loop of `buildCompleteResponse` can process without throwing: not `null`,
and when it is an assistant event its `content` is falsy, a string, or an array of
readable blocks. -/
def aggregateReadable (event : JVal) : Bool :=
  !event.isNullish
    && (!(event.get (js "type")).eqStr (js "assistant")
      || match (event.get (js "message")).get (js "content") with
        | arr content => content.all blockReadable
        | str _ => true
        | v => !v.truthy)

/-- The invariant of the event loop of `buildCompleteResponse`: every collected block has
type `text` and truthy text, and `resultText` is `null` or a string. -/
def CollectedOk (c : Collected) : Prop :=
  (∀ b ∈ c.contentBlocks, b.type = js "text" ∧ b.text.truthy = true)
    ∧ (c.resultText = null ∨ ∃ s, c.resultText = str s)

/-- The string `result` of the last event of type `result` whose `result` is a string,
`none` when there is no such event. -/
def lastStringResult : List JVal → Option JStr
  | [] => none
  | event :: rest =>
      match lastStringResult rest with
      | some s => some s
      | none =>
          if isResultEvent event then
            match event.get (js "result") with
            | str s => some s
            | _ => none
          else none

/-- The texts of a list of content blocks, each coerced to a string, one after the other. -/
def concatTexts : List ContentBlock → JStr
  | [] => []
  | b :: rest => (b.text.toStr).getD [] ++ concatTexts rest

/-! ## Vocabulary for session-handle extraction -/

/-- A string holding at least one character that is not whitespace. -/
def isNonBlankString (v : JVal) : Bool :=
  match v with
  | str s => s.any (fun c => !isWhiteSpace c)
  | _ => false

/-- Session-handle extraction as the specification words it: the first candidate, in the
fixed order, that is a non-blank string, trimmed; `null` when there is none. -/
def extractSessionIdSpec (event : JVal) : JVal :=
  match (sessionCandidates event).find? isNonBlankString with
  | some (str s) => str (trim s)
  | _ => null

/-! ## Sequences of registry calls -/

/-- A call of one of the three exported functions of `session-store.js`. -/
inductive Op where
  | get (key : JStr)
  | set (key : JStr) (sessionId : JVal)
  | remove (key : JStr)

/-- The conversation key a call is about. -/
def Op.key : Op → JStr
  | .get key => key
  | .set key _ => key
  | .remove key => key

/-- A call together with what it meets: the value of `Date.now()` and whether a write it
attempts succeeds. -/
structure Call where
  op : Op
  now : Int
  writeOk : Bool

/-- The module after one call. -/
def Call.run (maxAge : Int) (c : Call) (reg : Registry) : Registry :=
  match c.op with
  | .get key => (getSession c.now maxAge c.writeOk key reg).2
  | .set key sessionId => setSession c.now c.writeOk key sessionId reg
  | .remove key => removeSession c.writeOk key reg

/-- The module after a sequence of calls, in order. -/
def runCalls (maxAge : Int) : List Call → Registry → Registry
  | [], reg => reg
  | c :: rest, reg => runCalls maxAge rest (c.run maxAge reg)

/-- The entry of `key` in the file, as the next `load()` will see it. -/
def durableEntry (key : JStr) (reg : Registry) : Option Entry :=
  (reg.file.getD []).find key

/-- The module-level statements `load(); prune();` that run once, when `session-store.js`
is first imported. -/
def initModule (now maxAge : Int) (writeOk : Bool) (reg : Registry) : Registry :=
  prune now maxAge writeOk (load reg)

/-! ## Vocabulary for the streamed text and the block indices -/

/-- An event of one of the four types the translator handles by name: `assistant`,
`system`, `user` or `result`. -/
def isStreamEvent (event : JVal) : Bool := isTurnEvent event || isResultEvent event

/-- The text a frame streams as visible output: the `text` of a `text_delta`, coerced to a
string; nothing for any other frame, a `thinking_delta` included. -/
def Frame.visibleText : Frame → JStr
  | .contentBlockDelta _ (.textDelta text) => (text.toStr).getD []
  | _ => []

/-- The visible text of a frame sequence: the texts of its `text_delta` frames, in
emission order, one after the other. -/
def streamedText : List Frame → JStr
  | [] => []
  | f :: rest => f.visibleText ++ streamedText rest

/-- The indices of the `content_block_start` frames of a sequence, in emission order. -/
def startIndices : List Frame → List Nat
  | [] => []
  | .contentBlockStart index _ :: rest => index :: startIndices rest
  | _ :: rest => startIndices rest

/-- The delta a content block is streamed as, `none` for a block that is dropped: a text
block with truthy text, a thinking block with truthy thinking, nothing else. -/
def visibleDelta (block : JVal) : Option BlockDelta :=
  if isTextBlock block then some (.textDelta (block.get (js "text")))
  else if (block.get (js "type")).eqStr (js "thinking")
      && (block.get (js "thinking")).truthy then
    some (.thinkingDelta (block.get (js "thinking")))
  else none

/-- The `content_block` a delta is announced with. -/
def BlockDelta.opening : BlockDelta → BlockStart
  | .textDelta _ => .text []
  | .thinkingDelta _ => .thinking []

/-- The triads of a list of deltas, numbered from `first` on without a gap. -/
def blockTriads (first : Nat) : List BlockDelta → List Frame
  | [] => []
  | d :: rest =>
      .contentBlockStart first d.opening :: .contentBlockDelta first d
        :: .contentBlockStop first :: blockTriads (first + 1) rest

/-- What a completed call of `handleNonStreaming` did: the body sent with status 200
(`none` when the call threw), and the session registry afterwards. -/
structure AggregateRun where
  response : Option Response
  threw : Bool
  registry : Registry

/-- The function `handleNonStreaming(reply, prompt, opts)`, with the same arguments as the
model of `handleStreaming`. -/
def handleNonStreaming (messageId : JStr) (model : JVal) (conversationKey : JStr)
    (events : List JVal) (exit : Exit) (now : Int) (writeOk : Bool) (reg : Registry) :
    AggregateRun :=
  match exit with
  | .failed => ⟨none, true, reg⟩
  | .done =>
      match buildCompleteResponse messageId events model with
      | none => ⟨none, true, reg⟩
      | some agg =>
          ⟨some agg.response, false,
            if agg.sessionId.truthy
            then setSession now writeOk conversationKey agg.sessionId reg else reg⟩

/-- The event `{ type: "assistant", session_id, message: { content } }`. -/
def assistantEventWithSession (sessionId : JVal) (content : List JVal) : JVal :=
  obj [(js "type", str (js "assistant")), (js "session_id", sessionId),
    (js "message", obj [(js "content", arr content)])]

/-! ## prompt-builder.js -/

/-- The call `xs.join(sep)`: null and undefined elements render as the empty string, every
other element is coerced to a string; `none` when a coercion throws. -/
def joinWith (sep : JStr) : List JVal → Option JStr
  | [] => some []
  | x :: rest =>
      let a := if x.isNullish then some [] else x.toStr
      match rest with
      | [] => a
      | _ :: _ =>
        match a, joinWith sep rest with
        | some a, some b => some (a ++ sep ++ b)
        | _, _ => none

/-- The loop `for (const block of content)` of `extractTextContent`: the parts pushed, in
order; `none` when reading `block.type` throws on a `null` element. -/
def textParts : List JVal → Option (List JVal)
  | [] => some []
  | block :: rest =>
      if block.isString then (textParts rest).map (fun parts => block :: parts)
      else if block.isNullish then none
      else if (block.get (js "type")).eqStr (js "text") then
        (textParts rest).map (fun parts => block.get (js "text") :: parts)
      else textParts rest

/-- The function `extractTextContent(content)`; `none` for a thrown `TypeError`. -/
def extractTextContent (content : JVal) : Option JStr :=
  match content with
  | str s => some s
  | arr blocks =>
      match textParts blocks with
      | none => none
      | some parts => joinWith (js "\n") parts
  | _ => some []

/-- The loop of `findLastUserMessage(messages)` over the messages from the last to the
first, given here in that order: the first message met whose `role` is `user`, `null` when
there is none; `none` when reading `role` throws on a `null` message. -/
def findUserFromEnd : List JVal → Option JVal
  | [] => some null
  | msg :: earlier =>
      if msg.isNullish then none
      else if (msg.get (js "role")).eqStr (js "user") then some msg
      else findUserFromEnd earlier

/-- The function `findLastUserMessage(messages)` on an array of messages. -/
def findLastUserMessage (messages : List JVal) : Option JVal :=
  findUserFromEnd messages.reverse

/-- The function `getLatestUserText(messages)` on an array of messages. -/
def getLatestUserText (messages : List JVal) : Option JStr :=
  match findLastUserMessage messages with
  | none => none
  | some lastUser =>
      if lastUser.truthy then extractTextContent (lastUser.get (js "content")) else some []

/-- The loop `for (const msg of messages)` of `buildPrompt`: the parts pushed, in order. -/
def promptParts : List JVal → Option (List JStr)
  | [] => some []
  | msg :: rest =>
      if msg.isNullish then none
      else
        match extractTextContent (msg.get (js "content")) with
        | none => none
        | some text =>
            if text.isEmpty then promptParts rest
            else if (msg.get (js "role")).eqStr (js "user") then
              (promptParts rest).map (fun parts => (js "User: " ++ text) :: parts)
            else if (msg.get (js "role")).eqStr (js "assistant") then
              (promptParts rest).map (fun parts => (js "Assistant: " ++ text) :: parts)
            else promptParts rest

/-- The function `buildPrompt(messages, { isResume })` on an array of messages. -/
def buildPrompt (messages : List JVal) (isResume : Bool) : Option JStr :=
  match messages with
  | [] => some []
  | first :: others =>
      if isResume then
        match findLastUserMessage messages with
        | none => none
        | some lastUser =>
            if lastUser.truthy then extractTextContent (lastUser.get (js "content"))
            else some []
      else
        match others with
        | [] => if first.isNullish then none else extractTextContent (first.get (js "content"))
        | _ :: _ =>
            (promptParts messages).bind
              (fun parts => joinWith (js "\n\n") (parts.map str))

/-! ## server.js: conversation key and request handler -/

/-- A request as the handler reads it: the headers, whose names Node gives in lower case
and whose values are strings, and the parsed body. -/
structure Request where
  headers : List (JStr × JStr)
  body : JVal

/-- The read `request.headers[name]`: the value, or `undefined` for an absent header. -/
def Request.header (req : Request) (name : JStr) : JVal :=
  match req.headers.find? (fun p => p.1 == name) with
  | some p => str p.2
  | none => undefined

/-- The read `v?.[0]`: the first element of an array (first code unit of a string, member
`0` of an object), `undefined` when there is none. -/
def index0 : JVal → JVal
  | arr (x :: _) => x
  | str (c :: _) => str [c]
  | obj fields => JVal.lookup (js "0") fields
  | _ => undefined

/-- The header the key is taken from:
`headers["x-conversation-id"] || headers["x-openclaw-conversation-id"] ||
headers["x-session-id"]`. -/
def conversationHeader (req : Request) : JVal :=
  ((req.header (js "x-conversation-id")).or (req.header (js "x-openclaw-conversation-id"))).or
    (req.header (js "x-session-id"))

/-- The function `getConversationKey(request)`; `none` for a thrown `TypeError`.
`sha256Hex` stands for `createHash("sha256").update(s).digest("hex")` and `stringify` for
`JSON.stringify` on a value other than `undefined`; on `undefined` `JSON.stringify`
returns `undefined`, whose `slice` throws. -/
def getConversationKey (sha256Hex : JStr → JStr) (stringify : JVal → JStr) (req : Request) :
    Option JStr :=
  if (conversationHeader req).truthy then
    (conversationHeader req).toStr.map (fun header => js "hdr:" ++ header)
  else if req.body.isNullish then none
  else
    let system : JStr :=
      match req.body.get (js "system") with
      | str s => s
      | _ => []
    let firstUser : Option JStr :=
      if (index0 (req.body.get (js "messages"))).truthy then
        match (index0 (req.body.get (js "messages"))).get (js "content") with
        | undefined => none
        | content => some ((stringify content).take 500)
      else some []
    firstUser.map (fun firstUser => js "hash:" ++ (sha256Hex (system ++ firstUser)).take 16)

/-- The test `Array.isArray(v)`. -/
def isArray : JVal → Bool
  | arr _ => true
  | _ => false

/-- The guard that opens the handler of `POST /v1/messages`:
`!body || !body.messages || !Array.isArray(body.messages) || body.messages.length === 0`. -/
def messagesMissing (body : JVal) : Bool :=
  !body.truthy || !(body.get (js "messages")).truthy || !isArray (body.get (js "messages"))
    || match body.get (js "messages") with
      | arr items => items.length == 0
      | _ => false

/-- The method `String.prototype.startsWith`. -/
def startsWith : JStr → JStr → Bool
  | _, [] => true
  | [], _ :: _ => false
  | c :: s, d :: needle => c == d && startsWith s needle

/-- The method `String.prototype.includes`. -/
def includes : JStr → JStr → Bool
  | [], needle => needle.isEmpty
  | c :: s, needle => startsWith (c :: s) needle || includes s needle

/-- What a call of `handleStreaming` or `handleNonStreaming` did, as the handler that
awaits it sees it: it returned, having stored `savedSession` in the registry when that is
truthy, or it threw an `Error` with a message, after writing the response headers or not. -/
inductive AttemptResult where
  | returned (savedSession : JVal)
  | threw (message : JStr) (headersSent : Bool)

/-- One subprocess attempt: the prompt and the resume handle (`opts.sessionId`) the
handler passed on. -/
structure Spawn where
  prompt : JStr
  sessionId : JVal

/-- How a request ends: the 400 `invalid_request_error` payload with its message; the
response of the attempt that returned; the `error` event appended to a started stream; the
500 `api_error` payload; or an exception that escaped the handler. -/
inductive Reply where
  | badRequest (message : JStr)
  | sent
  | errorFrame (message : JStr)
  | serverError (message : JStr)
  | rejected

/-- What the handler meets while it runs: the max-age, the clock and write outcome of each
registry call, and the outcome of the first and of the second attempt. -/
structure HandlerEnv where
  maxAge : Int
  nowLookup : Int
  writeLookup : Bool
  writeRemove : Bool
  nowSave : Int
  writeSave : Bool
  first : AttemptResult
  second : AttemptResult

/-- What a request did: whether `enqueue` was called, the subprocess attempts in order,
the registry calls in order, the reply, and the registry afterwards. -/
structure HandlerRun where
  enqueued : Bool
  spawns : List Spawn
  registryCalls : List Op
  reply : Reply
  registry : Registry

/-- The end of the `catch` block: the `error` event when `reply.raw.headersSent`, else the
500 payload, both with `err.message`. -/
def errorReply (headersSent : Bool) (message : JStr) : Reply :=
  if headersSent then .errorFrame message else .serverError message

/-- The task the handler passes to `enqueue`, for an admitted request. The calls
`handleStreaming(...)` and `handleNonStreaming(...)` are the attempts, whose outcomes the
environment gives; `reply.raw.headersSent` holds when an attempt has written the headers. -/
def conversationTask (env : HandlerEnv) (key : JStr) (messages : List JVal)
    (reg : Registry) : HandlerRun :=
  let looked := getSession env.nowLookup env.maxAge env.writeLookup key reg
  let sessionId := looked.1
  let isResume := sessionId.truthy
  match (if isResume then getLatestUserText messages else buildPrompt messages false) with
  | none => ⟨true, [], [.get key], .rejected, looked.2⟩
  | some prompt =>
      if prompt.isEmpty then
        ⟨true, [], [.get key], .badRequest (js "Could not extract prompt from messages"),
          looked.2⟩
      else
        match env.first with
        | .returned saved =>
            if saved.truthy then
              ⟨true, [⟨prompt, sessionId⟩], [.get key, .set key saved], .sent,
                setSession env.nowSave env.writeSave key saved looked.2⟩
            else ⟨true, [⟨prompt, sessionId⟩], [.get key], .sent, looked.2⟩
        | .threw message sent1 =>
            if isResume && includes message (js "exited with code") then
              let removed := removeSession env.writeRemove key looked.2
              match buildPrompt messages false with
              | none => ⟨true, [⟨prompt, sessionId⟩], [.get key, .remove key], .rejected, removed⟩
              | some fullPrompt =>
                  match env.second with
                  | .returned saved =>
                      if saved.truthy then
                        ⟨true, [⟨prompt, sessionId⟩, ⟨fullPrompt, null⟩],
                          [.get key, .remove key, .set key saved], .sent,
                          setSession env.nowSave env.writeSave key saved removed⟩
                      else
                        ⟨true, [⟨prompt, sessionId⟩, ⟨fullPrompt, null⟩],
                          [.get key, .remove key], .sent, removed⟩
                  | .threw _ sent2 =>
                      ⟨true, [⟨prompt, sessionId⟩, ⟨fullPrompt, null⟩],
                        [.get key, .remove key], errorReply (sent1 || sent2) message, removed⟩
            else ⟨true, [⟨prompt, sessionId⟩], [.get key], errorReply sent1 message, looked.2⟩

/-- The handler of `POST /v1/messages`. -/
def handleMessages (sha256Hex : JStr → JStr) (stringify : JVal → JStr) (env : HandlerEnv)
    (req : Request) (reg : Registry) : HandlerRun :=
  if messagesMissing req.body then
    ⟨false, [], [], .badRequest (js "messages array is required"), reg⟩
  else
    match getConversationKey sha256Hex stringify req with
    | none => ⟨false, [], [], .rejected, reg⟩
    | some key =>
        match req.body.get (js "messages") with
        | arr messages => conversationTask env key messages reg
        | _ => ⟨false, [], [], .rejected, reg⟩

/-! ## Vocabulary for the conversation key and the request shape -/

/-- A lower-case hexadecimal digit. -/
def isHexDigit (c : Nat) : Bool := (48 ≤ c && c ≤ 57) || (97 ≤ c && c ≤ 102)

/-- The value of the first of the three recognised headers, in their fixed order, that is
present and non-empty. -/
def firstConversationHeader (req : Request) : Option JStr :=
  [js "x-conversation-id", js "x-openclaw-conversation-id", js "x-session-id"].findSome?
    (fun name =>
      match req.header name with
      | str value => if value.isEmpty then none else some value
      | _ => none)

/-- The body has a `messages` member that is a non-empty array. -/
def hasMessages (body : JVal) : Prop :=
  ∃ first rest, body.get (js "messages") = arr (first :: rest)

/-! ## server.js: the per-conversation queue

The function `enqueue(conversationKey, fn)` and the promises it chains, as a step
relation. A call of `enqueue` is numbered by its position in submission order. Its promise
`current = prev.then(fn, fn)` is `queued` until `fn` is called, which the promise machinery
does only once `prev` has settled, fulfilled or rejected alike; it is `running` while the
promise of `fn` is pending and `settled` once that promise, hence `current`, has settled;
the call has `returned` once `await current` has resumed and the `finally` block has run. -/

/-- How far a call of `enqueue` has got; `ok` tells a fulfilled task from a rejected one. -/
inductive Phase where
  | queued
  | running
  | settled (ok : Bool)
  | returned (ok : Bool)
  deriving DecidableEq

/-- The promise `current` of the call has settled. -/
def Phase.finished : Phase → Bool
  | .settled _ => true
  | .returned _ => true
  | _ => false

/-- The calls of `enqueue` made so far and the map `activeRequests`: `count` calls, the
key of each, the call whose promise each took as `prev` (`none` for `Promise.resolve()`),
the phase of each, and for each key the call whose promise `activeRequests` holds. -/
structure Queue where
  count : Nat
  key : Nat → JStr
  prev : Nat → Option Nat
  phase : Nat → Phase
  active : JStr → Option Nat

/-- No call yet, `activeRequests` empty. -/
def Queue.empty : Queue :=
  ⟨0, fun _ => [], fun _ => none, fun _ => .queued, fun _ => none⟩

/-- What can happen next: a call `enqueue(key, fn)` runs up to its `await`; the promise
machinery calls the `fn` of call `i`; the promise of that `fn` settles; `await current`
resumes in call `i` and its `finally` block runs. -/
inductive QueueEvent where
  | submit (key : JStr)
  | start (i : Nat)
  | settle (i : Nat) (ok : Bool)
  | finish (i : Nat)

/-- The lines `const prev = activeRequests.get(key) || Promise.resolve(); const current =
prev.then(fn, fn); activeRequests.set(key, current);` of `enqueue`. -/
def Queue.submit (q : Queue) (key : JStr) : Queue :=
  { count := q.count + 1
    key := fun j => if j = q.count then key else q.key j
    prev := fun j => if j = q.count then q.active key else q.prev j
    phase := fun j => if j = q.count then .queued else q.phase j
    active := fun k => if k = key then some q.count else q.active k }

/-- Whether the reaction `then(fn, fn)` of call `i` can fire: `fn` has not been called and
`prev` has settled. -/
def Queue.canStart (q : Queue) (i : Nat) : Bool :=
  decide (i < q.count) && decide (q.phase i = .queued)
    && match q.prev i with
      | none => true
      | some p => (q.phase p).finished

/-- The `finally` block of call `i`:
`if (activeRequests.get(key) === current) activeRequests.delete(key)`. -/
def Queue.cleanup (q : Queue) (i : Nat) : JStr → Option Nat :=
  fun k => if k = q.key i ∧ q.active (q.key i) = some i then none else q.active k

/-- One step; `none` when the event cannot happen in this state. -/
def Queue.step (q : Queue) : QueueEvent → Option Queue
  | .submit key => some (q.submit key)
  | .start i =>
      if q.canStart i then
        some { q with phase := fun j => if j = i then .running else q.phase j }
      else none
  | .settle i ok =>
      if i < q.count ∧ q.phase i = .running then
        some { q with phase := fun j => if j = i then .settled ok else q.phase j }
      else none
  | .finish i =>
      if i < q.count then
        match q.phase i with
        | .settled ok =>
            some { q with
              phase := fun j => if j = i then .returned ok else q.phase j
              active := q.cleanup i }
        | _ => none
      else none

/-- A sequence of steps from a state; `none` when one of them cannot happen. -/
def Queue.run (q : Queue) : List QueueEvent → Option Queue
  | [] => some q
  | e :: rest =>
      match q.step e with
      | none => none
      | some q1 => q1.run rest

/-- The invariant of the queue: `activeRequests` holds, for a key, the last call made for
it, and no entry only when every call for the key has settled; the `prev` of a call is the
call made just before it for the same key, and is `Promise.resolve()` only when every
earlier call for the key had settled; a call whose `fn` has been called has every earlier
call for the same key settled. -/
structure Queue.Ordered (q : Queue) : Prop where
  active_last : ∀ k t, q.active k = some t →
    t < q.count ∧ q.key t = k ∧ ∀ i, i < q.count → q.key i = k → i ≤ t
  active_none : ∀ k, q.active k = none →
    ∀ i, i < q.count → q.key i = k → (q.phase i).finished = true
  prev_some : ∀ j p, j < q.count → q.prev j = some p →
    p < j ∧ q.key p = q.key j ∧ ∀ i, p < i → i < j → q.key i ≠ q.key j
  prev_none : ∀ j, j < q.count → q.prev j = none →
    ∀ i, i < j → q.key i = q.key j → (q.phase i).finished = true
  started : ∀ j, j < q.count → q.phase j ≠ .queued →
    ∀ i, i < j → q.key i = q.key j → (q.phase i).finished = true

/-! ## Vocabulary for the pass-through case -/

/-- The type names `isAnthropicSSEType` accepts. -/
def passThroughNames : List JStr :=
  [js "message_start", js "content_block_start", js "content_block_delta",
    js "content_block_stop", js "message_delta", js "message_stop", js "ping"]

/-- An event whose `type` is none of `assistant`, `result`, `system`, `user`. -/
def isUnnamedEvent (event : JVal) : Bool := !isStreamEvent event

/-! ## Vocabulary for the latest user text -/

/-- A message whose `role` is `user`. -/
def isUserMessage (msg : JVal) : Bool := (msg.get (js "role")).eqStr (js "user")

/-- The last message of the list whose role is `user`, `none` when there is none. -/
def lastUserMessage (messages : List JVal) : Option JVal :=
  (messages.filter isUserMessage).getLast?

/-- The parts of an array content that count as text: a block that is a string, and the
`text` of a block of type `text`; other blocks are skipped. -/
def textPartsOf (blocks : List JVal) : List JVal :=
  blocks.filterMap (fun block =>
    if block.isString then some block
    else if (block.get (js "type")).eqStr (js "text") then some (block.get (js "text"))
    else none)

/-- The text of a message content: a string as it is, the text parts of an array joined
by a newline, the empty string for anything else. -/
def extractedText (content : JVal) : Option JStr :=
  match content with
  | str s => some s
  | arr blocks => joinWith (js "\n") (textPartsOf blocks)
  | _ => some []

/-- The latest user text as the specification words it: the extracted text of the last
message whose role is `user`, the empty string when there is no such message. -/
def latestUserTextSpec (messages : List JVal) : Option JStr :=
  match lastUserMessage messages with
  | none => some []
  | some msg => extractedText (msg.get (js "content"))

/-- A message list the prompt builder can read without throwing: no message is `null`, and
no element of an array content is `null`. -/
def messagesReadable (messages : List JVal) : Bool :=
  messages.all (fun msg =>
    !msg.isNullish
      && match msg.get (js "content") with
        | arr blocks => blocks.all (fun block => !block.isNullish)
        | _ => true)

/-! ## Vocabulary for comparing the two modes -/

/-- An assistant event whose `content` is an array: the events that make `translateToSSE`
emit `message_start`. -/
def opensMessage (event : JVal) : Bool :=
  (event.get (js "type")).eqStr (js "assistant")
    && isArray ((event.get (js "message")).get (js "content"))

/-- The text blocks an assistant event carries, as content blocks, in order; none for any
other event. -/
def assistantTexts (event : JVal) : List ContentBlock :=
  if (event.get (js "type")).eqStr (js "assistant") then
    match (event.get (js "message")).get (js "content") with
    | arr content => textBlocksOf content
    | _ => []
  else []

/-- The text blocks of a sequence of events, in event order then block order. -/
def allAssistantTexts : List JVal → List ContentBlock
  | [] => []
  | event :: rest => assistantTexts event ++ allAssistantTexts rest

/-- The string `result` of a result event, the empty string when `result` is not a
string. -/
def resultString (event : JVal) : JStr :=
  match event.get (js "result") with
  | str s => s
  | _ => []

/-! ## Properties -/

theorem Triads.append {xs ys : List Frame} (hx : Triads xs) (hy : Triads ys) :
    Triads (xs ++ ys) := by
  induction hx with
  | nil => simpa using hy
  | cons i b d _ ih => exact Triads.cons i b d ih

theorem obj_of_eqStr_get {e : JVal} {k lit : JStr} (h : (e.get k).eqStr lit = true) :
    ∃ fields, e = obj fields := by
  cases e <;> simp [JVal.get, JVal.eqStr] at h ⊢

theorem emitBlocks_readable (content : List JVal) (st : StreamState)
    (h : content.all blockReadable = true) :
    (emitBlocks content st).threw = false ∧ Triads (emitBlocks content st).frames
      ∧ (emitBlocks content st).state.messageStarted = st.messageStarted
      ∧ (emitBlocks content st).state.messageId = st.messageId
      ∧ (emitBlocks content st).state.model = st.model
      ∧ (emitBlocks content st).state.sessionId = st.sessionId := by
  induction content generalizing st with
  | nil => exact ⟨rfl, Triads.nil, rfl, rfl, rfl, rfl⟩
  | cons block rest ih =>
    simp only [List.all_cons, Bool.and_eq_true] at h
    obtain ⟨hb, hrest⟩ := h
    simp only [blockReadable, Bool.and_eq_true, Bool.not_eq_true', Bool.or_eq_true] at hb
    obtain ⟨hnull, htext⟩ := hb
    unfold emitBlocks
    simp only [hnull, Bool.false_eq_true, if_false]
    split
    · rename_i hcond
      rw [hcond] at htext
      simp at htext
      obtain ⟨t, ht⟩ := Option.isSome_iff_exists.mp htext
      simp only [ht]
      obtain ⟨h1, h2, h3, h4, h5, h6⟩ := ih { st with blockIndex := st.blockIndex + 1, outputText := st.outputText ++ t } hrest
      exact ⟨h1, Triads.cons _ _ _ h2, h3, h4, h5, h6⟩
    · split
      · obtain ⟨h1, h2, h3, h4, h5, h6⟩ := ih { st with blockIndex := st.blockIndex + 1 } hrest
        exact ⟨h1, Triads.cons _ _ _ h2, h3, h4, h5, h6⟩
      · exact ih st hrest

/-- What a turn event (`assistant`, `system`, `user`) with readable content does to the
frame stream: the generator completes, keeps the identifier and model, and either leaves
the latch alone and yields block triads (none when the message has not started), or opens
the message with `message_start` followed by block triads. -/
theorem translateToSSE_turn (e : JVal) (st : StreamState)
    (hk : isTurnEvent e = true) (hr : contentReadable e = true) :
    (translateToSSE e st).threw = false
      ∧ (translateToSSE e st).state.messageId = st.messageId
      ∧ (translateToSSE e st).state.model = st.model
      ∧ (((translateToSSE e st).state.messageStarted = st.messageStarted
            ∧ Triads (translateToSSE e st).frames
            ∧ (st.messageStarted = false → (translateToSSE e st).frames = []))
          ∨ (st.messageStarted = false ∧ (translateToSSE e st).state.messageStarted = true
            ∧ ∃ body, (translateToSSE e st).frames = messageStartFrame st :: body
              ∧ Triads body)) := by
  simp only [isTurnEvent, Bool.or_eq_true] at hk
  have hobj : ∃ fields, e = obj fields := by
    rcases hk with (hk | hk) | hk <;> exact obj_of_eqStr_get hk
  obtain ⟨fields, rfl⟩ := hobj
  unfold translateToSSE
  simp only [JVal.truthy, JVal.isObjectType, Bool.not_true, Bool.or_self, Bool.false_eq_true,
    if_false]
  split
  · rename_i hassist
    unfold translateAssistant
    split
    · rename_i content hcontent
      have hall : content.all blockReadable = true := by
        simpa [contentReadable, hcontent, hassist] using hr
      cases hs : st.messageStarted with
      | false =>
        obtain ⟨h1, h2, h3, h4, h5, _⟩ :=
          emitBlocks_readable content { st with messageStarted := true } hall
        simp only [Bool.not_false, if_true]
        exact ⟨h1, h4, h5, Or.inr ⟨by trivial, h3, _, rfl, h2⟩⟩
      | true =>
        obtain ⟨h1, h2, h3, h4, h5, _⟩ := emitBlocks_readable content st hall
        simp only [Bool.not_true, Bool.false_eq_true, if_false]
        exact ⟨h1, h4, h5, Or.inl ⟨by rw [h3, hs], h2, by simp⟩⟩
    · exact ⟨rfl, rfl, rfl, Or.inl ⟨rfl, Triads.nil, fun _ => rfl⟩⟩
  · rename_i hna
    have hsu : ((obj fields).get (js "type")).eqStr (js "system") = true
        ∨ ((obj fields).get (js "type")).eqStr (js "user") = true := by
      rcases hk with (hk | hk) | hk
      · exact absurd hk hna
      · exact Or.inl hk
      · exact Or.inr hk
    have hnr : ((obj fields).get (js "type")).eqStr (js "result") = false := by
      cases hv : (obj fields).get (js "type") with
      | str s =>
        rw [hv] at hsu
        simp only [JVal.eqStr, beq_iff_eq] at hsu ⊢
        rcases hsu with h | h <;> (subst h; decide)
      | _ => rfl
    simp only [hnr, Bool.false_eq_true, if_false]
    have hsu' : (((obj fields).get (js "type")).eqStr (js "system")
        || ((obj fields).get (js "type")).eqStr (js "user")) = true := by
      simpa [Bool.or_eq_true] using hsu
    simp only [hsu', if_true]
    unfold translateInternal
    split
    · exact ⟨rfl, rfl, rfl, Or.inl ⟨rfl, Triads.nil, fun _ => rfl⟩⟩
    · exact ⟨rfl, rfl, rfl, Or.inl ⟨rfl, Triads.nil, fun _ => rfl⟩⟩

theorem streamLoop_append (es fs : List JVal) (st : StreamState) (last : JVal)
    (h : (streamLoop es st last).threw = false) :
    streamLoop (es ++ fs) st last =
      ⟨(streamLoop es st last).written
          ++ (streamLoop fs (streamLoop es st last).state
                (streamLoop es st last).lastSessionId).written,
        (streamLoop fs (streamLoop es st last).state
          (streamLoop es st last).lastSessionId).state,
        (streamLoop fs (streamLoop es st last).state
          (streamLoop es st last).lastSessionId).lastSessionId,
        (streamLoop fs (streamLoop es st last).state
          (streamLoop es st last).lastSessionId).threw⟩ := by
  induction es generalizing st last with
  | nil => simp [streamLoop]
  | cons e es ih =>
    simp only [List.cons_append, streamLoop] at h ⊢
    cases ht : (translateToSSE e st).threw with
    | true => simp [ht] at h
    | false =>
      simp only [ht, Bool.false_eq_true, if_false, List.append_eq] at h ⊢
      rw [ih _ _ h]
      simp [List.append_assoc]

theorem streamLoop_turns (es : List JVal) (st : StreamState) (last : JVal)
    (h : ∀ e ∈ es, isTurnEvent e = true ∧ contentReadable e = true) :
    (streamLoop es st last).threw = false
      ∧ (streamLoop es st last).state.messageId = st.messageId
      ∧ (streamLoop es st last).state.model = st.model
      ∧ (((streamLoop es st last).state.messageStarted = st.messageStarted
            ∧ Triads (streamLoop es st last).written
            ∧ (st.messageStarted = false → (streamLoop es st last).written = []))
          ∨ (st.messageStarted = false ∧ (streamLoop es st last).state.messageStarted = true
            ∧ ∃ body, (streamLoop es st last).written = messageStartFrame st :: body
              ∧ Triads body)) := by
  induction es generalizing st last with
  | nil => exact ⟨rfl, rfl, rfl, Or.inl ⟨rfl, Triads.nil, fun _ => rfl⟩⟩
  | cons e es ih =>
    obtain ⟨hk, hr⟩ := h e (List.mem_cons_self _ _)
    obtain ⟨t1, t2, t3, t4⟩ := translateToSSE_turn e st hk hr
    have hrest : ∀ e' ∈ es, isTurnEvent e' = true ∧ contentReadable e' = true :=
      fun e' he' => h e' (List.mem_cons_of_mem _ he')
    simp only [streamLoop, t1, Bool.false_eq_true, if_false]
    obtain ⟨l1, l2, l3, l4⟩ := ih (translateToSSE e st).state
      (if (translateToSSE e st).state.sessionId.truthy
        then (translateToSSE e st).state.sessionId else last) hrest
    refine ⟨l1, l2.trans t2, l3.trans t3, ?_⟩
    have hms : messageStartFrame (translateToSSE e st).state = messageStartFrame st := by
      simp [messageStartFrame, t2, t3]
    rcases t4 with ⟨ta, tb, tc⟩ | ⟨ta, tb, body, tc, td⟩
    · rcases l4 with ⟨la, lb, lc⟩ | ⟨la, lb, body, lc, ld⟩
      · refine Or.inl ⟨la.trans ta, tb.append lb, fun hs => ?_⟩
        rw [tc hs, lc (ta.trans hs)]; rfl
      · refine Or.inr ⟨ta.symm.trans la, lb, body, ?_, ld⟩
        rw [tc (ta.symm.trans la), lc, hms]; rfl
    · rcases l4 with ⟨la, lb, _⟩ | ⟨la, _, _⟩
      · refine Or.inr ⟨ta, la.trans tb, body ++ _, ?_, td.append lb⟩
        rw [tc]; rfl
      · rw [tb] at la; exact absurd la (by decide)

theorem translateToSSE_result (r : JVal) (st : StreamState) (hr : isResultEvent r = true) :
    translateToSSE r st = translateResult r st := by
  obtain ⟨fields, rfl⟩ := obj_of_eqStr_get hr
  have hna : ((obj fields).get (js "type")).eqStr (js "assistant") = false := by
    simp only [isResultEvent] at hr
    cases hv : (obj fields).get (js "type") with
    | str s =>
      rw [hv] at hr
      simp only [JVal.eqStr, beq_iff_eq] at hr ⊢
      subst hr; decide
    | _ => rfl
  simp only [isResultEvent] at hr
  simp [translateToSSE, JVal.truthy, JVal.isObjectType, hna, hr]

theorem translateResult_frames (r : JVal) (st : StreamState) :
    (translateResult r st).threw = false
      ∧ (translateResult r st).state.messageStarted = true
      ∧ ∃ n, (st.messageStarted = true
            ∧ (translateResult r st).frames = [Frame.messageDelta (js "end_turn") n, Frame.messageStop])
          ∨ (st.messageStarted = false ∧ ∃ body, Triads body
            ∧ (translateResult r st).frames
              = messageStartFrame st :: body ++ [Frame.messageDelta (js "end_turn") n, Frame.messageStop]) := by
  refine ⟨rfl, ?_, ?_⟩
  · unfold translateResult
    cases hs : st.messageStarted
    · simp only [Bool.not_false, if_true]
      split <;> rfl
    · simp only [Bool.not_true, Bool.false_eq_true, if_false]
      exact hs
  · unfold translateResult
    cases hs : st.messageStarted
    · simp only [Bool.not_false, if_true]
      split
      · exact ⟨_, Or.inr ⟨by trivial, _, Triads.cons _ _ _ Triads.nil, rfl⟩⟩
      · exact ⟨_, Or.inr ⟨by trivial, [], Triads.nil, rfl⟩⟩
    · exact ⟨_, Or.inl ⟨by trivial, rfl⟩⟩

theorem Triads.countP_eq_zero {xs : List Frame} (hx : Triads xs) (p : Frame → Bool)
    (h1 : ∀ i b, p (.contentBlockStart i b) = false)
    (h2 : ∀ i d, p (.contentBlockDelta i d) = false)
    (h3 : ∀ i, p (.contentBlockStop i) = false) : xs.countP p = 0 := by
  induction hx with
  | nil => rfl
  | cons i b d _ ih => simp [List.countP_cons, h1, h2, h3, ih]

theorem Triads.next {xs : List Frame} (hx : Triads xs) (k i : Nat) (b : BlockStart)
    (h : xs[k]? = some (.contentBlockStart i b)) :
    ∃ d, xs[k + 1]? = some (.contentBlockDelta i d)
      ∧ xs[k + 2]? = some (.contentBlockStop i) := by
  induction hx generalizing k with
  | nil => simp at h
  | cons i' b' d' _ ih =>
    match k with
    | 0 =>
      simp only [List.getElem?_cons_zero, Option.some.injEq, Frame.contentBlockStart.injEq] at h
      obtain ⟨rfl, _⟩ := h
      exact ⟨d', by simp, by simp⟩
    | 1 => simp at h
    | 2 => simp at h
    | n + 3 =>
      simp only [List.getElem?_cons_succ] at h ⊢
      exact ih n h

/-- The shape of a complete stream: `message_start`, block triads, `message_delta`,
`message_stop`. -/
theorem complete_stream_props (ms : Frame) (body : List Frame) (n : Nat)
    (hms : ms.name = js "message_start") (hb : Triads body) :
    (ms :: body ++ [Frame.messageDelta (js "end_turn") n, Frame.messageStop]).countP
        (fun f => f.name == js "message_start") = 1
      ∧ (ms :: body ++ [Frame.messageDelta (js "end_turn") n, Frame.messageStop]).countP
        (fun f => f.name == js "message_delta") = 1
      ∧ (ms :: body ++ [Frame.messageDelta (js "end_turn") n, Frame.messageStop]).countP
        (fun f => f.name == js "message_stop") = 1
      ∧ ∀ k i b,
        (ms :: body ++ [Frame.messageDelta (js "end_turn") n, Frame.messageStop])[k]?
            = some (.contentBlockStart i b) →
          ∃ d, (ms :: body ++ [Frame.messageDelta (js "end_turn") n, Frame.messageStop])[k + 1]?
              = some (.contentBlockDelta i d)
            ∧ (ms :: body ++ [Frame.messageDelta (js "end_turn") n, Frame.messageStop])[k + 2]?
              = some (.contentBlockStop i) := by
  have c1 := hb.countP_eq_zero (fun f => f.name == js "message_start")
    (fun _ _ => rfl) (fun _ _ => rfl) (fun _ => rfl)
  have c2 := hb.countP_eq_zero (fun f => f.name == js "message_delta")
    (fun _ _ => rfl) (fun _ _ => rfl) (fun _ => rfl)
  have c3 := hb.countP_eq_zero (fun f => f.name == js "message_stop")
    (fun _ _ => rfl) (fun _ _ => rfl) (fun _ => rfl)
  have e1 : (js "message_start" == js "message_delta") = false := by decide
  have e2 : (js "message_start" == js "message_stop") = false := by decide
  have e3 : (js "message_delta" == js "message_start") = false := by decide
  have e4 : (js "message_delta" == js "message_stop") = false := by decide
  have e5 : (js "message_stop" == js "message_start") = false := by decide
  have e6 : (js "message_stop" == js "message_delta") = false := by decide
  have n1 : ∀ s k, (Frame.messageDelta s k).name = js "message_delta" := fun _ _ => rfl
  have n2 : Frame.messageStop.name = js "message_stop" := rfl
  refine ⟨?_, ?_, ?_, ?_⟩
  · simp [List.countP_cons, List.countP_append, c1, hms, n1, n2, e3, e5]
  · simp [List.countP_cons, List.countP_append, c2, hms, n1, n2, e1, e6]
  · simp [List.countP_cons, List.countP_append, c3, hms, n1, n2, e2, e4]
  · intro k i b h
    match k with
    | 0 =>
      simp only [List.cons_append, List.getElem?_cons_zero, Option.some.injEq] at h
      rw [h] at hms
      exact absurd hms (by simp only [Frame.name]; decide)
    | k + 1 =>
      simp only [List.cons_append, List.getElem?_cons_succ] at h ⊢
      by_cases hk : k < body.length
      · rw [List.getElem?_append_left hk] at h
        obtain ⟨d, h1, h2⟩ := hb.next k i b h
        have l1 : k + 1 < body.length := by
          by_contra hc
          rw [List.getElem?_eq_none (by omega)] at h1
          exact absurd h1 (by simp)
        have l2 : k + 2 < body.length := by
          by_contra hc
          rw [List.getElem?_eq_none (by omega)] at h2
          exact absurd h2 (by simp)
        exact ⟨d, by rw [List.getElem?_append_left l1]; exact h1,
          by rw [List.getElem?_append_left l2]; exact h2⟩
      · rw [List.getElem?_append_right (by omega)] at h
        match hj : k - body.length with
        | 0 => rw [hj] at h; simp at h
        | 1 => rw [hj] at h; simp at h
        | j + 2 => rw [hj] at h; simp at h

theorem stream_shape (es : List JVal) (r : JVal) (st : StreamState) (last : JVal)
    (hst : st.messageStarted = false)
    (hes : ∀ e ∈ es, isTurnEvent e = true ∧ contentReadable e = true)
    (hr : isResultEvent r = true) :
    (streamLoop (es ++ [r]) st last).threw = false
      ∧ ∃ body n, Triads body
        ∧ (streamLoop (es ++ [r]) st last).written
          = messageStartFrame st :: body
            ++ [Frame.messageDelta (js "end_turn") n, Frame.messageStop] := by
  obtain ⟨l1, l2, l3, l4⟩ := streamLoop_turns es st last hes
  rw [streamLoop_append es [r] st last l1]
  simp only [streamLoop]
  rw [translateToSSE_result r _ hr]
  obtain ⟨r1, _, n, r3⟩ := translateResult_frames r (streamLoop es st last).state
  simp only [r1, Bool.false_eq_true, if_false, List.append_nil]
  refine ⟨trivial, ?_⟩
  have hms : messageStartFrame (streamLoop es st last).state = messageStartFrame st := by
    simp [messageStartFrame, l2, l3]
  rcases l4 with ⟨la, _, lc⟩ | ⟨_, lb, body, lc, ld⟩
  · rcases r3 with ⟨ra, _⟩ | ⟨_, body, rb, rc⟩
    · rw [la, hst] at ra; exact absurd ra (by decide)
    · exact ⟨body, n, rb, by rw [lc hst, rc, hms]; rfl⟩
  · rcases r3 with ⟨_, rb⟩ | ⟨ra, _⟩
    · exact ⟨body, n, ld, by rw [lc, rb]⟩
    · rw [lb] at ra; exact absurd ra (by decide)

/-- C1. Translating in order, from a fresh state, assistant, system and user events (whose
content blocks are readable objects) followed by one result event completes without
throwing; the frames start with the one `message_start`, end with the one `message_delta`
followed by the one `message_stop`, and every `content_block_start` of index `i` is
immediately followed by a `content_block_delta` and a `content_block_stop` of index `i`. -/
theorem translated_stream_well_formed (m : JStr) (M : JVal) (es : List JVal) (r : JVal)
    (hes : ∀ e ∈ es, isTurnEvent e = true ∧ contentReadable e = true)
    (hr : isResultEvent r = true) :
    (streamLoop (es ++ [r]) (createStreamState m M) null).threw = false
      ∧ (streamLoop (es ++ [r]) (createStreamState m M) null).written.head?
        = some (Frame.messageStart m (createStreamState m M).model [] 0 0)
      ∧ (streamLoop (es ++ [r]) (createStreamState m M) null).written.countP
        (fun f => f.name == js "message_start") = 1
      ∧ (∃ body n, (streamLoop (es ++ [r]) (createStreamState m M) null).written
        = body ++ [Frame.messageDelta (js "end_turn") n, Frame.messageStop])
      ∧ (streamLoop (es ++ [r]) (createStreamState m M) null).written.countP
        (fun f => f.name == js "message_delta") = 1
      ∧ (streamLoop (es ++ [r]) (createStreamState m M) null).written.countP
        (fun f => f.name == js "message_stop") = 1
      ∧ ∀ k i b,
        (streamLoop (es ++ [r]) (createStreamState m M) null).written[k]?
            = some (Frame.contentBlockStart i b) →
          ∃ d, (streamLoop (es ++ [r]) (createStreamState m M) null).written[k + 1]?
              = some (Frame.contentBlockDelta i d)
            ∧ (streamLoop (es ++ [r]) (createStreamState m M) null).written[k + 2]?
              = some (Frame.contentBlockStop i) := by
  obtain ⟨h1, body, n, hb, hw⟩ :=
    stream_shape es r (createStreamState m M) null rfl hes hr
  obtain ⟨p1, p2, p3, p4⟩ :=
    complete_stream_props (messageStartFrame (createStreamState m M)) body n rfl hb
  rw [hw]
  exact ⟨h1, rfl, p1, ⟨_ :: body, n, rfl⟩, p2, p3, p4⟩

/-- Witness of C1: one assistant turn with the text block `Hello`, then a result event. -/
theorem translated_stream_well_formed_witness :
    (streamLoop ([assistantEvent [textBlock (js "Hello")]] ++ [resultEvent null (str (js "s1"))])
        (createStreamState (js "m") (str (js "M"))) null).written.countP
      (fun f => f.name == js "message_stop") = 1 :=
  (translated_stream_well_formed (js "m") (str (js "M"))
    [assistantEvent [textBlock (js "Hello")]] (resultEvent null (str (js "s1")))
    (by intro e he; rw [List.mem_singleton] at he; subst he; exact ⟨by decide, by decide⟩)
    (by decide)).2.2.2.2.2.1

theorem estimateTokens_eq_ceil (text : JStr) :
    estimateTokens text = ⌈(text.length : ℚ) / 4⌉₊ := by
  unfold estimateTokens
  cases text with
  | nil => simp
  | cons c t =>
    simp only [List.isEmpty_cons, Bool.false_eq_true, if_false, List.length_cons]
    symm
    rw [Nat.ceil_eq_iff (by omega)]
    have h1 : 4 * ((t.length + 1 + 3) / 4) ≤ t.length + 1 + 3 := Nat.mul_div_le _ _
    have h2 : t.length + 1 ≤ 4 * ((t.length + 1 + 3) / 4) := by omega
    have h3 : 1 ≤ (t.length + 1 + 3) / 4 := by omega
    have h1' : (4 : ℚ) * (((t.length + 1 + 3) / 4 : ℕ) : ℚ) ≤ (t.length : ℚ) + 1 + 3 := by
      exact_mod_cast h1
    have h2' : (t.length : ℚ) + 1 ≤ 4 * (((t.length + 1 + 3) / 4 : ℕ) : ℚ) := by
      exact_mod_cast h2
    push_cast [Nat.cast_sub h3]
    constructor <;> linarith

theorem Table.find_assign_self (k : JStr) (e : Entry) (t : Table) :
    (t.assign k e).find k = some e := by
  induction t with
  | nil => simp [Table.assign, Table.find]
  | cons p rest ih =>
    obtain ⟨k', e'⟩ := p
    by_cases h : k' = k
    · simp [Table.assign, Table.find, h]
    · simp [Table.assign, Table.find, h, ih]

/-- C2. Scenario A: from a fresh state, an assistant event with the single text block `t`
(non-empty) followed by a result event resolving to the session handle `s` (non-empty)
makes `handleStreaming` write exactly `message_start`, the block triad of index 0 carrying
`t`, `message_delta` with `end_turn` and `ceil(len(t)/4)` output tokens, and `message_stop`;
the state's session handle is then `s`, and `handleStreaming` stores `s` in the registry
under the conversation key. -/
theorem scenario_single_text_block (m : JStr) (M : JVal) (key t s : JStr) (r : JVal)
    (now : Int) (writeOk : Bool) (reg : Registry)
    (ht : t ≠ []) (hs : s ≠ []) (hr : isResultEvent r = true)
    (hsid : (r.get (js "_sessionId")).or (r.get (js "session_id")) = str s) :
    (handleStreaming m M key [assistantEvent [textBlock t], r] .done now writeOk reg).written
        = [Frame.messageStart m (createStreamState m M).model [] 0 0,
            Frame.contentBlockStart 0 (.text []),
            Frame.contentBlockDelta 0 (.textDelta (str t)),
            Frame.contentBlockStop 0,
            Frame.messageDelta (js "end_turn") ⌈(t.length : ℚ) / 4⌉₊,
            Frame.messageStop]
      ∧ (streamLoop [assistantEvent [textBlock t], r] (createStreamState m M) null).state.sessionId
        = str s
      ∧ (handleStreaming m M key [assistantEvent [textBlock t], r] .done now writeOk reg).registry
        = setSession now writeOk key (str s) reg
      ∧ (handleStreaming m M key [assistantEvent [textBlock t], r] .done now writeOk
          reg).registry.store.find key = some ⟨str s, now⟩
      ∧ (M ≠ undefined → (createStreamState m M).model = M) := by
  obtain ⟨c, t', rfl⟩ := List.exists_cons_of_ne_nil ht
  obtain ⟨d, s', rfl⟩ := List.exists_cons_of_ne_nil hs
  have hloop : streamLoop [assistantEvent [textBlock (c :: t')], r] (createStreamState m M) null
      = ⟨[Frame.messageStart m (createStreamState m M).model [] 0 0,
            Frame.contentBlockStart 0 (.text []),
            Frame.contentBlockDelta 0 (.textDelta (str (c :: t'))),
            Frame.contentBlockStop 0,
            Frame.messageDelta (js "end_turn") (estimateTokens (c :: t')),
            Frame.messageStop],
          { messageId := m, model := (createStreamState m M).model, messageStarted := true,
            blockIndex := 1, outputText := c :: t', sessionId := str (d :: s'),
            costUsd := r.get (js "cost_usd"), durationMs := r.get (js "duration_ms") },
          str (d :: s'), false⟩ := by
    have h1 : translateToSSE (assistantEvent [textBlock (c :: t')]) (createStreamState m M)
        = ⟨[Frame.messageStart m (createStreamState m M).model [] 0 0,
            Frame.contentBlockStart 0 (.text []),
            Frame.contentBlockDelta 0 (.textDelta (str (c :: t'))),
            Frame.contentBlockStop 0],
          { messageId := m, model := (createStreamState m M).model, messageStarted := true,
            blockIndex := 1, outputText := c :: t', sessionId := null,
            costUsd := null, durationMs := null }, false⟩ := rfl
    simp only [streamLoop, h1, translateToSSE_result r _ hr, Bool.false_eq_true, if_false]
    simp only [translateResult, hsid]
    simp [JVal.or, JVal.truthy]
  rw [← estimateTokens_eq_ceil]
  have hrun : handleStreaming m M key [assistantEvent [textBlock (c :: t')], r] .done now
      writeOk reg
      = ⟨[Frame.messageStart m (createStreamState m M).model [] 0 0,
            Frame.contentBlockStart 0 (.text []),
            Frame.contentBlockDelta 0 (.textDelta (str (c :: t'))),
            Frame.contentBlockStop 0,
            Frame.messageDelta (js "end_turn") (estimateTokens (c :: t')),
            Frame.messageStop], true, true, false,
          setSession now writeOk key (str (d :: s')) reg⟩ := by
    simp only [handleStreaming, hloop]
    rfl
  rw [hrun, hloop]
  refine ⟨rfl, rfl, rfl, ?_, ?_⟩
  · cases writeOk <;> simp [setSession, save, load, Table.find_assign_self]
  · intro hM
    cases M <;> first | rfl | exact absurd rfl hM

/-- Witness of C2: `t = "Hello"`, `s = "s1"`, the result event handed on by the runner. -/
theorem scenario_single_text_block_witness :
    (handleStreaming (js "m") (str (js "M")) (js "hdr:c1")
        [assistantEvent [textBlock (js "Hello")],
          annotate (resultEvent (str (js "Hello")) (str (js "s1")))]
        .done 1000 true ⟨[], none⟩).registry.store.find (js "hdr:c1")
      = some ⟨str (js "s1"), 1000⟩ :=
  (scenario_single_text_block (js "m") (str (js "M")) (js "hdr:c1") (js "Hello") (js "s1")
    (annotate (resultEvent (str (js "Hello")) (str (js "s1")))) 1000 true ⟨[], none⟩
    (by decide) (by decide) (by decide) rfl).2.2.2.1

/-- C3 (failing input). When the subprocess delivers one assistant event and then exits
cleanly without a result event, `handleStreaming` writes `message_start` and the block
triad, ends the response, and never writes `message_delta` or `message_stop`. -/
theorem handleStreaming_assistant_without_result (m : JStr) (M : JVal) (key : JStr)
    (now : Int) (writeOk : Bool) (reg : Registry) :
    (handleStreaming m M key [assistantEvent [textBlock (js "Hello")]] .done now writeOk
        reg).written
        = [Frame.messageStart m (createStreamState m M).model [] 0 0,
            Frame.contentBlockStart 0 (.text []),
            Frame.contentBlockDelta 0 (.textDelta (str (js "Hello"))),
            Frame.contentBlockStop 0]
      ∧ (handleStreaming m M key [assistantEvent [textBlock (js "Hello")]] .done now writeOk
        reg).ended = true
      ∧ (handleStreaming m M key [assistantEvent [textBlock (js "Hello")]] .done now writeOk
        reg).threw = false :=
  ⟨rfl, rfl, rfl⟩

/-- C4. With no event at all and a clean exit, `handleStreaming` translates the synthesized
event `{ type: "result", result: "" }` on the fresh state and writes exactly three frames:
`message_start`, `message_delta` with `end_turn` and 0 output tokens, `message_stop`. -/
theorem handleStreaming_no_events (m : JStr) (M : JVal) (key : JStr) (now : Int)
    (writeOk : Bool) (reg : Registry) :
    (translateToSSE emptyResult (createStreamState m M)).frames
        = [Frame.messageStart m (createStreamState m M).model [] 0 0,
            Frame.messageDelta (js "end_turn") 0,
            Frame.messageStop]
      ∧ (handleStreaming m M key [] .done now writeOk reg).written
        = (translateToSSE emptyResult (createStreamState m M)).frames
      ∧ (handleStreaming m M key [] .done now writeOk reg).ended = true :=
  ⟨rfl, rfl, rfl⟩

theorem translateToSSE_internal (e : JVal) (st : StreamState)
    (h : (e.get (js "type")).eqStr (js "system") = true
      ∨ (e.get (js "type")).eqStr (js "user") = true) :
    translateToSSE e st = translateInternal e st := by
  have hobj : ∃ fields, e = obj fields := by
    rcases h with h | h <;> exact obj_of_eqStr_get h
  obtain ⟨fields, rfl⟩ := hobj
  cases hv : (obj fields).get (js "type") with
  | str s =>
    rw [hv] at h
    simp only [JVal.eqStr, beq_iff_eq] at h
    rcases h with h | h <;> subst h <;>
      simp only [translateToSSE, JVal.truthy, JVal.isObjectType, hv] <;> rfl
  | _ => rw [hv] at h; simp [JVal.eqStr] at h

/-! ### The aggregate response -/

theorem collectBlocks_eq (content : List JVal) (acc res : List ContentBlock)
    (h : collectBlocks content acc = some res) : res = acc ++ textBlocksOf content := by
  induction content generalizing acc with
  | nil =>
    simp only [collectBlocks, Option.some.injEq] at h
    simp [textBlocksOf, h]
  | cons block rest ih =>
    unfold collectBlocks at h
    split at h
    · exact absurd h (by simp)
    · split at h
      · rename_i hb
        have hb' : isTextBlock block = true := hb
        rw [ih _ h]
        simp [textBlocksOf, List.filter_cons, hb']
      · rename_i hb
        have hb' : isTextBlock block = false := by simpa [isTextBlock] using hb
        rw [ih _ h]
        simp [textBlocksOf, List.filter_cons, hb']

theorem collectBlocks_isSome (content : List JVal) (acc : List ContentBlock)
    (h : content.all blockReadable = true) : ∃ res, collectBlocks content acc = some res := by
  induction content generalizing acc with
  | nil => exact ⟨acc, rfl⟩
  | cons block rest ih =>
    simp only [List.all_cons, Bool.and_eq_true] at h
    obtain ⟨hb, hrest⟩ := h
    simp only [blockReadable, Bool.and_eq_true, Bool.not_eq_true'] at hb
    unfold collectBlocks
    simp only [hb.1, Bool.false_eq_true, if_false]
    split
    · exact ih _ hrest
    · exact ih _ hrest

theorem textBlocksOf_good (content : List JVal) :
    ∀ b ∈ textBlocksOf content, b.type = js "text" ∧ b.text.truthy = true := by
  intro b hb
  simp only [textBlocksOf, List.mem_map, List.mem_filter] at hb
  obtain ⟨block, ⟨_, hblock⟩, rfl⟩ := hb
  simp only [isTextBlock, Bool.and_eq_true] at hblock
  exact ⟨rfl, hblock.2⟩

theorem textBlocksOf_coercible (content : List JVal)
    (h : content.all blockReadable = true) :
    ∀ b ∈ textBlocksOf content, b.text.toStr.isSome = true := by
  intro b hb
  simp only [textBlocksOf, List.mem_map, List.mem_filter] at hb
  obtain ⟨block, ⟨hmem, hblock⟩, rfl⟩ := hb
  have hr := List.all_eq_true.mp h block hmem
  simp only [blockReadable, Bool.and_eq_true, Bool.or_eq_true, Bool.not_eq_true'] at hr
  rcases hr.2 with h1 | h1
  · have : isTextBlock block = false := h1
    rw [this] at hblock; exact absurd hblock (by decide)
  · exact h1

theorem noteSessionId_blocks (e : JVal) (c : Collected) :
    (noteSessionId e c).contentBlocks = c.contentBlocks
      ∧ (noteSessionId e c).resultText = c.resultText := by
  unfold noteSessionId; split <;> exact ⟨rfl, rfl⟩

theorem collectEvent_ok (e : JVal) (c c' : Collected) (hc : CollectedOk c)
    (h : collectEvent e c = some c') : CollectedOk c' := by
  obtain ⟨n1, n2⟩ := noteSessionId_blocks e c
  unfold collectEvent at h
  split at h
  · exact absurd h (by simp)
  · simp only at h
    split at h
    · split at h
      · rename_i content _
        simp only [Option.map_eq_some'] at h
        obtain ⟨blocks, hb, rfl⟩ := h
        have := collectBlocks_eq _ _ _ hb
        refine ⟨?_, by simpa only [n2] using hc.2⟩
        intro b hmem
        simp only [this, List.mem_append, n1] at hmem
        rcases hmem with hmem | hmem
        · exact hc.1 b hmem
        · exact textBlocksOf_good content b hmem
      · simp only [Option.some.injEq] at h
        subst h
        exact ⟨by simpa only [n1] using hc.1, by simpa only [n2] using hc.2⟩
      · exact absurd h (by simp)
    · split at h
      · simp only [Option.some.injEq] at h
        subst h
        refine ⟨by simpa only [n1] using hc.1, ?_⟩
        cases hres : e.get (js "result") with
        | str s => exact Or.inr ⟨s, by simp [JVal.isString]⟩
        | _ =>
          simp only [JVal.isString, Bool.false_eq_true, if_false]
          simpa only [n2] using hc.2
      · simp only [Option.some.injEq] at h
        subst h
        exact ⟨by simpa only [n1] using hc.1, by simpa only [n2] using hc.2⟩

theorem collectEvents_ok (es : List JVal) (c c' : Collected) (hc : CollectedOk c)
    (h : collectEvents es c = some c') : CollectedOk c' := by
  induction es generalizing c with
  | nil =>
    simp only [collectEvents, Option.some.injEq] at h
    exact h ▸ hc
  | cons e rest ih =>
    unfold collectEvents at h
    split at h
    · exact absurd h (by simp)
    · rename_i c1 hc1
      exact ih c1 (collectEvent_ok e c c1 hc hc1) h

theorem collectEvent_returns (e : JVal) (c : Collected) (he : aggregateReadable e = true)
    (hc : ∀ b ∈ c.contentBlocks, b.text.toStr.isSome = true) :
    ∃ c', collectEvent e c = some c'
      ∧ ∀ b ∈ c'.contentBlocks, b.text.toStr.isSome = true := by
  obtain ⟨n1, _⟩ := noteSessionId_blocks e c
  simp only [aggregateReadable, Bool.and_eq_true, Bool.not_eq_true', Bool.or_eq_true] at he
  obtain ⟨hnull, hcontent⟩ := he
  unfold collectEvent
  simp only [hnull, Bool.false_eq_true, if_false]
  split
  · rename_i hbranch
    simp only [Bool.and_eq_true] at hbranch
    rcases hcontent with h | h
    · rw [h] at hbranch; exact absurd hbranch.1 (by decide)
    · cases hv : (e.get (js "message")).get (js "content") with
      | arr content =>
        rw [hv] at h
        obtain ⟨res, hres⟩ := collectBlocks_isSome content (noteSessionId e c).contentBlocks h
        refine ⟨_, by simp only [hres, Option.map_some']; rfl, ?_⟩
        intro b hb
        simp only [collectBlocks_eq _ _ _ hres, n1, List.mem_append] at hb
        rcases hb with hb | hb
        · exact hc b hb
        · exact textBlocksOf_coercible content h b hb
      | str s => exact ⟨_, rfl, by simpa only [n1] using hc⟩
      | undefined => rw [hv] at hbranch; exact absurd hbranch.2 (by decide)
      | null => rw [hv] at hbranch; exact absurd hbranch.2 (by decide)
      | bool b =>
        rw [hv] at h hbranch
        simp only [Bool.not_eq_true'] at h
        rw [h] at hbranch; exact absurd hbranch.2 (by decide)
      | num n =>
        rw [hv] at h hbranch
        simp only [Bool.not_eq_true'] at h
        rw [h] at hbranch; exact absurd hbranch.2 (by decide)
      | obj fs => rw [hv] at h; simp [JVal.truthy] at h
  · split
    · exact ⟨_, rfl, by simpa only [n1] using hc⟩
    · exact ⟨_, rfl, by simpa only [n1] using hc⟩

theorem collectEvents_returns (es : List JVal) (c : Collected)
    (hes : ∀ e ∈ es, aggregateReadable e = true)
    (hc : ∀ b ∈ c.contentBlocks, b.text.toStr.isSome = true) :
    ∃ c', collectEvents es c = some c'
      ∧ ∀ b ∈ c'.contentBlocks, b.text.toStr.isSome = true := by
  induction es generalizing c with
  | nil => exact ⟨c, rfl, hc⟩
  | cons e rest ih =>
    obtain ⟨c1, h1, hc1⟩ := collectEvent_returns e c (hes e (List.mem_cons_self _ _)) hc
    obtain ⟨c2, h2, hc2⟩ := ih c1 (fun e' he' => hes e' (List.mem_cons_of_mem _ he')) hc1
    exact ⟨c2, by simp only [collectEvents, h1, h2], hc2⟩

theorem joinEmpty_returns (vs : List JVal) (h : ∀ v ∈ vs, v.toStr.isSome = true) :
    ∃ s, joinEmpty vs = some s := by
  induction vs with
  | nil => exact ⟨[], rfl⟩
  | cons v rest ih =>
    obtain ⟨s, hs⟩ := ih (fun v' hv' => h v' (List.mem_cons_of_mem _ hv'))
    obtain ⟨a, ha⟩ := Option.isSome_iff_exists.mp (h v (List.mem_cons_self _ _))
    cases hn : v.isNullish <;> simp [joinEmpty, hn, hs, ha]

theorem joinEmpty_eq_concatTexts (bs : List ContentBlock) (s : JStr)
    (hb : ∀ b ∈ bs, b.text.isNullish = false)
    (h : joinEmpty (bs.map (fun b => b.text)) = some s) : s = concatTexts bs := by
  induction bs generalizing s with
  | nil =>
    simp only [List.map_nil, joinEmpty, Option.some.injEq] at h
    exact h.symm
  | cons b rest ih =>
    simp only [List.map_cons, joinEmpty, hb b (List.mem_cons_self _ _), Bool.false_eq_true,
      if_false] at h
    cases ha : b.text.toStr with
    | none => rw [ha] at h; simp at h
    | some a =>
      cases hr : joinEmpty (rest.map (fun b => b.text)) with
      | none => rw [ha, hr] at h; simp at h
      | some t =>
        rw [ha, hr] at h
        simp only [Option.some.injEq] at h
        rw [← h, ih t (fun b' hb' => hb b' (List.mem_cons_of_mem _ hb')) hr]
        simp [concatTexts, ha]

theorem withFallbacks_of_nil (c : Collected) (h : c.contentBlocks = []) :
    withFallbacks c
      = [⟨js "text", if c.resultText.truthy then c.resultText else str []⟩] := by
  unfold withFallbacks
  rw [h]
  cases c.resultText.truthy <;> rfl

theorem withFallbacks_of_ne_nil (c : Collected) (h : c.contentBlocks ≠ []) :
    withFallbacks c = c.contentBlocks := by
  obtain ⟨b, rest, hb⟩ := List.exists_cons_of_ne_nil h
  unfold withFallbacks
  rw [hb]
  rfl

theorem withFallbacks_props (c : Collected) (hc : CollectedOk c) :
    withFallbacks c ≠ []
      ∧ ∀ b ∈ withFallbacks c,
        b.type = js "text" ∧ (b.text.truthy = true ∨ b.text = str []) := by
  by_cases h : c.contentBlocks = []
  · rw [withFallbacks_of_nil c h]
    refine ⟨by simp, ?_⟩
    intro b hb
    rw [List.mem_singleton] at hb
    subst hb
    refine ⟨rfl, ?_⟩
    cases ht : c.resultText.truthy
    · exact Or.inr rfl
    · exact Or.inl ht
  · rw [withFallbacks_of_ne_nil c h]
    exact ⟨h, fun b hb => ⟨(hc.1 b hb).1, Or.inl (hc.1 b hb).2⟩⟩

theorem not_nullish_of_text {v : JVal} (h : v.truthy = true ∨ v = str []) :
    v.isNullish = false := by
  rcases h with h | h
  · cases v <;> first | rfl | exact absurd h (by decide)
  · subst h; rfl

theorem withFallbacks_coercible (c : Collected) (hc : CollectedOk c)
    (hco : ∀ b ∈ c.contentBlocks, b.text.toStr.isSome = true) :
    ∀ b ∈ withFallbacks c, b.text.toStr.isSome = true := by
  by_cases h : c.contentBlocks = []
  · rw [withFallbacks_of_nil c h]
    intro b hb
    rw [List.mem_singleton] at hb
    subst hb
    rcases hc.2 with hn | ⟨s, hs⟩
    · simp only [hn, JVal.truthy]; rfl
    · simp only [hs]; split <;> rfl
  · rw [withFallbacks_of_ne_nil c h]
    exact hco

theorem buildCompleteResponse_returns (messageId : JStr) (events : List JVal) (model : JVal)
    (hes : ∀ e ∈ events, aggregateReadable e = true) :
    ∃ agg, buildCompleteResponse messageId events model = some agg := by
  obtain ⟨c, hc, hco⟩ := collectEvents_returns events ⟨[], null, null⟩ hes
    (fun b hb => absurd hb (List.not_mem_nil b))
  have hok : CollectedOk c :=
    collectEvents_ok events _ c ⟨fun b hb => absurd hb (List.not_mem_nil b), Or.inl rfl⟩ hc
  obtain ⟨s, hs⟩ := joinEmpty_returns ((withFallbacks c).map (fun b => b.text)) (by
    intro v hv
    simp only [List.mem_map] at hv
    obtain ⟨b, hb, rfl⟩ := hv
    exact withFallbacks_coercible c hok hco b hb)
  simp only [buildCompleteResponse, hc, hs]
  exact ⟨_, rfl⟩

theorem buildCompleteResponse_some (messageId : JStr) (events : List JVal) (model : JVal)
    (agg : Aggregate) (h : buildCompleteResponse messageId events model = some agg) :
    ∃ c fullText, collectEvents events ⟨[], null, null⟩ = some c ∧ CollectedOk c
      ∧ joinEmpty ((withFallbacks c).map (fun b => b.text)) = some fullText
      ∧ agg = { response :=
                  { id := messageId
                    type := js "message"
                    role := js "assistant"
                    content := withFallbacks c
                    model := modelOrDefault model
                    stopReason := js "end_turn"
                    stopSequence := null
                    inputTokens := 0
                    outputTokens := estimateTokens fullText }
                sessionId := c.sessionId } := by
  unfold buildCompleteResponse at h
  split at h
  · exact absurd h (by simp)
  · rename_i c hc
    split at h
    · exact absurd h (by simp)
    · rename_i fullText hf
      simp only [Option.some.injEq] at h
      exact ⟨c, fullText, hc,
        collectEvents_ok events _ c ⟨fun b hb => absurd hb (List.not_mem_nil b), Or.inl rfl⟩ hc,
        hf, h.symm⟩

/-- C6. On events it can read `buildCompleteResponse` returns, and whatever it returns has
a non-empty content list made of blocks of type `text`, and has type `message`, role
`assistant`, stop reason `end_turn`, stop sequence `null`, the given model and 0 input
tokens. -/
theorem aggregate_response_shape (messageId : JStr) (events : List JVal) (model : JVal) :
    ((∀ e ∈ events, aggregateReadable e = true) →
        ∃ agg, buildCompleteResponse messageId events model = some agg)
      ∧ ∀ agg, buildCompleteResponse messageId events model = some agg →
        agg.response.content ≠ []
          ∧ (∀ b ∈ agg.response.content, b.type = js "text")
          ∧ agg.response.type = js "message"
          ∧ agg.response.role = js "assistant"
          ∧ agg.response.stopReason = js "end_turn"
          ∧ agg.response.stopSequence = null
          ∧ (model ≠ undefined → agg.response.model = model)
          ∧ agg.response.inputTokens = 0 := by
  refine ⟨buildCompleteResponse_returns messageId events model, ?_⟩
  intro agg h
  obtain ⟨c, fullText, _, hok, _, rfl⟩ := buildCompleteResponse_some messageId events model agg h
  obtain ⟨p1, p2⟩ := withFallbacks_props c hok
  refine ⟨p1, fun b hb => (p2 b hb).1, rfl, rfl, rfl, rfl, ?_, rfl⟩
  intro hm
  cases model <;> first | rfl | exact absurd rfl hm

/-- Witness of C6: an assistant turn with one text block, then a result event. -/
theorem aggregate_response_shape_witness :
    ∃ agg, buildCompleteResponse (js "m")
        [assistantEvent [textBlock (js "Hello")], resultEvent (str (js "Hello")) (str (js "s1"))]
        (str (js "M")) = some agg :=
  (aggregate_response_shape (js "m")
    [assistantEvent [textBlock (js "Hello")], resultEvent (str (js "Hello")) (str (js "s1"))]
    (str (js "M"))).1 (by
      intro e he
      simp only [List.mem_cons, List.mem_singleton, List.not_mem_nil, or_false] at he
      rcases he with rfl | rfl <;> decide)

theorem not_result_of_assistant {e : JVal}
    (h : (e.get (js "type")).eqStr (js "assistant") = true) : isResultEvent e = false := by
  unfold isResultEvent
  cases hv : e.get (js "type") with
  | str s =>
    rw [hv] at h
    simp only [JVal.eqStr, beq_iff_eq] at h ⊢
    subst h; decide
  | _ => rfl

theorem collectEvent_no_text (e : JVal) (c c' : Collected)
    (hno : carriesTextBlock e = false) (h : collectEvent e c = some c') :
    c'.contentBlocks = c.contentBlocks
      ∧ c'.resultText
        = match lastStringResult [e] with
          | some s => str s
          | none => c.resultText := by
  obtain ⟨n1, n2⟩ := noteSessionId_blocks e c
  unfold collectEvent at h
  split at h
  · exact absurd h (by simp)
  · simp only at h
    split at h
    · rename_i hbranch
      simp only [Bool.and_eq_true] at hbranch
      have hnr : isResultEvent e = false := not_result_of_assistant hbranch.1
      have hlast : lastStringResult [e] = none := by
        simp [lastStringResult, hnr]
      rw [hlast]
      split at h
      · rename_i content hcontent
        simp only [Option.map_eq_some'] at h
        obtain ⟨blocks, hb, rfl⟩ := h
        have hany : content.any isTextBlock = false := by
          simpa [carriesTextBlock, hbranch.1, hcontent] using hno
        have hnil : textBlocksOf content = [] := by
          simp only [textBlocksOf, List.map_eq_nil_iff, List.filter_eq_nil_iff]
          intro b hb'
          have := List.any_eq_false.mp hany b hb'
          simpa using this
        exact ⟨by rw [collectBlocks_eq _ _ _ hb, hnil, List.append_nil, n1], n2⟩
      · simp only [Option.some.injEq] at h
        subst h
        exact ⟨n1, n2⟩
      · exact absurd h (by simp)
    · split at h
      · rename_i hres
        have hres' : isResultEvent e = true := hres
        simp only [Option.some.injEq] at h
        subst h
        refine ⟨n1, ?_⟩
        cases hv : e.get (js "result") <;>
          simp [lastStringResult, hres', hv, JVal.isString, n2]
      · rename_i hres
        have hres' : isResultEvent e = false := by simpa [isResultEvent] using hres
        simp only [Option.some.injEq] at h
        subst h
        exact ⟨n1, by simp [lastStringResult, hres', n2]⟩

theorem lastStringResult_cons (e : JVal) (rest : List JVal) :
    lastStringResult (e :: rest)
      = match lastStringResult rest with
        | some s => some s
        | none => lastStringResult [e] := by
  cases h : lastStringResult rest <;> simp [lastStringResult, h]

theorem collectEvents_no_text (es : List JVal) (c c' : Collected)
    (hno : ∀ e ∈ es, carriesTextBlock e = false) (h : collectEvents es c = some c') :
    c'.contentBlocks = c.contentBlocks
      ∧ c'.resultText
        = match lastStringResult es with
          | some s => str s
          | none => c.resultText := by
  induction es generalizing c with
  | nil =>
    simp only [collectEvents, Option.some.injEq] at h
    subst h
    exact ⟨rfl, rfl⟩
  | cons e rest ih =>
    unfold collectEvents at h
    split at h
    · exact absurd h (by simp)
    · rename_i c1 hc1
      obtain ⟨a1, a2⟩ := collectEvent_no_text e c c1 (hno e (List.mem_cons_self _ _)) hc1
      obtain ⟨b1, b2⟩ := ih c1 (fun e' he' => hno e' (List.mem_cons_of_mem _ he')) h
      refine ⟨b1.trans a1, ?_⟩
      rw [b2, lastStringResult_cons]
      cases lastStringResult rest with
      | some s => rfl
      | none => exact a2

/-- C7 (counterexample). Two result events, the first carrying `abc` and the last carrying
the empty string, and no assistant text block: the response holds one block with empty
text, not the block `abc` of the last result event carrying a non-empty string. -/
theorem empty_result_overrides_earlier_text :
    (∀ e ∈ [resultEvent (str (js "abc")) null, resultEvent (str []) null],
        carriesTextBlock e = false)
      ∧ (buildCompleteResponse (js "m")
          [resultEvent (str (js "abc")) null, resultEvent (str []) null] (str (js "M"))).map
          (fun agg => agg.response.content) = some [⟨js "text", str []⟩]
      ∧ ([⟨js "text", str []⟩] : List ContentBlock) ≠ [⟨js "text", str (js "abc")⟩] := by
  refine ⟨?_, rfl, ?_⟩
  · intro e he
    simp only [List.mem_cons, List.mem_singleton, List.not_mem_nil, or_false] at he
    rcases he with rfl | rfl <;> decide
  · intro h
    simp only [List.cons.injEq, ContentBlock.mk.injEq, JVal.str.injEq, and_true, true_and] at h
    exact absurd h (by decide)

/-- C7 (amended). For events the loop can read, none of which carries a text block, the
response holds exactly one block of type `text`, whose text is the string result of the
last result event that carries a string result (empty or not), and the empty string when
no result event carries a string. -/
theorem aggregate_without_text_blocks (messageId : JStr) (events : List JVal) (model : JVal)
    (hread : ∀ e ∈ events, aggregateReadable e = true)
    (hno : ∀ e ∈ events, carriesTextBlock e = false) :
    ∃ agg, buildCompleteResponse messageId events model = some agg
      ∧ agg.response.content = [⟨js "text", str ((lastStringResult events).getD [])⟩] := by
  obtain ⟨agg, hagg⟩ := buildCompleteResponse_returns messageId events model hread
  obtain ⟨c, fullText, hc, _, _, rfl⟩ :=
    buildCompleteResponse_some messageId events model agg hagg
  refine ⟨_, hagg, ?_⟩
  obtain ⟨h1, h2⟩ := collectEvents_no_text events _ c hno hc
  simp only [withFallbacks_of_nil c h1, h2]
  cases lastStringResult events with
  | none => rfl
  | some s =>
    cases s with
    | nil => rfl
    | cons a t => rfl

/-- Witness of C7 (amended): a system event, then a result event carrying `done`. -/
theorem aggregate_without_text_blocks_witness :
    ∃ agg, buildCompleteResponse (js "m")
        [obj [(js "type", str (js "system"))], resultEvent (str (js "done")) (str (js "s1"))]
        (str (js "M")) = some agg
      ∧ agg.response.content = [⟨js "text", str (js "done")⟩] :=
  aggregate_without_text_blocks (js "m")
    [obj [(js "type", str (js "system"))], resultEvent (str (js "done")) (str (js "s1"))]
    (str (js "M"))
    (by
      intro e he
      simp only [List.mem_cons, List.mem_singleton, List.not_mem_nil, or_false] at he
      rcases he with rfl | rfl <;> decide)
    (by
      intro e he
      simp only [List.mem_cons, List.mem_singleton, List.not_mem_nil, or_false] at he
      rcases he with rfl | rfl <;> decide)

/-- C8. `estimateTokens(text)` is `ceil(len(text)/4)` with `len` the number of UTF-16 code
units, it is 0 on the empty string, and the `output_tokens` of the aggregate response is
`estimateTokens` of the texts of its content blocks concatenated in order. -/
theorem output_token_estimate (text : JStr) (messageId : JStr) (events : List JVal)
    (model : JVal) :
    estimateTokens text = ⌈(text.length : ℚ) / 4⌉₊
      ∧ estimateTokens [] = 0
      ∧ ∀ agg, buildCompleteResponse messageId events model = some agg →
        agg.response.outputTokens = estimateTokens (concatTexts agg.response.content) := by
  refine ⟨estimateTokens_eq_ceil text, rfl, ?_⟩
  intro agg h
  obtain ⟨c, fullText, _, hok, hf, rfl⟩ := buildCompleteResponse_some messageId events model agg h
  have := joinEmpty_eq_concatTexts (withFallbacks c) fullText
    (fun b hb => not_nullish_of_text ((withFallbacks_props c hok).2 b hb).2) hf
  simp only [this]

/-- Witness of C8: the texts `Hello` and `, world` give `ceil(12/4) = 3` output tokens. -/
theorem output_token_estimate_witness :
    ∃ agg, buildCompleteResponse (js "m")
        [assistantEvent [textBlock (js "Hello"), textBlock (js ", world")]] (str (js "M"))
        = some agg
      ∧ agg.response.outputTokens = 3 :=
  ⟨_, rfl,
    ((output_token_estimate (js "Hello") (js "m")
      [assistantEvent [textBlock (js "Hello"), textBlock (js ", world")]] (str (js "M"))).2.2
      _ rfl).trans (by decide)⟩

/-! ### Session-handle extraction -/

theorem trim_eq_nil_iff (s : JStr) : trim s = [] ↔ ∀ c ∈ s, isWhiteSpace c = true := by
  unfold trim
  rw [List.reverse_eq_nil_iff, List.dropWhile_eq_nil_iff]
  constructor
  · intro h
    have hd : s.dropWhile isWhiteSpace = [] := by
      by_contra hne
      have h1 := List.head_dropWhile_not isWhiteSpace s hne
      have h2 := h _ (List.mem_reverse.mpr (List.head_mem hne))
      rw [h2] at h1
      exact absurd h1 (by decide)
    exact List.dropWhile_eq_nil_iff.mp hd
  · intro h c hc
    rw [List.dropWhile_eq_nil_iff.mpr h] at hc
    exact absurd hc (by simp)

theorem trim_isEmpty (s : JStr) : (trim s).isEmpty = !isNonBlankString (str s) := by
  by_cases h : trim s = []
  · have h' := (trim_eq_nil_iff s).mp h
    have : isNonBlankString (str s) = false := by
      simp only [isNonBlankString, List.any_eq_false, Bool.not_eq_true', Bool.not_eq_false']
      simpa using h'
    rw [h, this]; rfl
  · have h' : ¬ ∀ c ∈ s, isWhiteSpace c = true := fun hc => h ((trim_eq_nil_iff s).mpr hc)
    have : isNonBlankString (str s) = true := by
      simp only [isNonBlankString, List.any_eq_true, Bool.not_eq_true']
      push_neg at h'
      obtain ⟨c, hc, hw⟩ := h'
      exact ⟨c, hc, by simpa using hw⟩
    rw [this]
    cases ht : trim s with
    | nil => exact absurd ht h
    | cons a t => rfl

theorem firstSessionId_eq (cs : List JVal) :
    firstSessionId cs
      = match cs.find? isNonBlankString with
        | some (str s) => str (trim s)
        | _ => null := by
  induction cs with
  | nil => rfl
  | cons c rest ih =>
    cases c with
    | str s =>
      simp only [firstSessionId, trim_isEmpty, Bool.not_not, List.find?_cons]
      cases h : isNonBlankString (str s)
      · simpa using ih
      · simp
    | _ => simpa [firstSessionId, List.find?_cons, isNonBlankString] using ih

theorem firstSessionId_eq_null_iff (cs : List JVal) :
    firstSessionId cs = null ↔ ∀ c ∈ cs, isNonBlankString c = false := by
  induction cs with
  | nil => simp [firstSessionId]
  | cons c rest ih =>
    cases c with
    | str s =>
      simp only [firstSessionId, trim_isEmpty, Bool.not_not, List.mem_cons, forall_eq_or_imp]
      cases h : isNonBlankString (str s)
      · simpa using ih
      · simp
    | _ => simpa [firstSessionId, isNonBlankString] using ih

theorem sessionCandidates_of_not_object (e : JVal) (h : e.truthy = false ∨ e.isObjectType = false) :
    ∀ c ∈ sessionCandidates e, isNonBlankString c = false := by
  intro c hc
  cases e with
  | obj fs => rcases h with h | h <;> simp [JVal.truthy, JVal.isObjectType] at h
  | arr xs =>
    simp only [sessionCandidates, JVal.get, List.mem_cons, List.mem_singleton,
      List.not_mem_nil, or_false, or_self] at hc
    subst hc; rfl
  | _ =>
    simp only [sessionCandidates, JVal.get, List.mem_cons, List.mem_singleton,
      List.not_mem_nil, or_false, or_self] at hc
    subst hc; rfl

/-- C9. `extractSessionId` returns the trimmed value of the first of the four candidates
`session_id`, `sessionId`, `session.id`, `result.session_id` that is a non-blank string, so
a non-blank direct `session_id` wins whatever the aliases hold; it returns `null` exactly
when no candidate is a non-blank string, which is the case of every event that is not an
object. -/
theorem extractSessionId_first_non_blank (event : JVal) :
    extractSessionId event = extractSessionIdSpec event
      ∧ (∀ s, event.get (js "session_id") = str s → isNonBlankString (str s) = true →
          extractSessionId event = str (trim s))
      ∧ (extractSessionId event = null
          ↔ ∀ c ∈ sessionCandidates event, isNonBlankString c = false)
      ∧ (event.truthy = false ∨ event.isObjectType = false → extractSessionId event = null) := by
  have hspec : extractSessionId event = firstSessionId (sessionCandidates event) := by
    unfold extractSessionId
    split
    · rename_i h
      have h' : event.truthy = false ∨ event.isObjectType = false := by
        simpa [Bool.or_eq_true] using h
      exact ((firstSessionId_eq_null_iff _).mpr
        (sessionCandidates_of_not_object event h')).symm
    · rfl
  refine ⟨?_, ?_, ?_, ?_⟩
  · rw [hspec, firstSessionId_eq]; rfl
  · intro s hs hnb
    rw [hspec]
    simp only [sessionCandidates, hs, firstSessionId, trim_isEmpty, hnb]
    rfl
  · rw [hspec]; exact firstSessionId_eq_null_iff _
  · intro h
    rw [hspec]
    exact (firstSessionId_eq_null_iff _).mpr (sessionCandidates_of_not_object event h)

/-- An event in which every alias holds another handle than the direct `session_id`. -/
theorem extractSessionId_first_non_blank_witness :
    extractSessionId (obj [(js "sessionId", str (js "alias")),
        (js "session", obj [(js "id", str (js "nested"))]),
        (js "result", obj [(js "session_id", str (js "inner"))]),
        (js "session_id", str (js "  s1 "))]) = str (js "s1") :=
  ((extractSessionId_first_non_blank (obj [(js "sessionId", str (js "alias")),
        (js "session", obj [(js "id", str (js "nested"))]),
        (js "result", obj [(js "session_id", str (js "inner"))]),
        (js "session_id", str (js "  s1 "))])).2.1 (js "  s1 ") rfl (by decide)).trans
    rfl

/-! ### The session registry -/

theorem Table.find_assign_of_ne (k k' : JStr) (e : Entry) (t : Table) (h : k' ≠ k) :
    (t.assign k' e).find k = t.find k := by
  induction t with
  | nil => simp [Table.assign, Table.find, h]
  | cons p rest ih =>
    obtain ⟨k1, e1⟩ := p
    by_cases h1 : k1 = k'
    · subst h1; simp [Table.assign, Table.find, h]
    · by_cases h2 : k1 = k
      · subst h2; simp [Table.assign, Table.find, h1]
      · simp [Table.assign, Table.find, h1, h2, ih]

theorem Table.find_delete_self (k : JStr) (t : Table) : (t.delete k).find k = none := by
  induction t with
  | nil => rfl
  | cons p rest ih =>
    obtain ⟨k1, e1⟩ := p
    by_cases h1 : k1 = k
    · simpa [Table.delete, List.filter_cons, h1] using ih
    · simpa [Table.delete, List.filter_cons, h1, Table.find] using ih

theorem Table.find_delete_of_ne (k k' : JStr) (t : Table) (h : k' ≠ k) :
    (t.delete k').find k = t.find k := by
  induction t with
  | nil => rfl
  | cons p rest ih =>
    obtain ⟨k1, e1⟩ := p
    by_cases h1 : k1 = k'
    · subst h1
      simpa [Table.delete, List.filter_cons, Table.find, h] using ih
    · by_cases h2 : k1 = k
      · subst h2; simp [Table.delete, List.filter_cons, Table.find, h1]
      · simpa [Table.delete, List.filter_cons, Table.find, h1, h2] using ih

theorem durableEntry_setSession_self (now : Int) (k : JStr) (s : JVal) (reg : Registry) :
    durableEntry k (setSession now true k s reg) = some ⟨s, now⟩ := by
  simp [durableEntry, setSession, save, load, Table.find_assign_self]

theorem durableEntry_run_of_ne (maxAge : Int) (c : Call) (k : JStr) (reg : Registry)
    (h : c.op.key ≠ k) : durableEntry k (c.run maxAge reg) = durableEntry k reg := by
  obtain ⟨op, now, w⟩ := c
  cases op with
  | get key =>
    have hk : key ≠ k := h
    simp only [Call.run, getSession, load]
    split
    · rfl
    · split
      · cases w
        · rfl
        · simp [durableEntry, save, Table.find_delete_of_ne k key _ hk]
      · rfl
  | set key sid =>
    have hk : key ≠ k := h
    cases w
    · rfl
    · simp [Call.run, durableEntry, setSession, save, load, Table.find_assign_of_ne k key _ _ hk]
  | remove key =>
    have hk : key ≠ k := h
    cases w
    · rfl
    · simp [Call.run, durableEntry, removeSession, save, load, Table.find_delete_of_ne k key _ hk]

theorem durableEntry_runCalls_of_ne (maxAge : Int) (calls : List Call) (k : JStr)
    (reg : Registry) (h : ∀ c ∈ calls, c.op.key ≠ k) :
    durableEntry k (runCalls maxAge calls reg) = durableEntry k reg := by
  induction calls generalizing reg with
  | nil => rfl
  | cons c rest ih =>
    simp only [runCalls]
    rw [ih _ (fun c' hc' => h c' (List.mem_cons_of_mem _ hc')),
      durableEntry_run_of_ne maxAge c k reg (h c (List.mem_cons_self _ _))]

theorem getSession_of_durable (now maxAge : Int) (w : Bool) (k : JStr) (reg : Registry)
    (entry : Entry) (h : durableEntry k reg = some entry) :
    (now - entry.updatedAt ≤ maxAge →
        (getSession now maxAge w k reg).1 = entry.sessionId
          ∧ (getSession now maxAge w k reg).2.store.find k = some entry
          ∧ durableEntry k (getSession now maxAge w k reg).2 = some entry)
      ∧ (maxAge < now - entry.updatedAt →
        (getSession now maxAge w k reg).1 = null
          ∧ (getSession now maxAge w k reg).2.store.find k = none
          ∧ (w = true → durableEntry k (getSession now maxAge w k reg).2 = none)) := by
  have hfind : (load reg).store.find k = some entry := h
  constructor
  · intro hle
    have hnot : ¬ (now - entry.updatedAt > maxAge) := by omega
    have hg : getSession now maxAge w k reg = (entry.sessionId, load reg) := by
      simp only [getSession, hfind, hnot, if_false]
    rw [hg]
    exact ⟨rfl, hfind, h⟩
  · intro hlt
    have hgt : now - entry.updatedAt > maxAge := hlt
    have hg : getSession now maxAge w k reg
        = (null, save w { load reg with store := (load reg).store.delete k }) := by
      simp only [getSession, hfind, hgt, if_true]
    rw [hg]
    refine ⟨rfl, ?_, ?_⟩
    · cases w <;> simp [save, Table.find_delete_self]
    · intro hw
      subst hw
      simp [save, durableEntry, Table.find_delete_self]

/-- C10. With the registry as an explicit table and clock, for a key `k` that names no
member of `Object.prototype`: after `setSession(k, s)` at time
`T` (its write succeeding) and any calls about other keys, `getSession(k)` at a time `t`
with `t ≤ T + maxAge` (such as `T + maxAge - 1`) returns `s` and leaves the entry in
place, and at a time `t > T + maxAge` (such as `T + maxAge + 1`) returns `null` and deletes
the entry of `k` from the table. -/
theorem session_expiry (maxAge T t : Int) (k : JStr) (s : JVal) (reg : Registry)
    (calls : List Call) (w : Bool) (_hk : isPlainKey k = true)
    (hcalls : ∀ c ∈ calls, c.op.key ≠ k) :
    (t ≤ T + maxAge →
        (getSession t maxAge w k (runCalls maxAge calls (setSession T true k s reg))).1 = s
          ∧ (getSession t maxAge w k
              (runCalls maxAge calls (setSession T true k s reg))).2.store.find k
            = some ⟨s, T⟩
          ∧ durableEntry k (getSession t maxAge w k
              (runCalls maxAge calls (setSession T true k s reg))).2 = some ⟨s, T⟩)
      ∧ (T + maxAge < t →
        (getSession t maxAge w k (runCalls maxAge calls (setSession T true k s reg))).1 = null
          ∧ (getSession t maxAge w k
              (runCalls maxAge calls (setSession T true k s reg))).2.store.find k = none
          ∧ (w = true → durableEntry k (getSession t maxAge w k
              (runCalls maxAge calls (setSession T true k s reg))).2 = none))
      ∧ (getSession (T + maxAge - 1) maxAge w k
          (runCalls maxAge calls (setSession T true k s reg))).1 = s
      ∧ (getSession (T + maxAge + 1) maxAge w k
          (runCalls maxAge calls (setSession T true k s reg))).1 = null := by
  have hd : durableEntry k (runCalls maxAge calls (setSession T true k s reg))
      = some ⟨s, T⟩ := by
    rw [durableEntry_runCalls_of_ne maxAge calls k _ hcalls, durableEntry_setSession_self]
  refine ⟨?_, ?_, ?_, ?_⟩
  · intro h
    exact (getSession_of_durable t maxAge w k _ ⟨s, T⟩ hd).1 (by simp only; omega)
  · intro h
    exact (getSession_of_durable t maxAge w k _ ⟨s, T⟩ hd).2 (by simp only; omega)
  · exact ((getSession_of_durable (T + maxAge - 1) maxAge w k _ ⟨s, T⟩ hd).1
      (by simp only; omega)).1
  · exact ((getSession_of_durable (T + maxAge + 1) maxAge w k _ ⟨s, T⟩ hd).2
      (by simp only; omega)).1

/-- Witness of C10: a day of max-age, another conversation stored in between. -/
theorem session_expiry_witness :
    (getSession (1000 + 86400000 - 1) 86400000 true (js "hdr:a")
        (runCalls 86400000 [⟨.set (js "hdr:b") (str (js "s2")), 2000, true⟩]
          (setSession 1000 true (js "hdr:a") (str (js "s1")) ⟨[], none⟩))).1 = str (js "s1")
      ∧ (getSession (1000 + 86400000 + 1) 86400000 true (js "hdr:a")
        (runCalls 86400000 [⟨.set (js "hdr:b") (str (js "s2")), 2000, true⟩]
          (setSession 1000 true (js "hdr:a") (str (js "s1")) ⟨[], none⟩))).1 = null :=
  ⟨(session_expiry 86400000 1000 0 (js "hdr:a") (str (js "s1")) ⟨[], none⟩
      [⟨.set (js "hdr:b") (str (js "s2")), 2000, true⟩] true (by decide)
      (by intro c hc; rw [List.mem_singleton] at hc; subst hc; decide)).2.2.1,
    (session_expiry 86400000 1000 0 (js "hdr:a") (str (js "s1")) ⟨[], none⟩
      [⟨.set (js "hdr:b") (str (js "s2")), 2000, true⟩] true (by decide)
      (by intro c hc; rw [List.mem_singleton] at hc; subst hc; decide)).2.2.2⟩

/-! ### The registry and its backing store -/

/-- C11 (counterexample). With an empty backing store, `setSession` whose write fails puts
the entry in the in-memory table, yet the next `getSession` of the key returns `null`; and
`removeSession` whose write fails is followed by a `getSession` that still returns the
stored handle. -/
theorem failed_write_loses_update :
    (setSession 1000 false (js "hdr:a") (str (js "s1")) ⟨[], none⟩).store.find (js "hdr:a")
        = some ⟨str (js "s1"), 1000⟩
      ∧ (getSession 1001 86400000 true (js "hdr:a")
          (setSession 1000 false (js "hdr:a") (str (js "s1")) ⟨[], none⟩)).1 = null
      ∧ (removeSession false (js "hdr:a")
          ⟨[], some [(js "hdr:a", ⟨str (js "s1"), 1000⟩)]⟩).store.find (js "hdr:a") = none
      ∧ (getSession 1001 86400000 true (js "hdr:a")
          (removeSession false (js "hdr:a")
            ⟨[], some [(js "hdr:a", ⟨str (js "s1"), 1000⟩)]⟩)).1 = str (js "s1") :=
  ⟨rfl, rfl, rfl, rfl⟩

/-- C11 (amended). A failed write is swallowed and leaves the file as it was, and every
call reloads the table from the file: after `setSession(k, s)` or `removeSession(k)` whose
write fails, a later `getSession` behaves exactly as if that call had not happened. -/
theorem failed_write_is_forgotten (t T maxAge : Int) (w : Bool) (k k' : JStr) (s : JVal)
    (reg : Registry) :
    (setSession T false k s reg).file = reg.file
      ∧ (removeSession false k reg).file = reg.file
      ∧ getSession t maxAge w k' (setSession T false k s reg) = getSession t maxAge w k' reg
      ∧ getSession t maxAge w k' (removeSession false k reg)
        = getSession t maxAge w k' reg :=
  ⟨rfl, rfl, rfl, rfl⟩

/-- C12 (counterexample). With a max-age of 10 and an entry of key `hdr:a` written at time
0, calls about key `hdr:b` at time 100 leave the expired entry of `hdr:a` in the table, in
memory and in the file. -/
theorem expired_entry_survives_calls :
    (getSession 100 10 true (js "hdr:b")
        ⟨[], some [(js "hdr:a", ⟨str (js "s1"), 0⟩)]⟩).2.store.find (js "hdr:a")
        = some ⟨str (js "s1"), 0⟩
      ∧ (setSession 100 true (js "hdr:b") (str (js "s2"))
        ⟨[], some [(js "hdr:a", ⟨str (js "s1"), 0⟩)]⟩).store.find (js "hdr:a")
        = some ⟨str (js "s1"), 0⟩
      ∧ durableEntry (js "hdr:a") (setSession 100 true (js "hdr:b") (str (js "s2"))
        ⟨[], some [(js "hdr:a", ⟨str (js "s1"), 0⟩)]⟩) = some ⟨str (js "s1"), 0⟩
      ∧ (removeSession true (js "hdr:b")
        ⟨[], some [(js "hdr:a", ⟨str (js "s1"), 0⟩)]⟩).store.find (js "hdr:a")
        = some ⟨str (js "s1"), 0⟩
      ∧ (100 : Int) - 0 > 10 :=
  ⟨rfl, rfl, rfl, rfl, by decide⟩

/-- C12 (amended). Expired entries are purged by `prune`, which runs once when the module
is initialised, and by `getSession` for the key it looks up: after the initialisation at
time `t` no entry of the table is older than the max-age, and when the write succeeds the
file holds the same table; after `getSession(k)` the entry of `k`, if any, is not
expired; `getSession`, `setSession` and `removeSession` leave the entry of every other key
as the file had it, expired or not. -/
theorem purge_points (t maxAge : Int) (w : Bool) (k k' : JStr) (s : JVal) (reg : Registry) :
    (∀ p ∈ (initModule t maxAge w reg).store, t - p.2.updatedAt ≤ maxAge)
      ∧ (w = true →
          (initModule t maxAge w reg).file.getD [] = (initModule t maxAge w reg).store)
      ∧ (∀ e, (getSession t maxAge w k reg).2.store.find k = some e →
          t - e.updatedAt ≤ maxAge)
      ∧ (k' ≠ k →
          (getSession t maxAge w k reg).2.store.find k' = durableEntry k' reg
            ∧ (setSession t w k s reg).store.find k' = durableEntry k' reg
            ∧ (removeSession w k reg).store.find k' = durableEntry k' reg) := by
  refine ⟨?_, ?_, ?_, ?_⟩
  · intro p hp
    simp only [initModule, prune] at hp
    split at hp
    · have hp' : p ∈ (load reg).store.filter
          (fun p => !decide (t - p.2.updatedAt > maxAge)) := by
        cases w <;> simpa [save] using hp
      have := (List.mem_filter.mp hp').2
      simp only [Bool.not_eq_true', decide_eq_false_iff_not, not_lt] at this
      omega
    · rename_i hany
      have hall : ∀ (a : JStr) (b : Entry), (a, b) ∈ (load reg).store →
          t ≤ maxAge + b.updatedAt := by simpa using hany
      have := hall p.1 p.2 hp
      omega
  · intro hw
    subst hw
    simp only [initModule, prune]
    split
    · rfl
    · rfl
  · intro e he
    simp only [getSession] at he
    split at he
    · rename_i hnone
      rw [hnone] at he
      exact absurd he (by simp)
    · rename_i entry hfind
      split at he
      · have : (save w { load reg with store := (load reg).store.delete k }).store.find k
            = none := by
          cases w <;> simp [save, Table.find_delete_self]
        rw [this] at he
        exact absurd he (by simp)
      · rename_i hnot
        rw [hfind] at he
        simp only [Option.some.injEq] at he
        subst he
        omega
  · intro hne
    refine ⟨?_, ?_, ?_⟩
    · simp only [getSession]
      split
      · rfl
      · split
        · cases w <;> simp [save, load, durableEntry, Table.find_delete_of_ne k' k _ hne.symm]
        · rfl
    · cases w <;>
        simp [setSession, save, load, durableEntry, Table.find_assign_of_ne k' k _ _ hne.symm]
    · cases w <;>
        simp [removeSession, save, load, durableEntry, Table.find_delete_of_ne k' k _ hne.symm]

/-- Witness of C12 (amended): a read of `hdr:b` at time 100 leaves the entry of `hdr:a`
as the file had it. -/
theorem purge_points_witness :
    (getSession 100 10 true (js "hdr:b")
        ⟨[], some [(js "hdr:a", ⟨str (js "s1"), 0⟩)]⟩).2.store.find (js "hdr:a")
      = durableEntry (js "hdr:a") ⟨[], some [(js "hdr:a", ⟨str (js "s1"), 0⟩)]⟩ :=
  ((purge_points 100 10 true (js "hdr:b") (js "hdr:a") null
    ⟨[], some [(js "hdr:a", ⟨str (js "s1"), 0⟩)]⟩).2.2.2 (by decide)).1

/-! ### Session handle of the two modes -/

/-- C17 (failing input). The runner hands on one assistant event that carries the session
handle `s1`, then the subprocess exits cleanly. `buildCompleteResponse` returns the handle
`s1` and `handleNonStreaming` stores it; the streaming path ends with `state.sessionId`
and `lastSessionId` both `null` and `handleStreaming` stores nothing. -/
theorem assistant_session_handle_diverges (m : JStr) (M : JVal) (key : JStr) (now : Int)
    (reg : Registry) :
    (annotate (assistantEventWithSession (str (js "s1")) [textBlock (js "Hi")])).get
        (js "_sessionId") = str (js "s1")
      ∧ (buildCompleteResponse m
          [annotate (assistantEventWithSession (str (js "s1")) [textBlock (js "Hi")])] M).map
          (fun agg => agg.sessionId) = some (str (js "s1"))
      ∧ (streamLoop [annotate (assistantEventWithSession (str (js "s1")) [textBlock (js "Hi")])]
          (createStreamState m M) null).state.sessionId = null
      ∧ (streamLoop [annotate (assistantEventWithSession (str (js "s1")) [textBlock (js "Hi")])]
          (createStreamState m M) null).lastSessionId = null
      ∧ (handleNonStreaming m M key
          [annotate (assistantEventWithSession (str (js "s1")) [textBlock (js "Hi")])]
          .done now true reg).registry = setSession now true key (str (js "s1")) reg
      ∧ (handleStreaming m M key
          [annotate (assistantEventWithSession (str (js "s1")) [textBlock (js "Hi")])]
          .done now true reg).registry = reg :=
  ⟨rfl, rfl, rfl, rfl, rfl, rfl⟩

/-! ### Streamed text and block indices -/

theorem translateToSSE_assistant (e : JVal) (st : StreamState)
    (h : (e.get (js "type")).eqStr (js "assistant") = true) :
    translateToSSE e st = translateAssistant e st := by
  obtain ⟨fields, rfl⟩ := obj_of_eqStr_get h
  simp [translateToSSE, JVal.truthy, JVal.isObjectType, h]

theorem translateToSSE_cases (e : JVal) (st : StreamState) (h : isStreamEvent e = true) :
    ((e.get (js "type")).eqStr (js "assistant") = true
        ∧ translateToSSE e st = translateAssistant e st)
      ∨ translateToSSE e st = translateResult e st
      ∨ translateToSSE e st = translateInternal e st := by
  simp only [isStreamEvent, isTurnEvent, Bool.or_eq_true] at h
  rcases h with ((h | h) | h) | h
  · exact Or.inl ⟨h, translateToSSE_assistant e st h⟩
  · exact Or.inr (Or.inr (translateToSSE_internal e st (Or.inl h)))
  · exact Or.inr (Or.inr (translateToSSE_internal e st (Or.inr h)))
  · exact Or.inr (Or.inl (translateToSSE_result e st h))

theorem streamedText_append (xs ys : List Frame) :
    streamedText (xs ++ ys) = streamedText xs ++ streamedText ys := by
  induction xs with
  | nil => rfl
  | cons f rest ih => simp [streamedText, ih]

theorem startIndices_append (xs ys : List Frame) :
    startIndices (xs ++ ys) = startIndices xs ++ startIndices ys := by
  induction xs with
  | nil => rfl
  | cons f rest ih => cases f <;> simp [startIndices, ih]

theorem startIndices_blockTriads (first : Nat) (ds : List BlockDelta) :
    startIndices (blockTriads first ds) = List.range' first ds.length := by
  induction ds generalizing first with
  | nil => rfl
  | cons d rest ih => simp [blockTriads, startIndices, ih, List.range'_succ]

/-- What the block loop does on readable content: it completes, yields the triads of the
visible blocks in block order, numbered from `state.blockIndex` on, advances the counter by
their number and appends their visible text to `state.outputText`. -/
theorem emitBlocks_eq (content : List JVal) (st : StreamState)
    (h : content.all blockReadable = true) :
    (emitBlocks content st).threw = false
      ∧ (emitBlocks content st).frames
        = blockTriads st.blockIndex (content.filterMap visibleDelta)
      ∧ (emitBlocks content st).state.blockIndex
        = st.blockIndex + (content.filterMap visibleDelta).length
      ∧ (emitBlocks content st).state.outputText
        = st.outputText ++ streamedText (emitBlocks content st).frames := by
  induction content generalizing st with
  | nil => exact ⟨rfl, rfl, rfl, by simp [emitBlocks, streamedText]⟩
  | cons block rest ih =>
    simp only [List.all_cons, Bool.and_eq_true] at h
    obtain ⟨hb, hrest⟩ := h
    simp only [blockReadable, Bool.and_eq_true, Bool.not_eq_true', Bool.or_eq_true] at hb
    obtain ⟨hnull, htext⟩ := hb
    unfold emitBlocks
    simp only [hnull, Bool.false_eq_true, if_false]
    split
    · rename_i hcond
      have hvis : visibleDelta block = some (.textDelta (block.get (js "text"))) := by
        have : isTextBlock block = true := hcond
        simp [visibleDelta, this]
      rw [hcond] at htext
      simp at htext
      obtain ⟨t, ht⟩ := Option.isSome_iff_exists.mp htext
      simp only [ht]
      obtain ⟨h1, h2, h3, h4⟩ :=
        ih { st with blockIndex := st.blockIndex + 1, outputText := st.outputText ++ t } hrest
      refine ⟨h1, ?_, ?_, ?_⟩
      · simp only [List.filterMap_cons, hvis, blockTriads, h2, BlockDelta.opening]
        rfl
      · simp only [List.filterMap_cons, hvis, h3, List.length_cons]
        omega
      · simp only [h4, List.cons_append, List.nil_append, streamedText, Frame.visibleText, ht,
          Option.getD_some, List.append_assoc, List.append_nil]
        rfl
    · rename_i hcond
      have hnt : isTextBlock block = false := by simpa [isTextBlock] using hcond
      split
      · rename_i hthink
        have hvis : visibleDelta block = some (.thinkingDelta (block.get (js "thinking"))) := by
          simp [visibleDelta, hnt, hthink]
        obtain ⟨h1, h2, h3, h4⟩ := ih { st with blockIndex := st.blockIndex + 1 } hrest
        refine ⟨h1, ?_, ?_, ?_⟩
        · simp only [List.filterMap_cons, hvis, blockTriads, h2, BlockDelta.opening]
          rfl
        · simp only [List.filterMap_cons, hvis, h3, List.length_cons]
          omega
        · simp only [h4, List.cons_append, List.nil_append, streamedText, Frame.visibleText,
            List.nil_append]
          rfl
      · rename_i hthink
        have hvis : visibleDelta block = none := by
          simp [visibleDelta, hnt, hthink]
        obtain ⟨h1, h2, h3, h4⟩ := ih st hrest
        exact ⟨h1, by simp only [List.filterMap_cons, hvis, h2],
          by simp only [List.filterMap_cons, hvis, h3], h4⟩

theorem translateAssistant_eq (e : JVal) (st : StreamState)
    (ha : (e.get (js "type")).eqStr (js "assistant") = true)
    (hr : contentReadable e = true) :
    (∃ content, (e.get (js "message")).get (js "content") = arr content
        ∧ content.all blockReadable = true
        ∧ (translateAssistant e st).threw = false
        ∧ (translateAssistant e st).frames
          = (if st.messageStarted then [] else [messageStartFrame st])
            ++ blockTriads st.blockIndex (content.filterMap visibleDelta)
        ∧ (translateAssistant e st).state.blockIndex
          = st.blockIndex + (content.filterMap visibleDelta).length
        ∧ (translateAssistant e st).state.outputText
          = st.outputText ++ streamedText (translateAssistant e st).frames
        ∧ (translateAssistant e st).state.messageStarted = true)
      ∨ ((∀ content, (e.get (js "message")).get (js "content") ≠ arr content)
        ∧ translateAssistant e st = ⟨[], st, false⟩) := by
  cases hc : (e.get (js "message")).get (js "content") with
  | arr content =>
    left
    have hall : content.all blockReadable = true := by
      simpa [contentReadable, hc, ha] using hr
    refine ⟨content, rfl, hall, ?_⟩
    unfold translateAssistant
    simp only [hc]
    cases hs : st.messageStarted
    · obtain ⟨h1, h2, h3, h4⟩ := emitBlocks_eq content { st with messageStarted := true } hall
      obtain ⟨_, _, h5, _⟩ := emitBlocks_readable content { st with messageStarted := true } hall
      simp only [Bool.not_false, if_true, Bool.false_eq_true, if_false]
      refine ⟨h1, ?_, h3, ?_, h5⟩
      · rw [h2]; rfl
      · rw [h4]
        simp only [streamedText, messageStartFrame, Frame.visibleText, List.nil_append]
    · obtain ⟨h1, h2, h3, h4⟩ := emitBlocks_eq content st hall
      obtain ⟨_, _, h5, _⟩ := emitBlocks_readable content st hall
      simp only [Bool.not_true, Bool.false_eq_true, if_false, if_true, List.nil_append]
      exact ⟨h1, h2, h3, h4, h5.trans hs⟩
  | _ =>
    right
    exact ⟨fun content h => (by cases h), (by simp only [translateAssistant, hc])⟩

/-- The session handle, cost and duration a result event leaves in the state. -/
theorem translateResult_started (r : JVal) (st : StreamState)
    (hs : st.messageStarted = true) :
    translateResult r st
      = ⟨[Frame.messageDelta (js "end_turn") (estimateTokens st.outputText), Frame.messageStop],
          { st with
            sessionId :=
              ((r.get (js "_sessionId")).or (r.get (js "session_id"))).or st.sessionId
            costUsd := r.get (js "cost_usd")
            durationMs := r.get (js "duration_ms") }, false⟩ := by
  simp only [translateResult, hs, Bool.not_true, Bool.false_eq_true, if_false, List.nil_append]

theorem translateResult_opening_text (r : JVal) (st : StreamState) (c : Nat) (s : JStr)
    (hs : st.messageStarted = false) (ho : st.outputText = [])
    (hres : r.get (js "result") = str (c :: s)) :
    translateResult r st
      = ⟨[messageStartFrame st,
            Frame.contentBlockStart st.blockIndex (.text []),
            Frame.contentBlockDelta st.blockIndex (.textDelta (str (c :: s))),
            Frame.contentBlockStop st.blockIndex,
            Frame.messageDelta (js "end_turn") (estimateTokens (c :: s)),
            Frame.messageStop],
          { st with
            messageStarted := true
            blockIndex := st.blockIndex + 1
            outputText := c :: s
            sessionId :=
              ((r.get (js "_sessionId")).or (r.get (js "session_id"))).or st.sessionId
            costUsd := r.get (js "cost_usd")
            durationMs := r.get (js "duration_ms") }, false⟩ := by
  simp only [translateResult, hs, ho, hres, Bool.not_false, if_true, List.isEmpty_cons,
    List.isEmpty_nil, Bool.and_self, List.cons_append, List.nil_append]

theorem translateResult_opening_empty (r : JVal) (st : StreamState)
    (hs : st.messageStarted = false)
    (hres : ∀ c s, r.get (js "result") ≠ str (c :: s)) :
    translateResult r st
      = ⟨[messageStartFrame st,
            Frame.messageDelta (js "end_turn") (estimateTokens st.outputText),
            Frame.messageStop],
          { st with
            messageStarted := true
            sessionId :=
              ((r.get (js "_sessionId")).or (r.get (js "session_id"))).or st.sessionId
            costUsd := r.get (js "cost_usd")
            durationMs := r.get (js "duration_ms") }, false⟩ := by
  cases hv : r.get (js "result") with
  | str s =>
    cases s with
    | nil =>
      simp only [translateResult, hs, hv, Bool.not_false, if_true, List.isEmpty_nil,
        Bool.not_true, Bool.false_and, Bool.false_eq_true, if_false, List.cons_append,
        List.nil_append]
    | cons c s => exact absurd hv (hres c s)
  | _ =>
    simp only [translateResult, hs, hv, Bool.not_false, if_true, List.isEmpty_nil,
      Bool.not_true, Bool.false_and, Bool.false_eq_true, if_false, List.cons_append,
      List.nil_append]

/-- One event of the four named types, with readable content, from a state whose output
text is empty as long as the message has not started. -/
theorem translateToSSE_stream_step (e : JVal) (st : StreamState)
    (hk : isStreamEvent e = true) (hr : contentReadable e = true)
    (hst : st.messageStarted = false → st.outputText = []) :
    (translateToSSE e st).threw = false
      ∧ (translateToSSE e st).state.outputText
        = st.outputText ++ streamedText (translateToSSE e st).frames
      ∧ ((translateToSSE e st).state.messageStarted = false →
          (translateToSSE e st).state.outputText = [])
      ∧ startIndices (translateToSSE e st).frames
        = List.range' st.blockIndex ((translateToSSE e st).state.blockIndex - st.blockIndex)
      ∧ st.blockIndex ≤ (translateToSSE e st).state.blockIndex := by
  rcases translateToSSE_cases e st hk with ⟨ha, h⟩ | h | h
  · rw [h]
    rcases translateAssistant_eq e st ha hr with
      ⟨content, _, _, h1, h2, h3, h4, h5⟩ | ⟨_, h1⟩
    · refine ⟨h1, h4, fun hf => ?_, ?_, by omega⟩
      · rw [h5] at hf; exact absurd hf (by decide)
      · rw [h2, h3, startIndices_append, startIndices_blockTriads]
        have : startIndices (if st.messageStarted = true then [] else [messageStartFrame st])
            = [] := by split <;> rfl
        rw [this]
        simp
    · rw [h1]
      exact ⟨rfl, by simp [streamedText], hst, by simp [startIndices], le_refl _⟩
  · rw [h]
    cases hs : st.messageStarted
    · have hout := hst hs
      by_cases hres : ∃ c s, e.get (js "result") = str (c :: s)
      · obtain ⟨c, s, hres⟩ := hres
        rw [translateResult_opening_text e st c s hs hout hres]
        refine ⟨rfl, ?_, fun hf => (by cases hf), ?_, by simp⟩
        · simp [streamedText, messageStartFrame, Frame.visibleText, JVal.toStr, hout]
        · simp [startIndices, messageStartFrame]
      · rw [translateResult_opening_empty e st hs (fun c s hc => hres ⟨c, s, hc⟩)]
        refine ⟨rfl, ?_, fun hf => (by cases hf), ?_, le_refl _⟩
        · simp [streamedText, messageStartFrame, Frame.visibleText]
        · simp [startIndices, messageStartFrame]
    · rw [translateResult_started e st hs]
      refine ⟨rfl, ?_, fun hf => ?_, ?_, le_refl _⟩
      · simp [streamedText, Frame.visibleText]
      · simp only at hf; rw [hs] at hf; exact absurd hf (by decide)
      · simp [startIndices]
  · rw [h]
    unfold translateInternal
    split
    · exact ⟨rfl, by simp [streamedText], hst, by simp [startIndices], le_refl _⟩
    · exact ⟨rfl, by simp [streamedText], hst, by simp [startIndices], le_refl _⟩

theorem range_glue (a b c : Nat) (h1 : a ≤ b) (h2 : b ≤ c) :
    List.range' a (b - a) ++ List.range' b (c - b) = List.range' a (c - a) := by
  obtain ⟨m, rfl⟩ := Nat.exists_eq_add_of_le h1
  obtain ⟨n, rfl⟩ := Nat.exists_eq_add_of_le h2
  have := List.range'_append a m n 1
  simp only [one_mul] at this
  rw [show a + m - a = m by omega, show a + m + n - (a + m) = n by omega,
    show a + m + n - a = n + m by omega]
  exact this

theorem streamLoop_stream_events (es : List JVal) (st : StreamState) (last : JVal)
    (hes : ∀ e ∈ es, isStreamEvent e = true ∧ contentReadable e = true)
    (hst : st.messageStarted = false → st.outputText = []) :
    (streamLoop es st last).threw = false
      ∧ (streamLoop es st last).state.outputText
        = st.outputText ++ streamedText (streamLoop es st last).written
      ∧ ((streamLoop es st last).state.messageStarted = false →
          (streamLoop es st last).state.outputText = [])
      ∧ startIndices (streamLoop es st last).written
        = List.range' st.blockIndex ((streamLoop es st last).state.blockIndex - st.blockIndex)
      ∧ st.blockIndex ≤ (streamLoop es st last).state.blockIndex := by
  induction es generalizing st last with
  | nil => exact ⟨rfl, by simp [streamLoop, streamedText], hst, by simp [streamLoop, startIndices],
      le_refl _⟩
  | cons e rest ih =>
    obtain ⟨hk, hr⟩ := hes e (List.mem_cons_self _ _)
    obtain ⟨t1, t2, t3, t4, t5⟩ := translateToSSE_stream_step e st hk hr hst
    obtain ⟨l1, l2, l3, l4, l5⟩ := ih (translateToSSE e st).state
      (if (translateToSSE e st).state.sessionId.truthy
        then (translateToSSE e st).state.sessionId else last)
      (fun e' he' => hes e' (List.mem_cons_of_mem _ he')) t3
    simp only [streamLoop, t1, Bool.false_eq_true, if_false]
    refine ⟨l1, ?_, l3, ?_, le_trans t5 l5⟩
    · rw [l2, t2, streamedText_append, List.append_assoc]
    · rw [startIndices_append, t4, l4]
      exact range_glue _ _ _ t5 l5

theorem contentReadable_of_result {r : JVal} (h : isResultEvent r = true) :
    contentReadable r = true := by
  have hna : (r.get (js "type")).eqStr (js "assistant") = false := by
    cases ha : (r.get (js "type")).eqStr (js "assistant")
    · rfl
    · rw [not_result_of_assistant ha] at h; exact absurd h (by decide)
  simp [contentReadable, hna]

theorem streamLoop_snoc_result (es : List JVal) (r : JVal) (st : StreamState) (last : JVal)
    (hthrew : (streamLoop es st last).threw = false) (hr : isResultEvent r = true) :
    (streamLoop (es ++ [r]) st last).written
        = (streamLoop es st last).written
          ++ (translateResult r (streamLoop es st last).state).frames
      ∧ (streamLoop (es ++ [r]) st last).state
        = (translateResult r (streamLoop es st last).state).state := by
  rw [streamLoop_append es [r] st last hthrew]
  simp only [streamLoop, translateToSSE_result r _ hr]
  have : (translateResult r (streamLoop es st last).state).threw = false := rfl
  simp only [this, Bool.false_eq_true, if_false, List.append_nil, and_self]

/-- C19. For every sequence of assistant, system, user and result events (with readable
content) translated from a fresh state, the translation completes and `state.outputText`
is the concatenation, in emission order, of the texts of the `text_delta` frames emitted
so far, thinking text excluded; so the `message_delta` a closing result event emits
carries `ceil(L/4)` output tokens, `L` being the length of the text streamed in
`text_delta` frames. -/
theorem output_text_is_streamed_text (m : JStr) (M : JVal) (es : List JVal)
    (hes : ∀ e ∈ es, isStreamEvent e = true ∧ contentReadable e = true) :
    (streamLoop es (createStreamState m M) null).threw = false
      ∧ (streamLoop es (createStreamState m M) null).state.outputText
        = streamedText (streamLoop es (createStreamState m M) null).written
      ∧ ∀ r, isResultEvent r = true →
        ∃ body, (streamLoop (es ++ [r]) (createStreamState m M) null).written
          = body ++ [Frame.messageDelta (js "end_turn")
              ⌈((streamedText
                  (streamLoop (es ++ [r]) (createStreamState m M) null).written).length : ℚ)
                / 4⌉₊,
            Frame.messageStop] := by
  obtain ⟨h1, h2, _, _, _⟩ :=
    streamLoop_stream_events es (createStreamState m M) null hes (fun _ => rfl)
  refine ⟨h1, by simpa using h2, ?_⟩
  intro r hr
  have hes' : ∀ e ∈ es ++ [r], isStreamEvent e = true ∧ contentReadable e = true := by
    intro e he
    rcases List.mem_append.mp he with he | he
    · exact hes e he
    · rw [List.mem_singleton] at he
      subst he
      exact ⟨by simp [isStreamEvent, hr], contentReadable_of_result hr⟩
  obtain ⟨_, g2, _, _, _⟩ :=
    streamLoop_stream_events (es ++ [r]) (createStreamState m M) null hes' (fun _ => rfl)
  have g2' : (streamLoop (es ++ [r]) (createStreamState m M) null).state.outputText
      = streamedText (streamLoop (es ++ [r]) (createStreamState m M) null).written := by
    simpa using g2
  obtain ⟨w1, w2⟩ := streamLoop_snoc_result es r (createStreamState m M) null h1 hr
  rw [← estimateTokens_eq_ceil, ← g2', w2, w1]
  have htail : ∃ opened, (translateResult r
        (streamLoop es (createStreamState m M) null).state).frames
      = opened ++ [Frame.messageDelta (js "end_turn")
          (estimateTokens (translateResult r
            (streamLoop es (createStreamState m M) null).state).state.outputText),
        Frame.messageStop] := ⟨_, rfl⟩
  obtain ⟨opened, ho⟩ := htail
  exact ⟨(streamLoop es (createStreamState m M) null).written ++ opened, by
    rw [ho, List.append_assoc]⟩

/-- Witness of C19: a thinking block and the text block `Hello`, then a result event. -/
theorem output_text_is_streamed_text_witness :
    (streamLoop [assistantEvent [obj [(js "type", str (js "thinking")),
          (js "thinking", str (js "hm"))], textBlock (js "Hello")]]
        (createStreamState (js "m") (str (js "M"))) null).state.outputText
      = streamedText (streamLoop [assistantEvent [obj [(js "type", str (js "thinking")),
          (js "thinking", str (js "hm"))], textBlock (js "Hello")]]
        (createStreamState (js "m") (str (js "M"))) null).written :=
  (output_text_is_streamed_text (js "m") (str (js "M"))
    [assistantEvent [obj [(js "type", str (js "thinking")), (js "thinking", str (js "hm"))],
      textBlock (js "Hello")]]
    (by intro e he; rw [List.mem_singleton] at he; subst he; exact ⟨by decide, by decide⟩)).2.1

/-- C20. For every sequence of assistant, system, user and result events (with readable
content) translated from a fresh state: the indices of the `content_block_start` frames
are 0, 1, 2, ... in emission order and `state.blockIndex` is their number; the frames of
the events follow one another in event order; and an assistant event yields, after the
`message_start` it may open with, the triads of its text and thinking blocks in block
order, numbered from `state.blockIndex` on, a block of any other type giving no frame and
taking no index. -/
theorem block_indices_consecutive (m : JStr) (M : JVal) (es : List JVal)
    (hes : ∀ e ∈ es, isStreamEvent e = true ∧ contentReadable e = true) :
    (streamLoop es (createStreamState m M) null).threw = false
      ∧ startIndices (streamLoop es (createStreamState m M) null).written
        = List.range (streamLoop es (createStreamState m M) null).state.blockIndex
      ∧ (startIndices (streamLoop es (createStreamState m M) null).written).length
        = (streamLoop es (createStreamState m M) null).state.blockIndex
      ∧ (∀ es1 es2, es = es1 ++ es2 →
          (streamLoop es (createStreamState m M) null).written
            = (streamLoop es1 (createStreamState m M) null).written
              ++ (streamLoop es2 (streamLoop es1 (createStreamState m M) null).state
                  (streamLoop es1 (createStreamState m M) null).lastSessionId).written)
      ∧ ∀ e st content, (e.get (js "type")).eqStr (js "assistant") = true →
          contentReadable e = true →
          (e.get (js "message")).get (js "content") = arr content →
          (translateToSSE e st).frames
              = (if st.messageStarted then [] else [messageStartFrame st])
                ++ blockTriads st.blockIndex (content.filterMap visibleDelta)
            ∧ (translateToSSE e st).state.blockIndex
              = st.blockIndex + (content.filterMap visibleDelta).length := by
  obtain ⟨h1, _, _, h4, _⟩ :=
    streamLoop_stream_events es (createStreamState m M) null hes (fun _ => rfl)
  have hrange : startIndices (streamLoop es (createStreamState m M) null).written
      = List.range (streamLoop es (createStreamState m M) null).state.blockIndex := by
    rw [h4, List.range_eq_range']
    rfl
  refine ⟨h1, hrange, by rw [hrange, List.length_range], ?_, ?_⟩
  · intro es1 es2 hsplit
    subst hsplit
    have h1' : (streamLoop es1 (createStreamState m M) null).threw = false :=
      (streamLoop_stream_events es1 (createStreamState m M) null
        (fun e he => hes e (List.mem_append_left _ he)) (fun _ => rfl)).1
    rw [streamLoop_append es1 es2 _ _ h1']
  · intro e st content ha hr hc
    rw [translateToSSE_assistant e st ha]
    rcases translateAssistant_eq e st ha hr with
      ⟨content', hc', _, _, h2, h3, _, _⟩ | ⟨hno, _⟩
    · rw [hc] at hc'
      cases hc'
      exact ⟨h2, h3⟩
    · exact absurd hc (hno content)

/-- Witness of C20: a tool-use block between two text blocks takes no index. -/
theorem block_indices_consecutive_witness :
    startIndices (streamLoop [assistantEvent [textBlock (js "a"),
          obj [(js "type", str (js "tool_use"))], textBlock (js "b")]]
        (createStreamState (js "m") (str (js "M"))) null).written
      = [0, 1] :=
  ((block_indices_consecutive (js "m") (str (js "M"))
    [assistantEvent [textBlock (js "a"), obj [(js "type", str (js "tool_use"))],
      textBlock (js "b")]]
    (by intro e he; rw [List.mem_singleton] at he; subst he;
        exact ⟨by decide, by decide⟩)).2.1).trans (by decide)

/-! ### The conversation key -/

theorem header_cases (req : Request) (name : JStr) :
    req.header name = undefined ∨ req.header name = str []
      ∨ ∃ c v, req.header name = str (c :: v) := by
  unfold Request.header
  cases req.headers.find? (fun p => p.1 == name) with
  | none => exact Or.inl rfl
  | some p =>
    cases hv : p.2 with
    | nil => exact Or.inr (Or.inl (by simp [hv]))
    | cons c v => exact Or.inr (Or.inr ⟨c, v, by simp [hv]⟩)

theorem conversationHeader_spec (req : Request) :
    (∀ value, firstConversationHeader req = some value →
        conversationHeader req = str value ∧ (str value).truthy = true)
      ∧ (firstConversationHeader req = none → (conversationHeader req).truthy = false) := by
  rcases header_cases req (js "x-conversation-id") with h1 | h1 | ⟨c1, v1, h1⟩ <;>
  rcases header_cases req (js "x-openclaw-conversation-id") with h2 | h2 | ⟨c2, v2, h2⟩ <;>
  rcases header_cases req (js "x-session-id") with h3 | h3 | ⟨c3, v3, h3⟩ <;>
  simp [firstConversationHeader, conversationHeader, JVal.or, JVal.truthy, h1, h2, h3]

theorem hdr_ne_hash (value digest : JStr) : js "hdr:" ++ value ≠ js "hash:" ++ digest := by
  intro h
  have h' : (104 :: 100 :: 114 :: 58 :: value : List Nat)
      = 104 :: 97 :: 115 :: 104 :: 58 :: digest := h
  simp at h'

theorem getConversationKey_hash (sha256Hex : JStr → JStr) (stringify : JVal → JStr)
    (req : Request) (first : JVal) (rest : List JVal)
    (hh : firstConversationHeader req = none)
    (hm : req.body.get (js "messages") = arr (first :: rest))
    (hf : first.truthy = true) :
    getConversationKey sha256Hex stringify req
      = (match first.get (js "content") with
          | undefined => none
          | content => some ((stringify content).take 500)).map
        (fun firstUser =>
          js "hash:" ++ (sha256Hex ((match req.body.get (js "system") with
            | str s => s
            | _ => []) ++ firstUser)).take 16) := by
  have hnone := (conversationHeader_spec req).2 hh
  have hbody : req.body.isNullish = false := by
    cases hb : req.body <;> simp [hb, JVal.get] at hm
    rfl
  simp only [getConversationKey, hnone, hbody, hm, index0, hf, Bool.false_eq_true, if_false,
    if_true]

/-- C13. Without any of the three recognised headers, the conversation key depends only
on `body.system` and on the content of the first message: two requests that agree on
these, whatever else their bodies hold, get the same result from `getConversationKey`,
and when the first message has a content that result is `hash:` followed by 16
hexadecimal characters (for a digest function giving 64 hexadecimal characters). -/
theorem conversation_key_fingerprint (sha256Hex : JStr → JStr) (stringify : JVal → JStr)
    (req1 req2 : Request) (first1 first2 : JVal) (rest1 rest2 : List JVal)
    (hdigest : ∀ s, (sha256Hex s).length = 64 ∧ ∀ c ∈ sha256Hex s, isHexDigit c = true)
    (hh1 : firstConversationHeader req1 = none) (hh2 : firstConversationHeader req2 = none)
    (hm1 : req1.body.get (js "messages") = arr (first1 :: rest1))
    (hm2 : req2.body.get (js "messages") = arr (first2 :: rest2))
    (hf1 : first1.truthy = true) (hf2 : first2.truthy = true)
    (hsys : req1.body.get (js "system") = req2.body.get (js "system"))
    (hcontent : first1.get (js "content") = first2.get (js "content")) :
    getConversationKey sha256Hex stringify req1 = getConversationKey sha256Hex stringify req2
      ∧ (first1.get (js "content") ≠ undefined →
          ∃ digest, getConversationKey sha256Hex stringify req1 = some (js "hash:" ++ digest)
            ∧ digest.length = 16 ∧ ∀ c ∈ digest, isHexDigit c = true) := by
  rw [getConversationKey_hash sha256Hex stringify req1 first1 rest1 hh1 hm1 hf1,
    getConversationKey_hash sha256Hex stringify req2 first2 rest2 hh2 hm2 hf2, hsys, hcontent]
  refine ⟨rfl, fun hdef => ?_⟩
  have hsome : (match first2.get (js "content") with
      | undefined => none
      | content => some ((stringify content).take 500))
      = some ((stringify (first2.get (js "content"))).take 500) := by
    cases hc : first2.get (js "content") <;> first | rfl | exact absurd hc hdef
  rw [hsome]
  refine ⟨_, rfl, ?_, ?_⟩
  · rw [List.length_take, (hdigest _).1]; rfl
  · intro c hc
    exact (hdigest _).2 c (List.mem_of_mem_take hc)

/-- Witness of C13: two bodies that differ in their later messages and in `model`. -/
theorem conversation_key_fingerprint_witness :
    getConversationKey (fun _ => List.replicate 64 48) (fun _ => js "x")
        ⟨[], obj [(js "messages", arr [obj [(js "content", str (js "hi"))], null]),
          (js "model", str (js "a"))]⟩
      = getConversationKey (fun _ => List.replicate 64 48) (fun _ => js "x")
        ⟨[], obj [(js "messages", arr [obj [(js "content", str (js "hi"))]])]⟩ :=
  (conversation_key_fingerprint (fun _ => List.replicate 64 48) (fun _ => js "x")
    ⟨[], obj [(js "messages", arr [obj [(js "content", str (js "hi"))], null]),
      (js "model", str (js "a"))]⟩
    ⟨[], obj [(js "messages", arr [obj [(js "content", str (js "hi"))]])]⟩
    (obj [(js "content", str (js "hi"))]) (obj [(js "content", str (js "hi"))]) [null] []
    (fun _ => ⟨rfl, fun c hc => by rw [List.eq_of_mem_replicate hc]; rfl⟩)
    rfl rfl rfl rfl rfl rfl rfl rfl).1

theorem map_hash_cases (o : Option JStr) (f : JStr → JStr) :
    o.map (fun firstUser => js "hash:" ++ f firstUser) = none
      ∨ ∃ digest, o.map (fun firstUser => js "hash:" ++ f firstUser)
        = some (js "hash:" ++ digest) := by
  cases o with
  | none => exact Or.inl rfl
  | some x => exact Or.inr ⟨f x, rfl⟩

/-- C14. When one of the headers `x-conversation-id`, `x-openclaw-conversation-id`,
`x-session-id` is present and non-empty, the key is `hdr:` followed by the value of the
first such header in that order, whatever the body is; when none is, the key is a `hash:`
fingerprint, if the function returns one; and a key starting with `hdr:` never equals one
starting with `hash:`. -/
theorem conversation_key_header_priority (sha256Hex : JStr → JStr)
    (stringify : JVal → JStr) (req : Request) :
    (∀ value, firstConversationHeader req = some value →
        value ≠ [] ∧ ∀ body,
          getConversationKey sha256Hex stringify { req with body := body }
            = some (js "hdr:" ++ value))
      ∧ (firstConversationHeader req = none →
          getConversationKey sha256Hex stringify req = none
            ∨ ∃ digest, getConversationKey sha256Hex stringify req
              = some (js "hash:" ++ digest))
      ∧ ∀ value digest : JStr, js "hdr:" ++ value ≠ js "hash:" ++ digest := by
  refine ⟨?_, ?_, hdr_ne_hash⟩
  · intro value hv
    have hspec := (conversationHeader_spec req).1 value hv
    refine ⟨?_, ?_⟩
    · intro hnil
      rw [hnil] at hspec
      exact absurd hspec.2 (by decide)
    · intro body
      have hhead : conversationHeader { req with body := body } = str value := hspec.1
      simp only [getConversationKey, hhead, hspec.2, if_true, JVal.toStr, Option.map_some']
  · intro hnone
    have hfalse := (conversationHeader_spec req).2 hnone
    simp only [getConversationKey, hfalse, Bool.false_eq_true, if_false]
    split
    · exact Or.inl rfl
    · exact map_hash_cases _ _

/-- Witness of C14: `x-conversation-id` is empty, so `x-openclaw-conversation-id` wins
over `x-session-id`. -/
theorem conversation_key_header_priority_witness :
    getConversationKey (fun _ => List.replicate 64 48) (fun _ => js "x")
        ⟨[(js "x-session-id", js "c"), (js "x-conversation-id", []),
          (js "x-openclaw-conversation-id", js "b")], null⟩
      = some (js "hdr:b") :=
  ((conversation_key_header_priority (fun _ => List.replicate 64 48) (fun _ => js "x")
    ⟨[(js "x-session-id", js "c"), (js "x-conversation-id", []),
      (js "x-openclaw-conversation-id", js "b")], obj []⟩).1 (js "b") rfl).2 null

/-! ### Request-shape validation -/

theorem messagesMissing_eq_false_iff (body : JVal) :
    messagesMissing body = false ↔ hasMessages body := by
  unfold hasMessages
  constructor
  · intro h
    cases hm : body.get (js "messages") with
    | arr items =>
      cases items with
      | nil => simp [messagesMissing, hm, isArray] at h
      | cons first rest => exact ⟨first, rest, rfl⟩
    | _ => simp [messagesMissing, hm, isArray, JVal.truthy] at h
  · rintro ⟨first, rest, hm⟩
    cases body with
    | obj fields => simp [messagesMissing, hm, isArray, JVal.truthy]
    | _ => simp [JVal.get] at hm

theorem conversationTask_enqueued (env : HandlerEnv) (key : JStr) (messages : List JVal)
    (reg : Registry) : (conversationTask env key messages reg).enqueued = true := by
  unfold conversationTask
  simp only
  split
  · rfl
  · split
    · rfl
    · split
      · split <;> rfl
      · split
        · split
          · rfl
          · split
            · split <;> rfl
            · rfl
        · rfl

/-- The part of C18 that holds: the handler answers with the 400 payload `messages array
is required`, without enqueueing, without a registry call and without a subprocess
attempt, exactly when the body has no non-empty array `messages`. -/
theorem bad_request_iff_no_messages (sha256Hex : JStr → JStr) (stringify : JVal → JStr)
    (env : HandlerEnv) (req : Request) (reg : Registry) :
    ((handleMessages sha256Hex stringify env req reg).reply
          = .badRequest (js "messages array is required")
        ∧ (handleMessages sha256Hex stringify env req reg).enqueued = false
        ∧ (handleMessages sha256Hex stringify env req reg).spawns = []
        ∧ (handleMessages sha256Hex stringify env req reg).registryCalls = []
        ∧ (handleMessages sha256Hex stringify env req reg).registry = reg)
      ↔ ¬ hasMessages req.body := by
  constructor
  · rintro ⟨hreply, henq, _⟩ ⟨first, rest, hm⟩
    have hmiss : messagesMissing req.body = false :=
      (messagesMissing_eq_false_iff req.body).mpr ⟨first, rest, hm⟩
    cases hk : getConversationKey sha256Hex stringify req with
    | none =>
      have hrun : handleMessages sha256Hex stringify env req reg
          = ⟨false, [], [], .rejected, reg⟩ := by
        simp only [handleMessages, hmiss, hk, Bool.false_eq_true, if_false]
      rw [hrun] at hreply
      cases hreply
    | some key =>
      have hrun : handleMessages sha256Hex stringify env req reg
          = conversationTask env key (first :: rest) reg := by
        simp only [handleMessages, hmiss, hk, hm, Bool.false_eq_true, if_false]
      rw [hrun, conversationTask_enqueued] at henq
      exact absurd henq (by decide)
  · intro hno
    have hmiss : messagesMissing req.body = true := by
      cases h : messagesMissing req.body
      · exact absurd ((messagesMissing_eq_false_iff req.body).mp h) hno
      · rfl
    have hrun : handleMessages sha256Hex stringify env req reg
        = ⟨false, [], [], .badRequest (js "messages array is required"), reg⟩ := by
      simp only [handleMessages, hmiss, if_true]
    rw [hrun]
    exact ⟨rfl, rfl, rfl, rfl, rfl⟩

/-- C18 (failing input). A body whose `messages` is a non-empty array, with a first
message that has no `content`, and no conversation header: the guard lets the request
pass, `getConversationKey` throws, and the handler is left with an exception, before
`enqueue` is called. -/
theorem request_without_content_never_enqueued (sha256Hex : JStr → JStr)
    (stringify : JVal → JStr) (env : HandlerEnv) (reg : Registry) :
    messagesMissing (obj [(js "messages", arr [obj [(js "role", str (js "user"))]])]) = false
      ∧ getConversationKey sha256Hex stringify
          ⟨[], obj [(js "messages", arr [obj [(js "role", str (js "user"))]])]⟩ = none
      ∧ (handleMessages sha256Hex stringify env
          ⟨[], obj [(js "messages", arr [obj [(js "role", str (js "user"))]])]⟩ reg).enqueued
        = false
      ∧ (handleMessages sha256Hex stringify env
          ⟨[], obj [(js "messages", arr [obj [(js "role", str (js "user"))]])]⟩ reg).reply
        = .rejected :=
  ⟨rfl, rfl, rfl, rfl⟩

/-! ### Resume-failure fallback -/

theorem conversationTask_spawns_le (env : HandlerEnv) (key : JStr) (messages : List JVal)
    (reg : Registry) : (conversationTask env key messages reg).spawns.length ≤ 2 := by
  unfold conversationTask
  simp only
  split
  · simp
  · split
    · simp
    · split
      · split <;> simp
      · split
        · split
          · simp
          · split
            · split <;> simp
            · simp
        · simp

/-- C16. In the task the handler enqueues, with each attempt either returning or throwing
an error with a message: when a stored session handle is in use and the first attempt
throws a message containing `exited with code`, the handler calls `removeSession(key)` and
makes exactly one more attempt, without resume handle and with `buildPrompt(messages)`;
if that attempt returns, its response is the reply, and if it throws, no third attempt is
made and the first error's message is reported. When no stored session is in use, a
failure is reported after the one attempt. No request makes more than two attempts. -/
theorem resume_failure_fallback (env : HandlerEnv) (key : JStr) (messages : List JVal)
    (reg : Registry) :
    (conversationTask env key messages reg).spawns.length ≤ 2
      ∧ (∀ resumePrompt fullPrompt message sent1,
          (getSession env.nowLookup env.maxAge env.writeLookup key reg).1.truthy = true →
          getLatestUserText messages = some resumePrompt → resumePrompt ≠ [] →
          buildPrompt messages false = some fullPrompt →
          env.first = .threw message sent1 →
          includes message (js "exited with code") = true →
          (conversationTask env key messages reg).spawns
              = [⟨resumePrompt,
                    (getSession env.nowLookup env.maxAge env.writeLookup key reg).1⟩,
                  ⟨fullPrompt, null⟩]
            ∧ (conversationTask env key messages reg).registryCalls.take 2
              = [.get key, .remove key]
            ∧ (∀ saved, env.second = .returned saved →
                (conversationTask env key messages reg).reply = .sent)
            ∧ (∀ message2 sent2, env.second = .threw message2 sent2 →
                (conversationTask env key messages reg).reply
                    = errorReply (sent1 || sent2) message
                  ∧ (conversationTask env key messages reg).registry
                    = removeSession env.writeRemove key
                      (getSession env.nowLookup env.maxAge env.writeLookup key reg).2
                  ∧ (conversationTask env key messages reg).registry.store.find key = none))
      ∧ (∀ prompt message sent1,
          (getSession env.nowLookup env.maxAge env.writeLookup key reg).1.truthy = false →
          buildPrompt messages false = some prompt → prompt ≠ [] →
          env.first = .threw message sent1 →
          (conversationTask env key messages reg).spawns
              = [⟨prompt, (getSession env.nowLookup env.maxAge env.writeLookup key reg).1⟩]
            ∧ (conversationTask env key messages reg).registryCalls = [.get key]
            ∧ (conversationTask env key messages reg).reply = errorReply sent1 message) := by
  refine ⟨conversationTask_spawns_le env key messages reg, ?_, ?_⟩
  · intro resumePrompt fullPrompt message sent1 hres hprompt hne hfull hfirst hinc
    obtain ⟨c, p, rfl⟩ := List.exists_cons_of_ne_nil hne
    cases hsecond : env.second with
    | returned saved =>
      cases hsaved : saved.truthy
      · have hrun : conversationTask env key messages reg
            = ⟨true, [⟨c :: p, (getSession env.nowLookup env.maxAge env.writeLookup key reg).1⟩,
                  ⟨fullPrompt, null⟩], [.get key, .remove key], .sent,
                removeSession env.writeRemove key
                  (getSession env.nowLookup env.maxAge env.writeLookup key reg).2⟩ := by
          simp only [conversationTask, hres, hprompt, hfull, hfirst, hinc, hsecond, hsaved,
            if_true, List.isEmpty_cons, Bool.false_eq_true, if_false, Bool.and_self]
        rw [hrun]
        exact ⟨rfl, rfl, fun _ _ => rfl, fun _ _ h => (by cases h)⟩
      · have hrun : conversationTask env key messages reg
            = ⟨true, [⟨c :: p, (getSession env.nowLookup env.maxAge env.writeLookup key reg).1⟩,
                  ⟨fullPrompt, null⟩], [.get key, .remove key, .set key saved], .sent,
                setSession env.nowSave env.writeSave key saved
                  (removeSession env.writeRemove key
                    (getSession env.nowLookup env.maxAge env.writeLookup key reg).2)⟩ := by
          simp only [conversationTask, hres, hprompt, hfull, hfirst, hinc, hsecond, hsaved,
            if_true, List.isEmpty_cons, Bool.false_eq_true, if_false, Bool.and_self]
        rw [hrun]
        exact ⟨rfl, rfl, fun _ _ => rfl, fun _ _ h => (by cases h)⟩
    | threw message2 sent2 =>
      have hrun : conversationTask env key messages reg
          = ⟨true, [⟨c :: p, (getSession env.nowLookup env.maxAge env.writeLookup key reg).1⟩,
                ⟨fullPrompt, null⟩], [.get key, .remove key],
              errorReply (sent1 || sent2) message,
              removeSession env.writeRemove key
                (getSession env.nowLookup env.maxAge env.writeLookup key reg).2⟩ := by
        simp only [conversationTask, hres, hprompt, hfull, hfirst, hinc, hsecond,
          if_true, List.isEmpty_cons, Bool.false_eq_true, if_false, Bool.and_self]
      rw [hrun]
      refine ⟨rfl, rfl, fun _ h => (by cases h), fun m2 s2 h => ?_⟩
      cases h
      refine ⟨rfl, rfl, ?_⟩
      cases env.writeRemove <;> simp [removeSession, save, Table.find_delete_self]
  · intro prompt message sent1 hres hprompt hne hfirst
    obtain ⟨c, p, rfl⟩ := List.exists_cons_of_ne_nil hne
    have hrun : conversationTask env key messages reg
        = ⟨true, [⟨c :: p, (getSession env.nowLookup env.maxAge env.writeLookup key reg).1⟩],
            [.get key], errorReply sent1 message,
            (getSession env.nowLookup env.maxAge env.writeLookup key reg).2⟩ := by
      simp only [conversationTask, hres, hprompt, hfirst, Bool.false_eq_true, if_false,
        List.isEmpty_cons, Bool.false_and]
    rw [hrun]
    exact ⟨rfl, rfl, rfl⟩

/-- Witness of C16 (scenario B): the stored handle `s1` is in use, the resume attempt
exits with code 1, and the retry returns with the handle `s2`. -/
theorem resume_failure_fallback_witness :
    (conversationTask
        ⟨86400000, 10, true, true, 20, true,
          .threw (js "Claude exited with code 1: ") false, .returned (str (js "s2"))⟩
        (js "hdr:c1")
        [obj [(js "role", str (js "user")), (js "content", str (js "hi"))]]
        ⟨[], some [(js "hdr:c1", ⟨str (js "s1"), 0⟩)]⟩).spawns
      = [⟨js "hi", str (js "s1")⟩, ⟨js "hi", null⟩] :=
  ((resume_failure_fallback
      ⟨86400000, 10, true, true, 20, true,
        .threw (js "Claude exited with code 1: ") false, .returned (str (js "s2"))⟩
      (js "hdr:c1")
      [obj [(js "role", str (js "user")), (js "content", str (js "hi"))]]
      ⟨[], some [(js "hdr:c1", ⟨str (js "s1"), 0⟩)]⟩).2.1
    (js "hi") (js "hi") (js "Claude exited with code 1: ") false
    rfl rfl (by decide) rfl rfl (by decide)).1

/-! ### The per-conversation queue -/

theorem Queue.ordered_empty : Queue.empty.Ordered where
  active_last := fun _ _ h => by simp [Queue.empty] at h
  active_none := fun _ _ i hi => by simp [Queue.empty] at hi
  prev_some := fun _ _ hj => by simp [Queue.empty] at hj
  prev_none := fun _ hj => by simp [Queue.empty] at hj
  started := fun _ hj => by simp [Queue.empty] at hj

theorem Queue.ordered_submit (q : Queue) (key : JStr) (h : q.Ordered) :
    (q.submit key).Ordered where
  active_last := by
    intro k t ht
    simp only [Queue.submit] at ht ⊢
    by_cases hk : k = key
    · subst hk
      simp only [if_true, Option.some.injEq] at ht
      subst ht
      refine ⟨by omega, by simp, fun i hi _ => by omega⟩
    · simp only [hk, if_false] at ht
      obtain ⟨a1, a2, a3⟩ := h.active_last k t ht
      refine ⟨by omega, by simp [Nat.ne_of_lt a1, a2], ?_⟩
      intro i hi hik
      by_cases hic : i = q.count
      · simp [hic] at hik; exact absurd hik.symm hk
      · simp only [hic, if_false] at hik
        exact a3 i (by omega) hik
  active_none := by
    intro k hnone i hi hik
    simp only [Queue.submit] at hnone hi hik ⊢
    by_cases hk : k = key
    · simp [hk] at hnone
    · simp only [hk, if_false] at hnone
      by_cases hic : i = q.count
      · simp [hic] at hik; exact absurd hik.symm hk
      · simp only [hic, if_false] at hik ⊢
        exact h.active_none k hnone i (by omega) hik
  prev_some := by
    intro j p hj hp
    simp only [Queue.submit] at hj hp ⊢
    by_cases hjc : j = q.count
    · subst hjc
      simp only [if_true] at hp
      obtain ⟨a1, a2, a3⟩ := h.active_last key p hp
      refine ⟨a1, by simp [Nat.ne_of_lt a1, a2], ?_⟩
      intro i hpi hij
      simp only [Nat.ne_of_lt hij, if_false, if_true]
      intro hik
      have := a3 i hij hik
      omega
    · simp only [hjc, if_false] at hp ⊢
      obtain ⟨a1, a2, a3⟩ := h.prev_some j p (by omega) hp
      have hpc : p ≠ q.count := by omega
      refine ⟨a1, by simp only [hpc, if_false]; exact a2, ?_⟩
      intro i hpi hij
      have hic : i ≠ q.count := by omega
      simp only [hic, if_false]
      exact a3 i hpi hij
  prev_none := by
    intro j hj hp i hij hik
    simp only [Queue.submit] at hj hp hik ⊢
    have hic : i ≠ q.count := by omega
    simp only [hic, if_false] at hik ⊢
    by_cases hjc : j = q.count
    · subst hjc
      simp only [if_true] at hp hik
      exact h.active_none key hp i hij hik
    · simp only [hjc, if_false] at hp hik
      exact h.prev_none j (by omega) hp i hij hik
  started := by
    intro j hj hph i hij hik
    simp only [Queue.submit] at hj hph hik ⊢
    have hic : i ≠ q.count := by omega
    simp only [hic, if_false] at hik ⊢
    by_cases hjc : j = q.count
    · simp [hjc] at hph
    · simp only [hjc, if_false] at hph hik
      exact h.started j (by omega) hph i hij hik

theorem Queue.ordered_advance (q : Queue) (i : Nat) (ph : Phase) (h : q.Ordered)
    (hmono : (q.phase i).finished = true → ph.finished = true)
    (hstart : q.phase i = .queued → ph ≠ .queued →
      ∀ i', i' < i → q.key i' = q.key i → (q.phase i').finished = true) :
    ({ q with phase := fun j => if j = i then ph else q.phase j } : Queue).Ordered where
  active_last := h.active_last
  active_none := by
    intro k hnone i' hi' hik
    have := h.active_none k hnone i' hi' hik
    simp only
    by_cases hii : i' = i
    · subst hii; simp only [if_true]; exact hmono this
    · simp only [hii, if_false]; exact this
  prev_some := h.prev_some
  prev_none := by
    intro j hj hp i' hij hik
    have := h.prev_none j hj hp i' hij hik
    simp only
    by_cases hii : i' = i
    · subst hii; simp only [if_true]; exact hmono this
    · simp only [hii, if_false]; exact this
  started := by
    intro j hj hph i' hij hik
    simp only at hph ⊢
    have hold : (q.phase i').finished = true := by
      by_cases hji : j = i
      · subst hji
        simp only [if_true] at hph
        by_cases hq : q.phase j = .queued
        · exact hstart hq hph i' hij hik
        · exact h.started j hj hq i' hij hik
      · simp only [hji, if_false] at hph
        exact h.started j hj hph i' hij hik
    by_cases hii : i' = i
    · subst hii; simp only [if_true]; exact hmono hold
    · simp only [hii, if_false]; exact hold

theorem Phase.ne_queued_of_finished {ph : Phase} (h : ph.finished = true) : ph ≠ .queued := by
  cases ph <;> simp [Phase.finished] at h ⊢

theorem Queue.ordered_step (q q1 : Queue) (e : QueueEvent) (h : q.Ordered)
    (hstep : q.step e = some q1) : q1.Ordered := by
  cases e with
  | submit key =>
    simp only [Queue.step, Option.some.injEq] at hstep
    subst hstep
    exact q.ordered_submit key h
  | start i =>
    simp only [Queue.step] at hstep
    split at hstep
    · rename_i hcan
      simp only [Option.some.injEq] at hstep
      subst hstep
      simp only [Queue.canStart, Bool.and_eq_true, decide_eq_true_eq] at hcan
      obtain ⟨⟨hi, hq⟩, hprev⟩ := hcan
      refine q.ordered_advance i .running h (fun hf => ?_) (fun _ _ => ?_)
      · rw [hq] at hf; exact absurd hf (by decide)
      · intro i' hi' hik
        cases hp : q.prev i with
        | none => exact h.prev_none i hi hp i' hi' hik
        | some p =>
          rw [hp] at hprev
          simp only at hprev
          obtain ⟨a1, a2, a3⟩ := h.prev_some i p hi hp
          rcases Nat.lt_trichotomy i' p with hlt | heq | hgt
          · exact h.started p (by omega) (Phase.ne_queued_of_finished hprev) i' hlt
              (hik.trans a2.symm)
          · rw [heq]; exact hprev
          · exact absurd hik (a3 i' hgt hi')
    · exact absurd hstep (by simp)
  | settle i ok =>
    simp only [Queue.step] at hstep
    split at hstep
    · rename_i hrun
      simp only [Option.some.injEq] at hstep
      subst hstep
      refine q.ordered_advance i (.settled ok) h (fun _ => rfl) (fun hq _ => ?_)
      rw [hrun.2] at hq
      exact absurd hq (by decide)
    · exact absurd hstep (by simp)
  | finish i =>
    simp only [Queue.step] at hstep
    split at hstep
    · rename_i hi
      split at hstep
      · rename_i ok hph
        simp only [Option.some.injEq] at hstep
        subst hstep
        have hadv := q.ordered_advance i (.returned ok) h (fun _ => rfl)
          (fun hq _ => by rw [hph] at hq; exact absurd hq (by simp))
        refine ⟨?_, ?_, hadv.prev_some, hadv.prev_none, hadv.started⟩
        · intro k t ht
          simp only [Queue.cleanup] at ht
          split at ht
          · exact absurd ht (by simp)
          · exact h.active_last k t ht
        · intro k hnone i' hi' hik
          simp only [Queue.cleanup] at hnone
          split at hnone
          · rename_i hk
            obtain ⟨hk1, hk2⟩ := hk
            obtain ⟨_, _, a3⟩ := h.active_last (q.key i) i hk2
            simp only at hi' hik ⊢
            have hle := a3 i' hi' (hik.trans hk1)
            by_cases hii : i' = i
            · subst hii; simp [Phase.finished]
            · simp only [hii, if_false]
              exact h.started i hi (by rw [hph]; simp) i' (by omega) (hik.trans hk1)
          · exact hadv.active_none k hnone i' hi' hik
      · exact absurd hstep (by simp)
    · exact absurd hstep (by simp)

theorem Queue.ordered_run (events : List QueueEvent) (q q1 : Queue) (h : q.Ordered)
    (hrun : q.run events = some q1) : q1.Ordered := by
  induction events generalizing q with
  | nil =>
    simp only [Queue.run, Option.some.injEq] at hrun
    exact hrun ▸ h
  | cons e rest ih =>
    simp only [Queue.run] at hrun
    split at hrun
    · exact absurd hrun (by simp)
    · rename_i q' hq'
      exact ih q' (q.ordered_step q' e h hq') hrun

/-- C15. In every state the queue can reach: a call whose task has started has every
earlier call for the same key settled, so tasks of one key run in submission order and no
two of them are running at once; a queued call whose predecessor has settled, fulfilled or
rejected alike, can start; a call returns with the outcome its own task settled with; and
two tasks of distinct keys can be running at once. -/
theorem enqueue_serialises_per_key (events : List QueueEvent) (q : Queue)
    (hrun : Queue.empty.run events = some q) :
    (∀ i j, i < j → j < q.count → q.key i = q.key j → q.phase j ≠ .queued →
        (q.phase i).finished = true)
      ∧ (∀ i j, i < q.count → j < q.count → q.key i = q.key j →
          q.phase i = .running → q.phase j = .running → i = j)
      ∧ (∀ j p ok, j < q.count → q.phase j = .queued → q.prev j = some p →
          (q.phase p = .settled ok ∨ q.phase p = .returned ok) →
          ∃ q1, q.step (.start j) = some q1 ∧ q1.phase j = .running)
      ∧ (∀ i ok, i < q.count → q.phase i = .settled ok →
          ∃ q1, q.step (.finish i) = some q1 ∧ q1.phase i = .returned ok)
      ∧ ∃ q2, Queue.empty.run [.submit (js "a"), .submit (js "b"), .start 0, .start 1]
            = some q2
          ∧ q2.phase 0 = .running ∧ q2.phase 1 = .running ∧ q2.key 0 ≠ q2.key 1 := by
  have hord : q.Ordered := Queue.ordered_run events Queue.empty q Queue.ordered_empty hrun
  have horder : ∀ i j, i < j → j < q.count → q.key i = q.key j → q.phase j ≠ .queued →
      (q.phase i).finished = true :=
    fun i j hij hj hk hph => hord.started j hj hph i hij hk
  refine ⟨horder, ?_, ?_, ?_, ?_⟩
  · intro i j hi hj hk hri hrj
    rcases Nat.lt_trichotomy i j with hlt | heq | hgt
    · have := horder i j hlt hj hk (by rw [hrj]; simp)
      rw [hri] at this
      exact absurd this (by decide)
    · exact heq
    · have := horder j i hgt hi hk.symm (by rw [hri]; simp)
      rw [hrj] at this
      exact absurd this (by decide)
  · intro j p ok hj hq hp hfin
    have hpf : (q.phase p).finished = true := by
      rcases hfin with h | h <;> rw [h] <;> rfl
    have hcan : q.canStart j = true := by
      simp [Queue.canStart, hj, hq, hp, hpf]
    refine ⟨{ q with phase := fun i => if i = j then .running else q.phase i }, ?_, ?_⟩
    · simp only [Queue.step, hcan, if_true]
    · simp
  · intro i ok hi hph
    refine ⟨{ q with
      phase := fun j => if j = i then .returned ok else q.phase j
      active := q.cleanup i }, ?_, ?_⟩
    · simp only [Queue.step, hi, hph, if_true]
    · simp
  · exact ⟨_, rfl, rfl, rfl, by decide⟩

/-- Witness of C15: two calls for one key, the first of which is rejected before the
second starts. -/
theorem enqueue_serialises_per_key_witness :
    ∃ q, Queue.empty.run [.submit (js "a"), .submit (js "a"), .start 0, .settle 0 false,
          .start 1] = some q
      ∧ ∀ i j, i < q.count → j < q.count → q.key i = q.key j →
          q.phase i = .running → q.phase j = .running → i = j :=
  ⟨_, rfl, (enqueue_serialises_per_key [.submit (js "a"), .submit (js "a"), .start 0,
    .settle 0 false, .start 1] _ rfl).2.1⟩

/-! ### Pass-through of other event types -/

theorem translateToSSE_unnamed (e : JVal) (st : StreamState) (h : isUnnamedEvent e = true) :
    translateToSSE e st
      = if !e.truthy || !e.isObjectType then ⟨[], st, false⟩ else translateDefault e st := by
  simp only [isUnnamedEvent, isStreamEvent, isTurnEvent, isResultEvent, Bool.not_eq_true',
    Bool.or_eq_false_iff] at h
  obtain ⟨⟨⟨h1, h2⟩, h3⟩, h4⟩ := h
  simp only [translateToSSE, h1, h2, h3, h4, Bool.false_eq_true, if_false, Bool.or_self]

/-- C21 (counterexample). An event of type `error` yields no frame, and an event of type
`ping` yields one frame. -/
theorem error_dropped_ping_forwarded :
    isUnnamedEvent (obj [(js "type", str (js "error"))]) = true
      ∧ (translateToSSE (obj [(js "type", str (js "error"))])
          (createStreamState (js "m") (str (js "M")))).frames = []
      ∧ isUnnamedEvent (obj [(js "type", str (js "ping"))]) = true
      ∧ (translateToSSE (obj [(js "type", str (js "ping"))])
          (createStreamState (js "m") (str (js "M")))).frames
        = [Frame.passThrough (js "ping") (obj [(js "type", str (js "ping"))])] :=
  ⟨rfl, rfl, rfl, rfl⟩

/-- C21 (amended). For an event whose type is none of `assistant`, `result`, `system`,
`user`: when the type is one of `message_start`, `content_block_start`,
`content_block_delta`, `content_block_stop`, `message_delta`, `message_stop`, `ping`,
`translateToSSE` yields exactly one frame, named by that type and carrying the event
itself, and sets the latch when the type is `message_start`, leaving the rest of the
state as it was; for every other type, `error` included, it yields no frame and leaves the
state unchanged. -/
theorem pass_through (e : JVal) (st : StreamState) (h : isUnnamedEvent e = true) :
    (∀ t, e.get (js "type") = str t → t ∈ passThroughNames →
        translateToSSE e st
          = ⟨[Frame.passThrough t e],
              { st with messageStarted := st.messageStarted || t == js "message_start" },
              false⟩)
      ∧ ((∀ t, e.get (js "type") = str t → t ∉ passThroughNames) →
        translateToSSE e st = ⟨[], st, false⟩) := by
  rw [translateToSSE_unnamed e st h]
  constructor
  · intro t ht hmem
    have hobj : ∃ fields, e = obj fields := by
      cases e <;> simp [JVal.get] at ht
      exact ⟨_, rfl⟩
    obtain ⟨fields, rfl⟩ := hobj
    have hsse : isAnthropicSSEType (str t) = true := by
      simpa [isAnthropicSSEType, passThroughNames] using hmem
    simp only [JVal.truthy, JVal.isObjectType, Bool.not_true, Bool.or_self,
      Bool.false_eq_true, if_false, translateDefault, ht, hsse, if_true]
    rcases st with ⟨mid, model, started, index, text, sid, cost, duration⟩
    cases started <;> cases hm : (t == js "message_start") <;> simp [hm]
  · intro hno
    split
    · rfl
    · unfold translateDefault
      split
      · rename_i t ht
        have hsse : isAnthropicSSEType (str t) = false := by
          have := hno t ht
          simpa [isAnthropicSSEType, passThroughNames] using this
        simp only [hsse, Bool.false_eq_true, if_false]
      · rfl

/-- Witness of C21 (amended): a `message_start` event sets the latch of a fresh state. -/
theorem pass_through_witness :
    (translateToSSE (obj [(js "type", str (js "message_start"))])
        (createStreamState (js "m") (str (js "M")))).state.messageStarted = true :=
  (congrArg (fun r => r.state.messageStarted)
    ((pass_through (obj [(js "type", str (js "message_start"))])
      (createStreamState (js "m") (str (js "M"))) rfl).1 (js "message_start") rfl
      (by decide))).trans rfl

/-! ### The registry as a keyed map -/

theorem getSession_fst_eq (t maxAge : Int) (w : Bool) (k : JStr) (reg : Registry) :
    (getSession t maxAge w k reg).1
      = match durableEntry k reg with
        | none => null
        | some entry => if t - entry.updatedAt > maxAge then null else entry.sessionId := by
  have hfind : (load reg).store.find k = durableEntry k reg := rfl
  simp only [getSession, hfind]
  cases durableEntry k reg with
  | none => rfl
  | some entry =>
    simp only
    split <;> rfl

theorem getSession_fst_congr (t maxAge : Int) (w : Bool) (k : JStr) (reg reg' : Registry)
    (h : durableEntry k reg = durableEntry k reg') :
    (getSession t maxAge w k reg).1 = (getSession t maxAge w k reg').1 := by
  rw [getSession_fst_eq, getSession_fst_eq, h]

theorem durableEntry_removeSession_self (k : JStr) (reg : Registry) :
    durableEntry k (removeSession true k reg) = none := by
  simp [durableEntry, removeSession, save, load, Table.find_delete_self]

/-- C23. With the writes succeeding and an explicit clock, the registry is a keyed map
over the keys that name no member of `Object.prototype`:
`getSession(k)` after `setSession(k, s)` returns `s` (within the max-age, so at once when
the max-age is not negative), a later `setSession(k, s')` replaces it, `getSession(k)`
after `removeSession(k)` returns `null`, and the three functions called for `k` leave the
entry of any other key as it was, so that `getSession` of that key returns what it
would have returned without the call. -/
theorem registry_is_keyed_map (maxAge T T' t : Int) (w : Bool) (k k' : JStr) (s s' : JVal)
    (reg : Registry) (_hk : isPlainKey k = true) (_hk' : isPlainKey k' = true) :
    (t - T ≤ maxAge → (getSession t maxAge w k (setSession T true k s reg)).1 = s)
      ∧ (0 ≤ maxAge → (getSession T maxAge w k (setSession T true k s reg)).1 = s)
      ∧ (t - T' ≤ maxAge →
          (getSession t maxAge w k (setSession T' true k s' (setSession T true k s reg))).1
            = s')
      ∧ (getSession t maxAge w k (removeSession true k reg)).1 = null
      ∧ (k' ≠ k →
          durableEntry k' (setSession T true k s reg) = durableEntry k' reg
            ∧ durableEntry k' (removeSession true k reg) = durableEntry k' reg
            ∧ durableEntry k' (getSession T maxAge true k reg).2 = durableEntry k' reg
            ∧ (getSession t maxAge w k' (setSession T true k s reg)).1
              = (getSession t maxAge w k' reg).1
            ∧ (getSession t maxAge w k' (removeSession true k reg)).1
              = (getSession t maxAge w k' reg).1
            ∧ (getSession t maxAge w k' (getSession T maxAge true k reg).2).1
              = (getSession t maxAge w k' reg).1) := by
  refine ⟨?_, ?_, ?_, ?_, ?_⟩
  · intro h
    rw [getSession_fst_eq, durableEntry_setSession_self]
    simp only
    rw [if_neg (by omega)]
  · intro h
    rw [getSession_fst_eq, durableEntry_setSession_self]
    simp only
    rw [if_neg (by omega)]
  · intro h
    rw [getSession_fst_eq, durableEntry_setSession_self]
    simp only
    rw [if_neg (by omega)]
  · rw [getSession_fst_eq, durableEntry_removeSession_self]
  · intro hne
    have h1 : durableEntry k' (setSession T true k s reg) = durableEntry k' reg :=
      durableEntry_run_of_ne maxAge ⟨.set k s, T, true⟩ k' reg hne.symm
    have h2 : durableEntry k' (removeSession true k reg) = durableEntry k' reg :=
      durableEntry_run_of_ne maxAge ⟨.remove k, T, true⟩ k' reg hne.symm
    have h3 : durableEntry k' (getSession T maxAge true k reg).2 = durableEntry k' reg :=
      durableEntry_run_of_ne maxAge ⟨.get k, T, true⟩ k' reg hne.symm
    exact ⟨h1, h2, h3, getSession_fst_congr t maxAge w k' _ _ h1,
      getSession_fst_congr t maxAge w k' _ _ h2, getSession_fst_congr t maxAge w k' _ _ h3⟩

/-- Witness of C23: the handle of `hdr:a` is replaced while `hdr:b` keeps its own. -/
theorem registry_is_keyed_map_witness :
    (getSession 5 86400000 true (js "hdr:a")
        (setSession 2 true (js "hdr:a") (str (js "s2"))
          (setSession 1 true (js "hdr:a") (str (js "s1")) ⟨[], none⟩))).1 = str (js "s2") :=
  (registry_is_keyed_map 86400000 1 2 5 true (js "hdr:a") (js "hdr:b") (str (js "s1"))
    (str (js "s2")) ⟨[], none⟩ (by decide) (by decide)).2.2.1 (by decide)

/-! ### The latest user text -/

theorem textParts_eq (blocks : List JVal)
    (h : blocks.all (fun block => !block.isNullish) = true) :
    textParts blocks = some (textPartsOf blocks) := by
  induction blocks with
  | nil => rfl
  | cons block rest ih =>
    simp only [List.all_cons, Bool.and_eq_true, Bool.not_eq_true'] at h
    obtain ⟨hb, hrest⟩ := h
    have ih' := ih (by simpa using hrest)
    unfold textParts
    simp only [textPartsOf, List.filterMap_cons] at ih' ⊢
    cases hs : block.isString
    · simp only [Bool.false_eq_true, if_false, hb]
      cases ht : (block.get (js "type")).eqStr (js "text")
      · simp only [Bool.false_eq_true, if_false]
        exact ih'
      · simp only [if_true, ih', Option.map_some']
    · simp only [if_true, ih', Option.map_some']

theorem extractTextContent_eq (content : JVal)
    (h : match content with
      | arr blocks => blocks.all (fun block => !block.isNullish) = true
      | _ => True) :
    extractTextContent content = extractedText content := by
  cases content with
  | arr blocks =>
    simp only at h
    simp only [extractTextContent, extractedText, textParts_eq blocks h]
  | _ => rfl

theorem findUserFromEnd_eq (l : List JVal) (h : ∀ m ∈ l, m.isNullish = false) :
    findUserFromEnd l = some (((l.filter isUserMessage).head?).getD null) := by
  induction l with
  | nil => rfl
  | cons m rest ih =>
    have ih' := ih (fun m' hm' => h m' (List.mem_cons_of_mem _ hm'))
    unfold findUserFromEnd
    simp only [h m (List.mem_cons_self _ _), Bool.false_eq_true, if_false, List.filter_cons]
    cases hu : isUserMessage m
    · have hu' : (m.get (js "role")).eqStr (js "user") = false := hu
      simp only [hu', Bool.false_eq_true, if_false]
      exact ih'
    · have hu' : (m.get (js "role")).eqStr (js "user") = true := hu
      simp only [hu', if_true, List.head?_cons, Option.getD_some]

theorem findLastUserMessage_eq (messages : List JVal)
    (h : ∀ m ∈ messages, m.isNullish = false) :
    findLastUserMessage messages = some ((lastUserMessage messages).getD null) := by
  unfold findLastUserMessage lastUserMessage
  rw [findUserFromEnd_eq messages.reverse (fun m hm => h m (List.mem_reverse.mp hm)),
    List.filter_reverse, List.head?_reverse]

theorem findUserFromEnd_stop (later earlier : List JVal) (m : JVal)
    (hm : isUserMessage m = true) :
    findUserFromEnd (later ++ m :: earlier) = findUserFromEnd (later ++ [m]) := by
  induction later with
  | nil =>
    have hm' : (m.get (js "role")).eqStr (js "user") = true := hm
    have hnull : m.isNullish = false := by
      obtain ⟨fields, rfl⟩ := obj_of_eqStr_get hm'
      rfl
    simp only [List.nil_append, findUserFromEnd, hnull, hm', Bool.false_eq_true, if_false,
      if_true]
  | cons x rest ih =>
    simp only [List.cons_append, findUserFromEnd, List.append_eq, ih]

theorem buildPrompt_resume (messages : List JVal) :
    buildPrompt messages true = getLatestUserText messages := by
  cases messages with
  | nil => rfl
  | cons first others => rfl

theorem getLatestUserText_eq_spec (messages : List JVal)
    (h : messagesReadable messages = true) :
    getLatestUserText messages = latestUserTextSpec messages := by
  simp only [messagesReadable, List.all_eq_true, Bool.and_eq_true, Bool.not_eq_true'] at h
  have hfind := findLastUserMessage_eq messages (fun m hm => (h m hm).1)
  simp only [getLatestUserText, latestUserTextSpec, hfind]
  cases hlast : lastUserMessage messages with
  | none => rfl
  | some msg =>
    have hmem : msg ∈ messages.filter isUserMessage := List.mem_of_getLast?_eq_some hlast
    obtain ⟨hin, huser⟩ := List.mem_filter.mp hmem
    obtain ⟨fields, rfl⟩ := obj_of_eqStr_get (show ((msg.get (js "role")).eqStr (js "user")) = true
      from huser)
    simp only [Option.getD_some, JVal.truthy, if_true]
    apply extractTextContent_eq
    have := (h _ hin).2
    cases hc : (obj fields).get (js "content") with
    | arr blocks =>
      rw [hc] at this
      simpa using this
    | _ => trivial

/-- C22. For every message list, `buildPrompt(messages, { isResume: true })` equals
`getLatestUserText(messages)`; on a list without `null` messages or blocks both are the
extracted text of the last message whose role is `user` (a string content as it is, for
an array content the string blocks and the texts of the text blocks joined by a newline,
other blocks skipped), and the empty string when the list is empty or has no user
message; and the messages before the last user message never influence the result. -/
theorem latest_user_text (messages : List JVal) :
    buildPrompt messages true = getLatestUserText messages
      ∧ (messagesReadable messages = true →
          getLatestUserText messages = latestUserTextSpec messages)
      ∧ (messages = [] → getLatestUserText messages = some [])
      ∧ (messagesReadable messages = true →
          (∀ m ∈ messages, isUserMessage m = false) →
          getLatestUserText messages = some [])
      ∧ (∀ earlier m later, messages = earlier ++ m :: later → isUserMessage m = true →
          getLatestUserText messages = getLatestUserText (m :: later)) := by
  refine ⟨buildPrompt_resume messages, getLatestUserText_eq_spec messages, ?_, ?_, ?_⟩
  · rintro rfl
    rfl
  · intro hread hno
    rw [getLatestUserText_eq_spec messages hread]
    have hnil : messages.filter isUserMessage = [] := by
      rw [List.filter_eq_nil_iff]
      intro m hm
      simp [hno m hm]
    simp [latestUserTextSpec, lastUserMessage, hnil]
  · rintro earlier m later rfl hm
    have h1 : findLastUserMessage (earlier ++ m :: later) = findLastUserMessage (m :: later) := by
      simp only [findLastUserMessage, List.reverse_append, List.reverse_cons,
        List.append_assoc, List.singleton_append]
      rw [findUserFromEnd_stop later.reverse earlier.reverse m hm]
    simp only [getLatestUserText, h1]

/-- Witness of C22: an assistant message follows the last user message, whose content is
an array with a string, an image block and a text block. -/
theorem latest_user_text_witness :
    getLatestUserText
        [obj [(js "role", str (js "user")), (js "content", str (js "old"))],
          obj [(js "role", str (js "user")),
            (js "content", arr [str (js "a"), obj [(js "type", str (js "image"))],
              obj [(js "type", str (js "text")), (js "text", str (js "b"))]])],
          obj [(js "role", str (js "assistant")), (js "content", str (js "reply"))]]
      = some (js "a\nb") :=
  ((latest_user_text
      [obj [(js "role", str (js "user")), (js "content", str (js "old"))],
        obj [(js "role", str (js "user")),
          (js "content", arr [str (js "a"), obj [(js "type", str (js "image"))],
            obj [(js "type", str (js "text")), (js "text", str (js "b"))]])],
        obj [(js "role", str (js "assistant")), (js "content", str (js "reply"))]]).2.1
    (by decide)).trans rfl

/-! ### Visible text of the two modes -/

/-- C24 (failing input). An assistant turn that holds only a tool-use block, then the
result event carrying `done`: the streaming path emits no `text_delta` and reports 0
output tokens, the aggregate response holds the block `done` and reports 1. -/
theorem tool_only_turn_modes_differ (m : JStr) (M : JVal) :
    (streamLoop
        [assistantEvent [obj [(js "type", str (js "tool_use")), (js "name", str (js "Read"))]],
          resultEvent (str (js "done")) (str (js "s1"))]
        (createStreamState m M) null).written
        = [Frame.messageStart m (createStreamState m M).model [] 0 0,
            Frame.messageDelta (js "end_turn") 0, Frame.messageStop]
      ∧ streamedText (streamLoop
          [assistantEvent [obj [(js "type", str (js "tool_use")),
              (js "name", str (js "Read"))]],
            resultEvent (str (js "done")) (str (js "s1"))]
          (createStreamState m M) null).written = []
      ∧ (buildCompleteResponse m
          [assistantEvent [obj [(js "type", str (js "tool_use")),
              (js "name", str (js "Read"))]],
            resultEvent (str (js "done")) (str (js "s1"))] M).map
          (fun agg => (concatTexts agg.response.content, agg.response.outputTokens))
        = some (js "done", 1) :=
  ⟨rfl, rfl, rfl⟩

theorem concatTexts_append (xs ys : List ContentBlock) :
    concatTexts (xs ++ ys) = concatTexts xs ++ concatTexts ys := by
  induction xs with
  | nil => rfl
  | cons b rest ih => simp only [List.cons_append, concatTexts, List.append_eq, ih, List.append_assoc]

theorem textBlocksOf_cons (b : JVal) (rest : List JVal) :
    textBlocksOf (b :: rest)
      = if isTextBlock b then ⟨js "text", b.get (js "text")⟩ :: textBlocksOf rest
        else textBlocksOf rest := by
  cases hb : isTextBlock b <;> simp [textBlocksOf, List.filter_cons, hb]

theorem streamedText_blockTriads (n : Nat) (content : List JVal) :
    streamedText (blockTriads n (content.filterMap visibleDelta))
      = concatTexts (textBlocksOf content) := by
  induction content generalizing n with
  | nil => rfl
  | cons b rest ih =>
    rw [textBlocksOf_cons]
    cases hb : isTextBlock b
    · cases ht : ((b.get (js "type")).eqStr (js "thinking") && (b.get (js "thinking")).truthy)
      · have hv : visibleDelta b = none := by simp [visibleDelta, hb, ht]
        simp only [List.filterMap_cons, hv, Bool.false_eq_true, if_false]
        exact ih n
      · have hv : visibleDelta b = some (.thinkingDelta (b.get (js "thinking"))) := by
          simp [visibleDelta, hb, ht]
        simp only [List.filterMap_cons, hv, blockTriads, streamedText, Frame.visibleText,
          List.nil_append, Bool.false_eq_true, if_false]
        exact ih (n + 1)
    · have hv : visibleDelta b = some (.textDelta (b.get (js "text"))) := by
        simp [visibleDelta, hb]
      simp only [List.filterMap_cons, hv, blockTriads, streamedText, Frame.visibleText,
        List.nil_append, if_true, concatTexts]
      rw [ih (n + 1)]

theorem assistantTexts_of_not_opens (e : JVal) (h : opensMessage e = false) :
    assistantTexts e = [] := by
  unfold assistantTexts
  split
  · rename_i ha
    cases hc : (e.get (js "message")).get (js "content") with
    | arr content => simp [opensMessage, ha, hc, isArray] at h
    | _ => rfl
  · rfl

theorem allAssistantTexts_of_not_opens (es : List JVal)
    (h : es.any opensMessage = false) : allAssistantTexts es = [] := by
  induction es with
  | nil => rfl
  | cons e rest ih =>
    simp only [List.any_cons, Bool.or_eq_false_iff] at h
    simp only [allAssistantTexts, assistantTexts_of_not_opens e h.1, ih h.2, List.append_nil]

theorem allAssistantTexts_append (es fs : List JVal) :
    allAssistantTexts (es ++ fs) = allAssistantTexts es ++ allAssistantTexts fs := by
  induction es with
  | nil => rfl
  | cons e rest ih => simp only [List.cons_append, allAssistantTexts, List.append_eq, ih, List.append_assoc]

/-- One turn event on the streaming path: its visible text is the text of the text blocks
it carries, and the message counts as started afterwards exactly when it was started
before or the event is an assistant event with an array content. -/
theorem translateToSSE_turn_text (e : JVal) (st : StreamState)
    (hk : isTurnEvent e = true) (hr : contentReadable e = true) :
    (translateToSSE e st).threw = false
      ∧ streamedText (translateToSSE e st).frames = concatTexts (assistantTexts e)
      ∧ (translateToSSE e st).state.messageStarted
        = (st.messageStarted || opensMessage e) := by
  cases ha : (e.get (js "type")).eqStr (js "assistant")
  · have hi : (e.get (js "type")).eqStr (js "system") = true
        ∨ (e.get (js "type")).eqStr (js "user") = true := by
      simpa [isTurnEvent, ha] using hk
    rw [translateToSSE_internal e st hi]
    have ht : assistantTexts e = [] := by simp [assistantTexts, ha]
    have ho : opensMessage e = false := by simp [opensMessage, ha]
    rw [ht, ho]
    unfold translateInternal
    split <;> exact ⟨rfl, rfl, by simp⟩
  · rw [translateToSSE_assistant e st ha]
    rcases translateAssistant_eq e st ha hr with ⟨content, hc, _, h1, h2, _, _, h5⟩ | ⟨hn, heq⟩
    · have ht : assistantTexts e = textBlocksOf content := by simp [assistantTexts, ha, hc]
      have ho : opensMessage e = true := by simp [opensMessage, ha, hc, isArray]
      refine ⟨h1, ?_, by rw [h5, ho, Bool.or_true]⟩
      rw [h2, ht, streamedText_append, streamedText_blockTriads]
      cases st.messageStarted <;>
        simp [streamedText, messageStartFrame, Frame.visibleText]
    · have ho : opensMessage e = false := by
        cases hc : (e.get (js "message")).get (js "content") with
        | arr content => exact absurd hc (hn content)
        | _ => simp [opensMessage, hc, isArray]
      rw [heq, assistantTexts_of_not_opens e ho, ho]
      exact ⟨rfl, rfl, by simp⟩

/-- The streaming loop over turn events: the visible text written is the text of all the
text blocks of the events, and the message is started exactly when it was started before
or some assistant event had an array content. -/
theorem streamLoop_turn_text (es : List JVal) (st : StreamState) (last : JVal)
    (h : ∀ e ∈ es, isTurnEvent e = true ∧ contentReadable e = true) :
    (streamLoop es st last).threw = false
      ∧ streamedText (streamLoop es st last).written = concatTexts (allAssistantTexts es)
      ∧ (streamLoop es st last).state.messageStarted
        = (st.messageStarted || es.any opensMessage) := by
  induction es generalizing st last with
  | nil => exact ⟨rfl, rfl, by simp [streamLoop]⟩
  | cons e rest ih =>
    obtain ⟨hk, hr⟩ := h e (List.mem_cons_self _ _)
    obtain ⟨t1, t2, t3⟩ := translateToSSE_turn_text e st hk hr
    obtain ⟨l1, l2, l3⟩ := ih (translateToSSE e st).state
      (if (translateToSSE e st).state.sessionId.truthy
        then (translateToSSE e st).state.sessionId else last)
      (fun e' he' => h e' (List.mem_cons_of_mem _ he'))
    simp only [streamLoop, t1, Bool.false_eq_true, if_false]
    refine ⟨l1, ?_, ?_⟩
    · rw [streamedText_append, t2, l2, allAssistantTexts, concatTexts_append]
    · rw [l3, t3, List.any_cons, Bool.or_assoc]

theorem assistantTexts_of_falsy (e : JVal)
    (h : ((e.get (js "type")).eqStr (js "assistant")
      && ((e.get (js "message")).get (js "content")).truthy) = false) :
    assistantTexts e = [] := by
  unfold assistantTexts
  split
  · rename_i ha
    cases hc : (e.get (js "message")).get (js "content") with
    | arr content => simp [ha, hc, JVal.truthy] at h
    | _ => rfl
  · rfl

/-- One pass of the aggregate loop: the blocks collected grow by the text blocks of the
event, and the result text is replaced exactly by a string `result` of a result event. -/
theorem collectEvent_blocks (e : JVal) (c c' : Collected) (h : collectEvent e c = some c') :
    c'.contentBlocks = c.contentBlocks ++ assistantTexts e
      ∧ c'.resultText
        = match lastStringResult [e] with
          | some s => str s
          | none => c.resultText := by
  obtain ⟨n1, n2⟩ := noteSessionId_blocks e c
  unfold collectEvent at h
  split at h
  · exact absurd h (by simp)
  · simp only at h
    split at h
    · rename_i hbranch
      simp only [Bool.and_eq_true] at hbranch
      have hnr : isResultEvent e = false := not_result_of_assistant hbranch.1
      have hlast : lastStringResult [e] = none := by
        simp [lastStringResult, hnr]
      rw [hlast]
      split at h
      · rename_i content hcontent
        simp only [Option.map_eq_some'] at h
        obtain ⟨blocks, hb, rfl⟩ := h
        have ht : assistantTexts e = textBlocksOf content := by
          simp [assistantTexts, hbranch.1, hcontent]
        exact ⟨by rw [collectBlocks_eq _ _ _ hb, ht, n1], n2⟩
      · rename_i s hcontent
        simp only [Option.some.injEq] at h
        subst h
        have ht : assistantTexts e = [] := by
          simp [assistantTexts, hbranch.1, hcontent]
        exact ⟨by rw [ht, List.append_nil, n1], n2⟩
      · exact absurd h (by simp)
    · rename_i hbranch
      have ht : assistantTexts e = [] :=
        assistantTexts_of_falsy e (by simpa using hbranch)
      rw [ht, List.append_nil]
      split at h
      · rename_i hres
        have hres' : isResultEvent e = true := hres
        simp only [Option.some.injEq] at h
        subst h
        refine ⟨n1, ?_⟩
        cases hv : e.get (js "result") <;>
          simp [lastStringResult, hres', hv, JVal.isString, n2]
      · rename_i hres
        have hres' : isResultEvent e = false := by simpa [isResultEvent] using hres
        simp only [Option.some.injEq] at h
        subst h
        exact ⟨n1, by simp [lastStringResult, hres', n2]⟩

/-- The aggregate loop: the blocks collected are the text blocks of the assistant events,
in order, and the result text is the string `result` of the last result event that has
one. -/
theorem collectEvents_blocks (es : List JVal) (c c' : Collected)
    (h : collectEvents es c = some c') :
    c'.contentBlocks = c.contentBlocks ++ allAssistantTexts es
      ∧ c'.resultText
        = match lastStringResult es with
          | some s => str s
          | none => c.resultText := by
  induction es generalizing c with
  | nil =>
    simp only [collectEvents, Option.some.injEq] at h
    subst h
    exact ⟨by simp [allAssistantTexts], rfl⟩
  | cons e rest ih =>
    unfold collectEvents at h
    split at h
    · exact absurd h (by simp)
    · rename_i c1 hc1
      obtain ⟨a1, a2⟩ := collectEvent_blocks e c c1 hc1
      obtain ⟨b1, b2⟩ := ih c1 h
      refine ⟨by rw [b1, a1, allAssistantTexts, List.append_assoc], ?_⟩
      rw [b2, lastStringResult_cons]
      cases lastStringResult rest with
      | some s => rfl
      | none => exact a2

theorem not_result_of_turn {e : JVal} (h : isTurnEvent e = true) : isResultEvent e = false := by
  unfold isResultEvent
  cases hv : e.get (js "type") with
  | str s =>
    simp only [isTurnEvent, hv, JVal.eqStr, Bool.or_eq_true, beq_iff_eq] at h ⊢
    rcases h with (h | h) | h <;> subst h <;> decide
  | _ => rfl

theorem lastStringResult_turns (es : List JVal) (h : ∀ e ∈ es, isTurnEvent e = true) :
    lastStringResult es = none := by
  induction es with
  | nil => rfl
  | cons e rest ih =>
    rw [lastStringResult_cons, ih (fun e' he' => h e' (List.mem_cons_of_mem _ he'))]
    simp [lastStringResult, not_result_of_turn (h e (List.mem_cons_self _ _))]

theorem lastStringResult_snoc (es : List JVal) (r : JVal) (hr : isResultEvent r = true)
    (h : ∀ e ∈ es, isTurnEvent e = true) :
    lastStringResult (es ++ [r])
      = match r.get (js "result") with
        | str s => some s
        | _ => none := by
  induction es with
  | nil => cases hv : r.get (js "result") <;> simp [lastStringResult, hr, hv]
  | cons e rest ih =>
    rw [List.cons_append, lastStringResult_cons,
      ih (fun e' he' => h e' (List.mem_cons_of_mem _ he'))]
    cases hv : r.get (js "result") <;>
      simp [lastStringResult, not_result_of_turn (h e (List.mem_cons_self _ _))]

theorem assistantTexts_of_result {r : JVal} (hr : isResultEvent r = true) :
    assistantTexts r = [] := by
  have hna : (r.get (js "type")).eqStr (js "assistant") = false := by
    cases ha : (r.get (js "type")).eqStr (js "assistant")
    · rfl
    · rw [not_result_of_assistant ha] at hr; exact absurd hr (by decide)
  simp [assistantTexts, hna]

theorem aggregateReadable_of_result {r : JVal} (hr : isResultEvent r = true) :
    aggregateReadable r = true := by
  have hna : (r.get (js "type")).eqStr (js "assistant") = false := by
    cases ha : (r.get (js "type")).eqStr (js "assistant")
    · rfl
    · rw [not_result_of_assistant ha] at hr; exact absurd hr (by decide)
  have hnn : r.isNullish = false := by
    cases r <;> first | rfl | exact absurd hr (by simp [isResultEvent, JVal.get, JVal.eqStr])
  simp [aggregateReadable, hna, hnn]

/-- The visible text of a streamed run of turn events closed by a result event: the text
of the assistant text blocks once an assistant event with an array content was seen, the
string of the result event otherwise. -/
theorem streamed_text_of_run (m : JStr) (M : JVal) (es : List JVal) (r : JVal)
    (hes : ∀ e ∈ es, isTurnEvent e = true ∧ contentReadable e = true)
    (hr : isResultEvent r = true) :
    streamedText (streamLoop (es ++ [r]) (createStreamState m M) null).written
      = if es.any opensMessage then concatTexts (allAssistantTexts es)
        else resultString r := by
  obtain ⟨l1, l2, l3⟩ := streamLoop_turn_text es (createStreamState m M) null hes
  obtain ⟨_, _, s3, _, _⟩ := streamLoop_stream_events es (createStreamState m M) null
    (fun e he => ⟨by simp [isStreamEvent, (hes e he).1], (hes e he).2⟩) (fun _ => rfl)
  obtain ⟨w, _⟩ := streamLoop_snoc_result es r (createStreamState m M) null l1 hr
  rw [w, streamedText_append, l2]
  cases hany : es.any opensMessage
  · have hs : (streamLoop es (createStreamState m M) null).state.messageStarted = false := by
      rw [l3, hany]; rfl
    have ho := s3 hs
    rw [allAssistantTexts_of_not_opens es hany]
    simp only [concatTexts, List.nil_append, Bool.false_eq_true, if_false]
    cases hv : r.get (js "result") with
    | str s =>
      cases s with
      | nil =>
        rw [translateResult_opening_empty r _ hs
          (fun c s h => by rw [hv] at h; cases h)]
        simp [streamedText, Frame.visibleText, messageStartFrame, resultString, hv]
      | cons c s =>
        rw [translateResult_opening_text r _ c s hs ho hv]
        simp [streamedText, Frame.visibleText, messageStartFrame, resultString, hv,
          JVal.toStr]
    | _ =>
      rw [translateResult_opening_empty r _ hs
        (fun c s h => by rw [hv] at h; cases h)]
      simp [streamedText, Frame.visibleText, messageStartFrame, resultString, hv]
  · have hs : (streamLoop es (createStreamState m M) null).state.messageStarted = true := by
      rw [l3, hany]; rfl
    rw [translateResult_started r _ hs]
    simp [streamedText, Frame.visibleText]

/-- The text of the aggregate response for turn events closed by a result event: the text
of the assistant text blocks when there is one, the string of the result event
otherwise. -/
theorem aggregate_text_of_run (m : JStr) (M : JVal) (es : List JVal) (r : JVal)
    (hes : ∀ e ∈ es, isTurnEvent e = true ∧ aggregateReadable e = true)
    (hr : isResultEvent r = true) :
    ∃ agg, buildCompleteResponse m (es ++ [r]) M = some agg
      ∧ concatTexts agg.response.content
        = if (allAssistantTexts es).isEmpty then resultString r
          else concatTexts (allAssistantTexts es) := by
  have hall : ∀ e ∈ es ++ [r], aggregateReadable e = true := by
    intro e he
    rcases List.mem_append.mp he with h | h
    · exact (hes e h).2
    · rw [List.mem_singleton.mp h]; exact aggregateReadable_of_result hr
  obtain ⟨agg, hagg⟩ := buildCompleteResponse_returns m (es ++ [r]) M hall
  obtain ⟨c, fullText, hc, _, _, rfl⟩ := buildCompleteResponse_some m (es ++ [r]) M agg hagg
  refine ⟨_, hagg, ?_⟩
  obtain ⟨b1, b2⟩ := collectEvents_blocks (es ++ [r]) _ c hc
  have hrt : allAssistantTexts [r] = [] := by
    simp [allAssistantTexts, assistantTexts_of_result hr]
  rw [allAssistantTexts_append, hrt, List.append_nil, List.nil_append] at b1
  rw [lastStringResult_snoc es r hr (fun e he => (hes e he).1)] at b2
  show concatTexts (withFallbacks c) = _
  cases hnil : allAssistantTexts es with
  | nil =>
    rw [hnil] at b1
    rw [withFallbacks_of_nil c b1, b2]
    cases hv : r.get (js "result") with
    | str s =>
      cases s <;> simp [concatTexts, resultString, hv, JVal.truthy, JVal.toStr]
    | _ => simp [concatTexts, resultString, hv, JVal.truthy, JVal.toStr]
  | cons b rest =>
    rw [hnil] at b1
    rw [withFallbacks_of_ne_nil c (by rw [b1]; exact List.cons_ne_nil _ _), b1]
    simp

/-- The two modes on the same run of turn events closed by a result event: the streamed
text and the text of the aggregate response are the same, except when some assistant event
has an array content, no assistant event carries a text block, and the result event holds
a non-empty string; the streamed text is then empty and the aggregate text is that
string. -/
theorem visible_text_of_both_modes (m : JStr) (M : JVal) (es : List JVal) (r : JVal)
    (hes : ∀ e ∈ es, isTurnEvent e = true ∧ contentReadable e = true
      ∧ aggregateReadable e = true)
    (hr : isResultEvent r = true) :
    ∃ agg, buildCompleteResponse m (es ++ [r]) M = some agg
      ∧ (¬ (es.any opensMessage = true ∧ allAssistantTexts es = [] ∧ resultString r ≠ []) →
          streamedText (streamLoop (es ++ [r]) (createStreamState m M) null).written
            = concatTexts agg.response.content)
      ∧ (es.any opensMessage = true → allAssistantTexts es = [] → resultString r ≠ [] →
          streamedText (streamLoop (es ++ [r]) (createStreamState m M) null).written = []
            ∧ concatTexts agg.response.content = resultString r) := by
  obtain ⟨agg, hagg, ha⟩ := aggregate_text_of_run m M es r
    (fun e he => ⟨(hes e he).1, (hes e he).2.2⟩) hr
  have hs := streamed_text_of_run m M es r (fun e he => ⟨(hes e he).1, (hes e he).2.1⟩) hr
  refine ⟨agg, hagg, ?_, ?_⟩
  · intro hno
    rw [hs, ha]
    cases hany : es.any opensMessage
    · simp [allAssistantTexts_of_not_opens es hany]
    · cases hnil : allAssistantTexts es with
      | nil =>
        have hres : resultString r = [] := by
          by_contra hne
          exact hno ⟨hany, hnil, hne⟩
        simp [concatTexts, hres]
      | cons b rest => simp
  · intro hany hnil _
    rw [hs, ha, hany, hnil]
    simp [concatTexts]

/-! ### Events after a result event -/

theorem emitBlocks_state (content : List JVal) (st : StreamState) :
    (emitBlocks content st).state
      = { st with
          blockIndex := (emitBlocks content st).state.blockIndex
          outputText := (emitBlocks content st).state.outputText } := by
  induction content generalizing st with
  | nil => rfl
  | cons block rest ih =>
    unfold emitBlocks
    split
    · rfl
    · split
      · simp only
        split
        · rfl
        · exact ih _
      · split
        · exact ih _
        · exact ih st

/-- An assistant event translated once the message has started: no `message_start`, the
triads of its text and thinking blocks numbered from the block index of the state, the
block index advanced by their number and the text of its text blocks appended to the
output text, the rest of the state as it was. -/
theorem translateToSSE_assistant_started (e : JVal) (st : StreamState)
    (hs : st.messageStarted = true)
    (he : (e.get (js "type")).eqStr (js "assistant") = true)
    (hc : contentReadable e = true) :
    (translateToSSE e st).threw = false
      ∧ Triads (translateToSSE e st).frames
      ∧ (∀ content, (e.get (js "message")).get (js "content") = arr content →
          (translateToSSE e st).frames
              = blockTriads st.blockIndex (content.filterMap visibleDelta)
            ∧ (translateToSSE e st).state
              = { st with
                  blockIndex := st.blockIndex + (content.filterMap visibleDelta).length
                  outputText := st.outputText ++ concatTexts (textBlocksOf content) })
      ∧ ((∀ content, (e.get (js "message")).get (js "content") ≠ arr content) →
          translateToSSE e st = ⟨[], st, false⟩) := by
  have hk : isTurnEvent e = true := by simp [isTurnEvent, he]
  obtain ⟨t1, _, _, t4⟩ := translateToSSE_turn e st hk hc
  have htri : Triads (translateToSSE e st).frames := by
    rcases t4 with ⟨_, tb, _⟩ | ⟨ta, _⟩
    · exact tb
    · rw [hs] at ta; exact absurd ta (by decide)
  refine ⟨t1, htri, ?_, ?_⟩
  · intro content hcontent
    rw [translateToSSE_assistant e st he]
    have hte : translateAssistant e st = emitBlocks content st := by
      simp only [translateAssistant, hcontent, hs, Bool.not_true, Bool.false_eq_true, if_false]
    have hall : content.all blockReadable = true := by
      simpa [contentReadable, hcontent, he] using hc
    obtain ⟨_, h2, h3, h4⟩ := emitBlocks_eq content st hall
    rw [hte]
    refine ⟨h2, ?_⟩
    rw [emitBlocks_state content st, h3, h4, h2, streamedText_blockTriads]
  · intro hn
    rw [translateToSSE_assistant e st he]
    cases hcontent : (e.get (js "message")).get (js "content") with
    | arr content => exact absurd hcontent (hn content)
    | _ => simp only [translateAssistant, hcontent]

/-- C5 (counterexample). After a result event has been processed, a second result event
with the same state emits `message_delta` and `message_stop` again, and an assistant event
emits its block triad: later events are not ignored. -/
theorem later_events_not_ignored :
    (translateToSSE (resultEvent (str (js "done")) (str (js "s1")))
        (translateToSSE (resultEvent (str (js "done")) (str (js "s1")))
          (createStreamState (js "m") (str (js "M")))).state).frames
        = [Frame.messageDelta (js "end_turn") 1, Frame.messageStop]
      ∧ (translateToSSE (assistantEvent [textBlock (js "late")])
        (translateToSSE (resultEvent (str (js "done")) (str (js "s1")))
          (createStreamState (js "m") (str (js "M")))).state).frames
        = [Frame.contentBlockStart 1 (.text []),
            Frame.contentBlockDelta 1 (.textDelta (str (js "late"))),
            Frame.contentBlockStop 1]
      ∧ (translateToSSE (assistantEvent [textBlock (js "late")])
        (translateToSSE (resultEvent (str (js "done")) (str (js "s1")))
          (createStreamState (js "m") (str (js "M")))).state).state.outputText
        = js "donelate" :=
  ⟨rfl, rfl, rfl⟩

/-- C5 (amended). Once a result event has been processed the latch is set, and a further
event is still translated: a second result event emits exactly `message_delta` and
`message_stop` (no `message_start`), a system or user event emits no frame and changes at
most the session handle, and an assistant event with readable content emits no
`message_start` but exactly the triads of its text and thinking blocks, numbered from the
block index of the state, advances the block index by their number and appends the text of
its text blocks to the output text, leaving the rest of the state as it was (and does
nothing at all when its content is not an array). -/
theorem events_after_result (st : StreamState) (r e : JVal) (hr : isResultEvent r = true) :
    (translateToSSE r st).state.messageStarted = true
      ∧ (isResultEvent e = true →
          (translateToSSE e (translateToSSE r st).state).frames
            = [Frame.messageDelta (js "end_turn")
                (estimateTokens (translateToSSE r st).state.outputText),
              Frame.messageStop])
      ∧ ((e.get (js "type")).eqStr (js "system") = true
            ∨ (e.get (js "type")).eqStr (js "user") = true →
          (translateToSSE e (translateToSSE r st).state).frames = []
            ∧ (translateToSSE e (translateToSSE r st).state).state
              = { (translateToSSE r st).state with
                  sessionId := (translateToSSE e (translateToSSE r st).state).state.sessionId })
      ∧ ((e.get (js "type")).eqStr (js "assistant") = true → contentReadable e = true →
          (translateToSSE e (translateToSSE r st).state).threw = false
            ∧ Triads (translateToSSE e (translateToSSE r st).state).frames
            ∧ (∀ content, (e.get (js "message")).get (js "content") = arr content →
                (translateToSSE e (translateToSSE r st).state).frames
                    = blockTriads (translateToSSE r st).state.blockIndex
                      (content.filterMap visibleDelta)
                  ∧ (translateToSSE e (translateToSSE r st).state).state
                    = { (translateToSSE r st).state with
                        blockIndex := (translateToSSE r st).state.blockIndex
                          + (content.filterMap visibleDelta).length
                        outputText := (translateToSSE r st).state.outputText
                          ++ concatTexts (textBlocksOf content) })
            ∧ ((∀ content, (e.get (js "message")).get (js "content") ≠ arr content) →
                translateToSSE e (translateToSSE r st).state
                  = ⟨[], (translateToSSE r st).state, false⟩)) := by
  have hstarted : (translateToSSE r st).state.messageStarted = true := by
    rw [translateToSSE_result r st hr]
    exact (translateResult_frames r st).2.1
  refine ⟨hstarted, ?_, ?_, ?_⟩
  · intro he
    rw [translateToSSE_result e _ he]
    simp only [translateResult, hstarted]
    rfl
  · intro he
    rw [translateToSSE_internal e _ he]
    unfold translateInternal
    split <;> exact ⟨rfl, rfl⟩
  · intro he hc
    exact translateToSSE_assistant_started e _ hstarted he hc

/-- Witness of C5 (amended): after a result event without text, an assistant event with a
thinking block and the text block `late` emits the triads of index 0 and 1, and leaves the
block index 2 and the output text `late`. -/
theorem events_after_result_witness :
    (translateToSSE
        (assistantEvent [obj [(js "type", str (js "thinking")), (js "thinking", str (js "hm"))],
          textBlock (js "late")])
        (translateToSSE (resultEvent (str []) (str (js "s1")))
          (createStreamState (js "m") (str (js "M")))).state).frames
        = [Frame.contentBlockStart 0 (.thinking []),
            Frame.contentBlockDelta 0 (.thinkingDelta (str (js "hm"))),
            Frame.contentBlockStop 0,
            Frame.contentBlockStart 1 (.text []),
            Frame.contentBlockDelta 1 (.textDelta (str (js "late"))),
            Frame.contentBlockStop 1]
      ∧ (translateToSSE
        (assistantEvent [obj [(js "type", str (js "thinking")), (js "thinking", str (js "hm"))],
          textBlock (js "late")])
        (translateToSSE (resultEvent (str []) (str (js "s1")))
          (createStreamState (js "m") (str (js "M")))).state).state.blockIndex = 2
      ∧ (translateToSSE
        (assistantEvent [obj [(js "type", str (js "thinking")), (js "thinking", str (js "hm"))],
          textBlock (js "late")])
        (translateToSSE (resultEvent (str []) (str (js "s1")))
          (createStreamState (js "m") (str (js "M")))).state).state.outputText = js "late" :=
  ⟨((((events_after_result (createStreamState (js "m") (str (js "M")))
      (resultEvent (str []) (str (js "s1")))
      (assistantEvent [obj [(js "type", str (js "thinking")), (js "thinking", str (js "hm"))],
        textBlock (js "late")]) rfl).2.2.2 rfl rfl).2.2.1 _ rfl).1).trans rfl,
    (congrArg (fun s => s.blockIndex)
      ((((events_after_result (createStreamState (js "m") (str (js "M")))
        (resultEvent (str []) (str (js "s1")))
        (assistantEvent [obj [(js "type", str (js "thinking")), (js "thinking", str (js "hm"))],
          textBlock (js "late")]) rfl).2.2.2 rfl rfl).2.2.1 _ rfl).2)).trans rfl,
    (congrArg (fun s => s.outputText)
      ((((events_after_result (createStreamState (js "m") (str (js "M")))
        (resultEvent (str []) (str (js "s1")))
        (assistantEvent [obj [(js "type", str (js "thinking")), (js "thinking", str (js "hm"))],
          textBlock (js "late")]) rfl).2.2.2 rfl rfl).2.2.1 _ rfl).2)).trans rfl⟩

/-! ### Conversation keys as registry keys -/

theorem prototypeNames_no_colon : ∀ n ∈ prototypeNames, 58 ∉ n := by decide

theorem isPlainKey_of_colon (k : JStr) (h : 58 ∈ k) : isPlainKey k = true := by
  have hnot : k ∉ prototypeNames := fun hm => prototypeNames_no_colon k hm h
  simp [isPlainKey, hnot]

/-- Every key `getConversationKey` returns starts with `hdr:` or `hash:`, and so names no
member of `Object.prototype`. -/
theorem getConversationKey_plain (sha256Hex : JStr → JStr) (stringify : JVal → JStr)
    (req : Request) (key : JStr)
    (h : getConversationKey sha256Hex stringify req = some key) : isPlainKey key = true := by
  have hhdr : ∀ v : JStr, (58 : Nat) ∈ js "hdr:" ++ v := fun v =>
    List.mem_append_left v (by decide)
  have hhash : ∀ v : JStr, (58 : Nat) ∈ js "hash:" ++ v := fun v =>
    List.mem_append_left v (by decide)
  unfold getConversationKey at h
  split at h
  · simp only [Option.map_eq_some'] at h
    obtain ⟨v, _, rfl⟩ := h
    exact isPlainKey_of_colon _ (hhdr v)
  · split at h
    · exact absurd h (by simp)
    · simp only [Option.map_eq_some'] at h
      obtain ⟨v, _, rfl⟩ := h
      exact isPlainKey_of_colon _ (hhash _)

end CurtisBot
